import Mathlib

/-! VariantCallingSimulations: mergeSNPlogs, compareSNPlogs, diploidizeSNPlog.

A shallow embedding of the three log-reconciliation programs.  Every program
reads tab-delimited logs completely into memory and then makes one forward
pass per scaffold; the embedding starts from the parsed lines.

Conventions of the embedding:

* a log line is the tuple of its tab-delimited fields, with the numeric
  fields already converted (`stol`/`stoul` of a decimal numeral);
* `long` positions are `Int`; allele codes (the values `baseToLong` returns,
  `0..10`) are `Nat`;
* a `std::map<string, vector<T>>` is an association list `LogMap T`, with the
  three operations the programs use: `count`, `operator[]` (which inserts an
  empty vector for a missing key) and `operator[]` followed by `push_back`;
* iterators into a vector are indices into the list; `end()` is the length;
* the two `while` loops of mergeSNPlogs read the element under the cursor
  before they compare the cursor with `end()`; at `end()` the comparison makes
  the condition false whatever was read, so the embedding leaves the loop
  there.  A read through an invalid iterator whose value would be used, and a
  read through `begin()` of an empty vector (a null pointer), make the run
  undefined (`none`);
* strings are ASCII, so `length()` is the number of characters;
* `unsigned long` subtraction and the product `2*scaffold_lengths[s]` are
  taken modulo `2^64`.
-/

namespace VCS

/-! ## Shared data model -/

/-- One line of a mutation log: scaffold, position, reference allele, called
allele, and the optional fifth (depth) column. -/
structure LogLine where
  scaffold : String
  pos : Int
  ref : String
  call : String
  depth : Option Nat := none
deriving DecidableEq, Repr

/-- One line written to the primary output stream by mergeSNPlogs and
diploidizeSNPlog: `scaffold \t position \t ref \t call`. -/
structure OutLine where
  scaffold : String
  pos : Int
  ref : Char
  call : Char
deriving DecidableEq, Repr

/-- The records of one log entry, `array<long, 3>`: position, old allele code,
new allele code. -/
structure SnpRecord where
  pos : Int
  oldallele : Nat
  newallele : Nat
deriving DecidableEq, Repr

/-- A `std::map<string, vector<T>>`. -/
abbrev LogMap (α : Type) := List (String × List α)

/-- The value of `m.count(k)`. -/
def mapCount {α : Type} (m : LogMap α) (k : String) : Nat :=
  match m with
  | [] => 0
  | e :: rest => if e.1 = k then 1 else mapCount rest k

/-- The vector read through `m[k]` (empty when `k` has no entry). -/
def mapAt {α : Type} (m : LogMap α) (k : String) : List α :=
  match m with
  | [] => []
  | e :: rest => if e.1 = k then e.2 else mapAt rest k

/-- The map after evaluating `m[k]`: a missing key gets an empty vector. -/
def mapTouch {α : Type} (m : LogMap α) (k : String) : LogMap α :=
  match m with
  | [] => [(k, [])]
  | e :: rest => if e.1 = k then e :: rest else e :: mapTouch rest k

/-- The map after `m[k].push_back(v)`. -/
def mapPushBack {α : Type} (m : LogMap α) (k : String) (v : α) : LogMap α :=
  match m with
  | [] => [(k, [v])]
  | e :: rest => if e.1 = k then (e.1, e.2 ++ [v]) :: rest else e :: mapPushBack rest k v

/-- The table `char int2bases[] = {'A','C','G','T','N','M','R','W','S','Y','K'}`,
indexed by an allele code.  Every index the programs use is at most 10. -/
def int2bases (code : Nat) : Char :=
  ['A', 'C', 'G', 'T', 'N', 'M', 'R', 'W', 'S', 'Y', 'K'].getD code 'N'

/-- The first character a C++ `base[0]` reads: the terminating NUL for an
empty string. -/
def firstChar (base : String) : Char :=
  match base.data with
  | [] => Char.ofNat 0
  | c :: _ => c

/-! ## diploidizeSNPlog.cpp -/

namespace Diploidize

/-- The function `baseToLong` of diploidizeSNPlog.cpp: only the four nucleotides are
recognised. -/
def baseToLong (base : String) : Nat :=
  match firstChar base with
  | 'A' => 0
  | 'C' => 1
  | 'G' => 2
  | 'T' => 3
  | 'a' => 0
  | 'c' => 1
  | 'g' => 2
  | 't' => 3
  | _ => 4

/-- The function `degenerateBases` of diploidizeSNPlog.cpp. -/
def degenerateBases (a b : Nat) : Nat :=
  if a = b then a
  else if a > 3 ∨ b > 3 then 4
  else if (a = 0 ∧ b = 1) ∨ (a = 1 ∧ b = 0) then 5
  else if (a = 0 ∧ b = 2) ∨ (a = 2 ∧ b = 0) then 6
  else if (a = 0 ∧ b = 3) ∨ (a = 3 ∧ b = 0) then 7
  else if (a = 1 ∧ b = 2) ∨ (a = 2 ∧ b = 1) then 8
  else if (a = 1 ∧ b = 3) ∨ (a = 3 ∧ b = 1) then 9
  else if (a = 2 ∧ b = 3) ∨ (a = 3 ∧ b = 2) then 10
  else 4

/-- The loop that reads a haploid log into `branchN_log`. -/
def readLog (lines : List LogLine) : LogMap SnpRecord :=
  lines.foldl
    (fun m l => mapPushBack m l.scaffold ⟨l.pos, baseToLong l.ref, baseToLong l.call⟩) []

/-- The line written for a position present in one haploid only: the call is
paired with the record's own reference allele. -/
def hetAgainstRef (scaffold : String) (r : SnpRecord) : OutLine :=
  ⟨scaffold, r.pos, int2bases r.oldallele, int2bases (degenerateBases r.newallele r.oldallele)⟩

/-- The line written for a position present in both haploids. -/
def diploidizeSite (scaffold : String) (r1 r2 : SnpRecord) : OutLine :=
  ⟨scaffold, r1.pos, int2bases r1.oldallele, int2bases (degenerateBases r1.newallele r2.newallele)⟩

/-- The two-cursor loop of a scaffold present in both haploids, for a fixed
head `r1` of haploid 1: `k` continues with the rest of haploid 1. -/
def mergeInner (scaffold : String) (r1 : SnpRecord) (rest1 : List SnpRecord)
    (k : List SnpRecord → List OutLine) : List SnpRecord → List OutLine
  | [] => (r1 :: rest1).map (hetAgainstRef scaffold)
  | r2 :: rest2 =>
    if r1.pos < r2.pos then hetAgainstRef scaffold r1 :: k (r2 :: rest2)
    else if r1.pos > r2.pos then
      hetAgainstRef scaffold r2 :: mergeInner scaffold r1 rest1 k rest2
    else diploidizeSite scaffold r1 r2 :: k rest2

/-- The two-cursor loop and the two remainder loops of a scaffold present in
both haploids. -/
def mergeBoth (scaffold : String) : List SnpRecord → List SnpRecord → List OutLine
  | [], b2 => b2.map (hetAgainstRef scaffold)
  | r1 :: rest1, b2 => mergeInner scaffold r1 rest1 (mergeBoth scaffold rest1) b2

/-- The body of the scaffold loop: the lines written for one scaffold. -/
def scaffoldPass (branch1_log branch2_log : LogMap SnpRecord) (scaffold : String) :
    List OutLine :=
  if mapCount branch1_log scaffold = 0 then
    if mapCount branch2_log scaffold > 0 then
      (mapAt branch2_log scaffold).map (hetAgainstRef scaffold)
    else []
  else if mapCount branch2_log scaffold = 0 then
    (mapAt branch1_log scaffold).map (hetAgainstRef scaffold)
  else mergeBoth scaffold (mapAt branch1_log scaffold) (mapAt branch2_log scaffold)

/-- The output of diploidizeSNPlog: `scaffolds` is the first column of the
.fai index, in file order. -/
def main (scaffolds : List String) (hap1 hap2 : List LogLine) : List OutLine :=
  scaffolds.flatMap (scaffoldPass (readLog hap1) (readLog hap2))

/-- The lines a scaffold pass writes at one position, given the record each
haploid has there (if any): used to state what the merge of two position-sorted
haploid vectors writes. -/
def siteLines (scaffold : String) (r1 r2 : Option SnpRecord) : List OutLine :=
  match r1, r2 with
  | some a, some b => [diploidizeSite scaffold a b]
  | some a, none => [hetAgainstRef scaffold a]
  | none, some b => [hetAgainstRef scaffold b]
  | none, none => []

/-- Two output lines that agree in scaffold, position and called allele, and
whose reference alleles differ only if the two haploid logs have lines at that
scaffold and position with different reference alleles (used to compare the
outputs for the two orders of the haploid inputs). -/
def SwapRelated (hap1 hap2 : List LogLine) (x y : OutLine) : Prop :=
  x.scaffold = y.scaffold ∧ x.pos = y.pos ∧ x.call = y.call ∧
  (x.ref ≠ y.ref →
    ∃ l1 ∈ hap1, ∃ l2 ∈ hap2, l1.scaffold = x.scaffold ∧ l2.scaffold = x.scaffold ∧
      l1.pos = x.pos ∧ l2.pos = x.pos ∧ baseToLong l1.ref ≠ baseToLong l2.ref)

/-- The line that repeats a log line with its own symbols (used to state what
diploidizing a log with itself writes). -/
def sameLine (l : LogLine) : OutLine := ⟨l.scaffold, l.pos, firstChar l.ref, firstChar l.call⟩

end Diploidize

/-! ## compareSNPlogs.cpp -/

namespace Compare

/-- The function `baseToLong` of compareSNPlogs.cpp. -/
def baseToLong (base : String) : Nat :=
  match firstChar base with
  | 'A' => 0
  | 'a' => 0
  | 'C' => 1
  | 'c' => 1
  | 'G' => 2
  | 'g' => 2
  | 'T' => 3
  | 't' => 3
  | 'M' => 5
  | 'm' => 5
  | 'R' => 6
  | 'r' => 6
  | 'W' => 7
  | 'w' => 7
  | 'S' => 8
  | 's' => 8
  | 'Y' => 9
  | 'y' => 9
  | 'K' => 10
  | 'k' => 10
  | _ => 4

/-- The function `splitBase` of compareSNPlogs.cpp: the two values it pushes onto the
(empty) output vector, `output[0]` and `output[1]`. -/
def splitBase (base_value : Nat) : Nat × Nat :=
  match base_value with
  | 0 => (0, 0)
  | 1 => (1, 1)
  | 2 => (2, 2)
  | 3 => (3, 3)
  | 4 => (4, 4)
  | 5 => (0, 1)
  | 6 => (0, 2)
  | 7 => (0, 3)
  | 8 => (1, 2)
  | 9 => (1, 3)
  | 10 => (2, 3)
  | _ => (4, 4)

/-- One line of the .fai index: scaffold name and length (`stoul`). -/
structure FaiLine where
  name : String
  length : Nat
deriving DecidableEq, Repr

/-- A record of `observed_log`, `array<string, 3>`: the position column (kept
as text in the source and converted by `stol` at each comparison) and the two
allele strings. -/
structure ObsRecord where
  pos : Int
  oldallele : String
  newallele : String
deriving DecidableEq, Repr

/-- One line of a detail log (false-negative, false-positive, true-positive or
erroneous-call file). -/
structure DetailLine where
  scaffold : String
  pos : Int
  col3 : String
  col4 : String
deriving DecidableEq, Repr

/-- Every variable the scaffold loop of `main` updates, and the four detail
logs (modelled as if all four output paths were given). -/
structure State where
  tps : Nat := 0
  fps : Nat := 0
  tns : Nat := 0
  fns : Nat := 0
  wrong_calls : Nat := 0
  masked_bases : Nat := 0
  indel_sites : Nat := 0
  RR_match : Nat := 0
  RH_mismatch : Nat := 0
  RA_mismatch : Nat := 0
  HR_mismatch : Nat := 0
  HH_match : Nat := 0
  HH_mismatch : Nat := 0
  HA_mismatch : Nat := 0
  AR_mismatch : Nat := 0
  AH_mismatch : Nat := 0
  AA_match : Nat := 0
  AA_mismatch : Nat := 0
  NR_masked : Nat := 0
  NH_masked : Nat := 0
  NA_masked : Nat := 0
  IR_masked : Nat := 0
  IH_masked : Nat := 0
  IA_masked : Nat := 0
  scaffold_tps : Nat := 0
  scaffold_tns : Nat := 0
  scaffold_fps : Nat := 0
  scaffold_fns : Nat := 0
  scaffold_wrong_calls : Nat := 0
  fn_file : List DetailLine := []
  fp_file : List DetailLine := []
  tp_file : List DetailLine := []
  error_file : List DetailLine := []
deriving DecidableEq, Repr

/-- The value of an `unsigned long` expression: reduction modulo `2^64`. -/
def u64 (x : Int) : Nat := (x % 2 ^ 64).toNat

/-- The key `scaffold + ":" + position` of `uncallable_sites`.  Positions are
decimal numerals, so the string key is modelled by the pair. -/
abbrev SiteKey := String × Int

/-- The set after `uncallable_sites.insert(key)` on an `unordered_set`. -/
def setInsert (s : List SiteKey) (k : SiteKey) : List SiteKey :=
  if k ∈ s then s else s ++ [k]

/-- One iteration of the loop that reads the expected SNP log.  `Except.error 7`
is `return 7`. -/
def readExpectedStep (min_depth : Nat)
    (acc : Except Nat (LogMap SnpRecord × List SiteKey)) (l : LogLine) :
    Except Nat (LogMap SnpRecord × List SiteKey) :=
  match acc with
  | .error c => .error c
  | .ok (expected_log, uncallable_sites) =>
    let oldallele := baseToLong l.ref
    let newallele := baseToLong l.call
    let push : Except Nat (LogMap SnpRecord × List SiteKey) :=
      .ok (mapPushBack expected_log l.scaffold ⟨l.pos, oldallele, newallele⟩, uncallable_sites)
    if min_depth > 0 then
      match l.depth with
      | none => .error 7
      | some curdepth =>
        if curdepth < min_depth then
          .ok (expected_log, setInsert uncallable_sites (l.scaffold, l.pos))
        else push
    else push

/-- The loop that reads the expected SNP log into `expected_log` and
`uncallable_sites`. -/
def readExpected (min_depth : Nat) (lines : List LogLine) :
    Except Nat (LogMap SnpRecord × List SiteKey) :=
  lines.foldl (readExpectedStep min_depth) (.ok ([], []))

/-- The loop that reads the observed in.snp file into `observed_log`. -/
def readObserved (lines : List LogLine) : LogMap ObsRecord :=
  lines.foldl (fun m l => mapPushBack m l.scaffold ⟨l.pos, l.ref, l.call⟩) []

/-- The loop that reads the .fai index into `scaffolds`. -/
def readScaffolds (fai : List FaiLine) : List String := fai.map (fun f => f.name)

/-- The loop that reads the .fai index into `scaffold_lengths`; `operator[]`
yields 0 for a missing key and a later line overwrites an earlier one. -/
def scaffold_lengths (fai : List FaiLine) (scaffold : String) : Nat :=
  match fai with
  | [] => 0
  | f :: rest =>
    if rest.any (fun g => g.name = scaffold) then scaffold_lengths rest scaffold
    else if f.name = scaffold then f.length else 0

/-- The sum `genome_size` of the index lengths, an `unsigned long`. -/
def genome_size (fai : List FaiLine) : Nat :=
  fai.foldl (fun g f => (g + f.length) % 2 ^ 64) 0

/-- An expected record with no observed record at its position: the three
copies of this block (scaffold missing from the observed log, position passed
over in the merge, expected remainder) have the same text. -/
def falseNegativeSite (scaffold : String) (e : SnpRecord) (st : State) : State :=
  let st :=
    if e.newallele > 4 then { st with RH_mismatch := st.RH_mismatch + 1 }
    else { st with RA_mismatch := st.RA_mismatch + 1 }
  { st with
    scaffold_fns := st.scaffold_fns + 2
    fn_file := st.fn_file ++
      [⟨scaffold, e.pos, String.singleton (int2bases e.oldallele),
        String.singleton (int2bases e.newallele)⟩] }

/-- An observed record of a scaffold that has no entry in `expected_log`
(lines 395-415). -/
def observedOnlyScaffoldSite (scaffold : String) (o : ObsRecord) (st : State) : State :=
  if o.oldallele.length > 1 ∨ o.newallele.length > 1 then
    { st with indel_sites := st.indel_sites + 1, IR_masked := st.IR_masked + 1 }
  else if o.newallele = "N" then
    { st with masked_bases := st.masked_bases + 1, NR_masked := st.NR_masked + 1 }
  else
    let st :=
      if baseToLong o.newallele > 4 then { st with HR_mismatch := st.HR_mismatch + 1 }
      else { st with AR_mismatch := st.AR_mismatch + 1 }
    { st with
      scaffold_fps := st.scaffold_fps + 2
      fp_file := st.fp_file ++ [⟨scaffold, o.pos, o.oldallele, o.newallele⟩] }

/-- An observed record with no expected record at its position, on a scaffold
present in both logs (lines 447-466, and the same text at 568-587). -/
def falsePositiveSite (uncallable_sites : List SiteKey) (scaffold : String)
    (o : ObsRecord) (st : State) : State :=
  let st :=
    if o.oldallele.length > 1 ∨ o.newallele.length > 1 then
      { st with IR_masked := st.IR_masked + 1, indel_sites := st.indel_sites + 1 }
    else if o.newallele = "N" then
      { st with NR_masked := st.NR_masked + 1, masked_bases := st.masked_bases + 1 }
    else if baseToLong o.newallele > 4 then { st with HR_mismatch := st.HR_mismatch + 1 }
    else { st with AR_mismatch := st.AR_mismatch + 1 }
  if (scaffold, o.pos) ∉ uncallable_sites then
    if o.oldallele.length = 1 ∧ o.newallele.length = 1 ∧ o.newallele ≠ "N" then
      { st with
        scaffold_fps := st.scaffold_fps + 2
        fp_file := st.fp_file ++ [⟨scaffold, o.pos, o.oldallele, o.newallele⟩] }
    else st
  else st

/-- The split-allele attribution of an erroneous call (lines 519-544). -/
def attributeError (e : SnpRecord) (o : ObsRecord) (st : State) : State :=
  let x := splitBase e.newallele
  let y := splitBase (baseToLong o.newallele)
  let ref_base := e.oldallele
  if y.1 = x.1 ∨ y.1 = x.2 ∨ y.2 = x.1 ∨ y.2 = x.2 then
    let st := { st with scaffold_tps := st.scaffold_tps + 1 }
    if y.1 = x.1 ∨ y.1 = x.2 then
      if y.2 = ref_base then { st with scaffold_fns := st.scaffold_fns + 1 }
      else { st with scaffold_wrong_calls := st.scaffold_wrong_calls + 1 }
    else
      if y.2 = ref_base then { st with scaffold_fns := st.scaffold_fns + 1 }
      else { st with scaffold_wrong_calls := st.scaffold_wrong_calls + 1 }
  else if y.1 = ref_base ∨ y.2 = ref_base then
    { st with
      scaffold_fns := st.scaffold_fns + 1
      scaffold_wrong_calls := st.scaffold_wrong_calls + 1 }
  else { st with scaffold_wrong_calls := st.scaffold_wrong_calls + 2 }

/-- A position present in both logs (lines 468-551). -/
def sharedSite (scaffold : String) (e : SnpRecord) (o : ObsRecord) (st : State) : State :=
  if e.newallele = baseToLong o.newallele then
    let st :=
      if e.newallele > 4 then { st with HH_match := st.HH_match + 1 }
      else { st with AA_match := st.AA_match + 1 }
    { st with
      scaffold_tps := st.scaffold_tps + 2
      tp_file := st.tp_file ++
        [⟨scaffold, e.pos, String.singleton (int2bases e.newallele), o.newallele⟩] }
  else if baseToLong o.newallele = 4 then
    let st :=
      if o.oldallele.length > 1 ∨ o.newallele.length > 1 then
        let st :=
          if e.newallele > 4 then { st with IH_masked := st.IH_masked + 1 }
          else { st with IA_masked := st.IA_masked + 1 }
        { st with indel_sites := st.indel_sites + 1 }
      else
        let st :=
          if e.newallele > 4 then { st with NH_masked := st.NH_masked + 1 }
          else { st with NA_masked := st.NA_masked + 1 }
        { st with masked_bases := st.masked_bases + 1 }
    { st with
      scaffold_fns := st.scaffold_fns + 2
      fn_file := st.fn_file ++
        [⟨scaffold, e.pos, String.singleton (int2bases e.oldallele),
          String.singleton (int2bases e.newallele)⟩] }
  else
    let st :=
      if e.newallele > 4 then
        if baseToLong o.newallele > 4 then { st with HH_mismatch := st.HH_mismatch + 1 }
        else { st with AH_mismatch := st.AH_mismatch + 1 }
      else
        if baseToLong o.newallele > 4 then { st with HA_mismatch := st.HA_mismatch + 1 }
        else { st with AA_mismatch := st.AA_mismatch + 1 }
    let st := attributeError e o st
    { st with
      error_file := st.error_file ++
        [⟨scaffold, e.pos, String.singleton (int2bases e.newallele), o.newallele⟩] }

/-- The loop over the expected records left when the observed cursor is at its
end (lines 554-566); also the loop of a scaffold missing from the observed log
(lines 419-429). -/
def expectedRemainder (scaffold : String) (es : List SnpRecord) (st : State) : State :=
  es.foldl (fun st e => falseNegativeSite scaffold e st) st

/-- The loop over the observed records left when the expected cursor is at its
end (lines 567-589). -/
def observedRemainder (uncallable_sites : List SiteKey) (scaffold : String)
    (os : List ObsRecord) (st : State) : State :=
  os.foldl (fun st o => falsePositiveSite uncallable_sites scaffold o st) st

/-- The two-cursor loop (lines 433-552) for a fixed head `e` of the expected
records; `k` continues with the rest of the expected records. -/
def compareInner (uncallable_sites : List SiteKey) (scaffold : String) (e : SnpRecord)
    (rest : List SnpRecord) (k : List ObsRecord → State → State) :
    List ObsRecord → State → State
  | [], st => expectedRemainder scaffold (e :: rest) st
  | o :: os, st =>
    if e.pos < o.pos then k (o :: os) (falseNegativeSite scaffold e st)
    else if e.pos > o.pos then
      compareInner uncallable_sites scaffold e rest k os
        (falsePositiveSite uncallable_sites scaffold o st)
    else k os (sharedSite scaffold e o st)

/-- The two-cursor loop followed by the two remainder loops (lines 431-589). -/
def compareBoth (uncallable_sites : List SiteKey) (scaffold : String) :
    List SnpRecord → List ObsRecord → State → State
  | [], os, st => observedRemainder uncallable_sites scaffold os st
  | e :: rest, os, st =>
    compareInner uncallable_sites scaffold e rest
      (compareBoth uncallable_sites scaffold rest) os st

/-- Line 391: the per-scaffold tallies are declared anew, as 0, in every
iteration of the scaffold loop. -/
def resetScaffoldTallies (st : State) : State :=
  { st with
    scaffold_tps := 0, scaffold_tns := 0, scaffold_fps := 0, scaffold_fns := 0,
    scaffold_wrong_calls := 0 }

/-- The classification of one scaffold (lines 391-590), starting from zeroed
per-scaffold tallies. -/
def classifyScaffold (expected_log : LogMap SnpRecord) (observed_log : LogMap ObsRecord)
    (uncallable_sites : List SiteKey) (scaffold : String) (st : State) : State :=
  let st := resetScaffoldTallies st
  if mapCount expected_log scaffold = 0 then
    if mapCount observed_log scaffold > 0 then
      (mapAt observed_log scaffold).foldl
        (fun st o => observedOnlyScaffoldSite scaffold o st) st
    else st
  else if mapCount observed_log scaffold = 0 then
    expectedRemainder scaffold (mapAt expected_log scaffold) st
  else
    compareBoth uncallable_sites scaffold (mapAt expected_log scaffold)
      (mapAt observed_log scaffold) st

/-- The body of the scaffold loop (lines 391-596): classification, then the
totals and the per-scaffold true-negative count
`2*scaffold_lengths[s] - scaffold_tps - scaffold_fns - scaffold_wrong_calls - scaffold_fps`
in `unsigned long` arithmetic.  The sums of the tallies are not reduced: each
unit comes from a record held in memory, so they stay far below `2^64`. -/
def scaffoldPass (expected_log : LogMap SnpRecord) (observed_log : LogMap ObsRecord)
    (uncallable_sites : List SiteKey) (lengths : String → Nat)
    (st : State) (scaffold : String) : State :=
  let st := classifyScaffold expected_log observed_log uncallable_sites scaffold st
  let scaffold_tns :=
    u64 (2 * (lengths scaffold : Int) - st.scaffold_tps - st.scaffold_fns
      - st.scaffold_wrong_calls - st.scaffold_fps)
  { st with
    tps := st.tps + st.scaffold_tps
    fps := st.fps + st.scaffold_fps
    fns := st.fns + st.scaffold_fns
    wrong_calls := st.wrong_calls + st.scaffold_wrong_calls
    scaffold_tns := scaffold_tns
    tns := (st.tns + scaffold_tns) % 2 ^ 64 }

/-- The statements after the scaffold loop (lines 598-603). -/
def finish (fai : List FaiLine) (uncallable_sites : List SiteKey) (st : State) : State :=
  let tns := u64 ((st.tns : Int) - 2 * uncallable_sites.length)
  let R_mismatches := st.RH_mismatch + st.RA_mismatch
  let H_mismatches := st.HR_mismatch + st.HH_mismatch + st.HA_mismatch
  let A_mismatches := st.AR_mismatch + st.AH_mismatch + st.AA_mismatch
  let mismatches := R_mismatches + H_mismatches + A_mismatches
  { st with
    tns := tns
    RR_match := u64 ((genome_size fai : Int) - st.indel_sites - st.masked_bases
      - mismatches - st.HH_match - st.AA_match) }

/-- The computation of compareSNPlogs from the parsed input files to the
tallies it reports; `Except.error 7` is the exit for a missing depth column. -/
def main (fai : List FaiLine) (expected observed : List LogLine) (min_depth : Nat) :
    Except Nat State :=
  match readExpected min_depth expected with
  | .error c => .error c
  | .ok (expected_log, uncallable_sites) =>
    let observed_log := readObserved observed
    let st := (readScaffolds fai).foldl
      (scaffoldPass expected_log observed_log uncallable_sites (scaffold_lengths fai)) {}
    .ok (finish fai uncallable_sites st)

/-- The exits of `main` before any log is read (lines 242-285): 2 when one of
the three input paths is missing, 3, 5 and 6 when the index, the expected log
or the observed log cannot be opened.  Whether a file opens is an input. -/
def openInputs (expected_path observed_path fai_path : String)
    (fai_opens expected_opens observed_opens : Bool) : Except Nat Unit :=
  if expected_path = "" ∨ observed_path = "" ∨ fai_path = "" then .error 2
  else if ¬ fai_opens then .error 3
  else if ¬ expected_opens then .error 5
  else if ¬ observed_opens then .error 6
  else .ok ()

/-- The twelve counters of which one is incremented for a site: `indel_sites`,
`masked_bases`, the eight mismatch counters, `HH_match`, `AA_match`. -/
def siteCounters (st : State) : List Nat :=
  [st.indel_sites, st.masked_bases, st.RH_mismatch, st.RA_mismatch, st.HR_mismatch,
    st.HH_mismatch, st.HA_mismatch, st.AR_mismatch, st.AH_mismatch, st.AA_mismatch,
    st.HH_match, st.AA_match]

/-- The number of distinct positions among the expected and the observed
records of a scaffold. -/
def distinctSites (es : List SnpRecord) (os : List ObsRecord) : Nat :=
  (es.map (fun r => r.pos) ++ os.map (fun r => r.pos)).dedup.length

/-- From `st` to `st2` the twelve site counters have gained `n` in total,
`indel_sites` has gained what its three sub-buckets have gained, and
`masked_bases` likewise. -/
def Advances (n : Nat) (st st2 : State) : Prop :=
  (siteCounters st2).sum = (siteCounters st).sum + n ∧
  st2.indel_sites + (st.IR_masked + st.IH_masked + st.IA_masked)
    = st.indel_sites + (st2.IR_masked + st2.IH_masked + st2.IA_masked) ∧
  st2.masked_bases + (st.NR_masked + st.NH_masked + st.NA_masked)
    = st.masked_bases + (st2.NR_masked + st2.NH_masked + st2.NA_masked)

/-- The units a scaffold has in the four classification buckets. -/
def scaffoldUnits (st : State) : Nat :=
  st.scaffold_tps + st.scaffold_fps + st.scaffold_fns + st.scaffold_wrong_calls

/-- Positions that increase strictly, the first above `lo` and all at most `hi`. -/
def IncreasingWithin (lo hi : Int) : List Int → Prop
  | [] => True
  | p :: ps => lo < p ∧ p ≤ hi ∧ IncreasingWithin p hi ps

end Compare

/-! ## mergeSNPlogs.cpp -/

namespace Merge

/-- The function `baseToLong` of mergeSNPlogs.cpp. -/
def baseToLong (base : String) : Nat :=
  match firstChar base with
  | 'A' => 0
  | 'a' => 0
  | 'C' => 1
  | 'c' => 1
  | 'G' => 2
  | 'g' => 2
  | 'T' => 3
  | 't' => 3
  | 'M' => 5
  | 'm' => 5
  | 'R' => 6
  | 'r' => 6
  | 'W' => 7
  | 'w' => 7
  | 'S' => 8
  | 's' => 8
  | 'Y' => 9
  | 'y' => 9
  | 'K' => 10
  | 'k' => 10
  | _ => 4

/-- One line of the indel log: scaffold, 0-based position, kind, size. -/
structure IndelLine where
  scaffold : String
  pos : Int
  kind : String
  size : Int
deriving DecidableEq, Repr

/-- A breakpoint `pair<long, long>`: `first` is the position in the source
coordinates of branch 1, `second` the position after the indels. -/
abbrev Breakpoint := Int × Int

/-- One iteration of the loop of `constructIndelMap`, on the pair
(`indel_map`, `cumulativechange`). -/
def indelStep (acc : LogMap Breakpoint × Int) (l : IndelLine) : LogMap Breakpoint × Int :=
  let fresh := mapCount acc.1 l.scaffold = 0
  let indel_map := if fresh then mapPushBack acc.1 l.scaffold (0, 0) else acc.1
  let cumulativechange := if fresh then 0 else acc.2
  if l.size = 0 then (indel_map, cumulativechange)
  else
    let indel_change := if l.kind = "ins" then l.size else -l.size
    let cumulativechange := cumulativechange + indel_change
    let ref_position := l.pos + 1
    let new_position := ref_position + cumulativechange
    (mapPushBack indel_map l.scaffold (ref_position, new_position), cumulativechange)

/-- The function `constructIndelMap`: the map it leaves in `indel_map` (empty on entry). -/
def constructIndelMap (indel_log : List IndelLine) : LogMap Breakpoint :=
  (indel_log.foldl indelStep ([], 0)).1

/-- The loop that reads the branch 1 SNP log into `branch1_log`. -/
def readBranch1 (lines : List LogLine) : LogMap SnpRecord :=
  lines.foldl
    (fun m l => mapPushBack m l.scaffold ⟨l.pos, baseToLong l.ref, baseToLong l.call⟩) []

/-- The value of `firstScaffold` after the branch 1 log is read: the scaffold of its first
line, the empty string for an empty log. -/
def initialScaffold (lines : List LogLine) : String :=
  match lines with
  | [] => ""
  | l :: _ => l.scaffold

/-- The loop `while (newref_position > indelmap_iterator->second &&
indelmap_iterator != end)` over the breakpoints from the cursor onward; the
result is (`indelmap_iterator`, `left_iterator`).  The source reads the
breakpoint before it tests the cursor against `end()`; at `end()` the test
makes the condition false whatever was read, which is the `[]` case. -/
def advanceBreakpoint (newref_position : Int) :
    List Breakpoint → Nat → Nat → Nat × Nat
  | [], it, left => (it, left)
  | bp :: rest, it, left =>
    if newref_position > bp.2 then advanceBreakpoint newref_position rest (it + 1) it
    else (it, left)

/-- The element under a cursor that is inside the vector. -/
def bpAt (v : List Breakpoint) (i : Nat) : Breakpoint := v.getD i (0, 0)

/-- The result of translating one branch 2 position. -/
structure Translation where
  indelmap_iterator : Nat
  left_iterator : Nat
  /-- The adjusted position, `none` when the record is skipped as lying within an insertion -/
  adjusted_position : Option Int
deriving DecidableEq, Repr

/-- Lines 262-286: the coordinate translation of one branch 2 position with the
breakpoint vector `v` of its scaffold and the two persistent cursors.  `none`
stands for undefined behaviour: with an empty vector the code steps the
cursors before `begin()` and reads through them. -/
def translate (v : List Breakpoint) (newref_position : Int) (it left : Nat) :
    Option Translation :=
  if v.length = 0 then none
  else
    let adv := advanceBreakpoint newref_position (v.drop it) it left
    let indelmap_iterator := adv.1
    let left_iterator := adv.2
    let right_iterator :=
      if indelmap_iterator = v.length then indelmap_iterator - 1 else indelmap_iterator
    let indelmap_iterator :=
      if indelmap_iterator = v.length ∨
          (newref_position < (bpAt v indelmap_iterator).2 ∧ indelmap_iterator ≠ 0) then
        indelmap_iterator - 1
      else indelmap_iterator
    let left_ins_flank :=
      (bpAt v left_iterator).2 + (bpAt v right_iterator).1 - (bpAt v left_iterator).1
    let right_ins_flank := (bpAt v right_iterator).2
    if newref_position > left_ins_flank ∧ newref_position < right_ins_flank then
      some ⟨indelmap_iterator, left_iterator, none⟩
    else
      some ⟨indelmap_iterator, left_iterator,
        some (newref_position + (bpAt v indelmap_iterator).1 - (bpAt v indelmap_iterator).2)⟩

/-- The line written for a branch 1 record. -/
def branch1Line (scaffold : String) (r : SnpRecord) : OutLine :=
  ⟨scaffold, r.pos, int2bases r.oldallele, int2bases r.newallele⟩

/-- The loop `while ((*b1log_iterator)[0] < adjusted_position && b1log_iterator
!= end)` over the branch 1 records from the cursor onward: the lines written
and the number of records passed.  As in `advanceBreakpoint`, the record is
read before the cursor is tested against `end()`. -/
def flushBranch1 (scaffold : String) (adjusted_position : Int) :
    List SnpRecord → List OutLine × Nat
  | [] => ([], 0)
  | r :: rest =>
    if r.pos < adjusted_position then
      let tail := flushBranch1 scaffold adjusted_position rest
      (branch1Line scaffold r :: tail.1, tail.2 + 1)
    else ([], 0)

/-- The variables that persist from one branch 2 line to the next, and the
lines written so far. -/
structure State where
  firstScaffold : String
  indelmap_iterator : Nat
  left_iterator : Nat
  b1log_iterator : Nat
  branch1_log : LogMap SnpRecord
  out : List OutLine
deriving DecidableEq, Repr

/-- Lines 250-255: the cursors are reset when the scaffold changes;
`branch1_log[line_vector[0]]` creates the entry of a scaffold that branch 1
does not have. -/
def switchScaffold (st : State) (scaffold : String) : State :=
  if scaffold ≠ st.firstScaffold then
    { st with
      indelmap_iterator := 0
      left_iterator := 0
      b1log_iterator := 0
      branch1_log := mapTouch st.branch1_log scaffold
      firstScaffold := scaffold }
  else st

/-- Lines 300-319: the lines written for a branch 2 record that was translated
to `adjusted_position`, and the new `b1log_iterator`.  `none` stands for
undefined behaviour: for a scaffold that has an entry without records in
`branch1_log` (the entry `operator[]` creates at lines 246 and 253), `begin()`
is null and the condition of the loop at line 303 reads through it. -/
def reconcile (branch1_log : LogMap SnpRecord) (b1log_iterator : Nat) (scaffold : String)
    (adjusted_position : Int) (oldallele newallele : Nat) : Option (List OutLine × Nat) :=
  let own : OutLine := ⟨scaffold, adjusted_position, int2bases oldallele, int2bases newallele⟩
  if mapCount branch1_log scaffold = 0 then some ([own], b1log_iterator)
  else
    let b1 := mapAt branch1_log scaffold
    if b1.length = 0 then none
    else
      let flushed := flushBranch1 scaffold adjusted_position (b1.drop b1log_iterator)
      let b1log_iterator := b1log_iterator + flushed.2
      match b1.get? b1log_iterator with
      | none => some (flushed.1 ++ [own], b1log_iterator)
      | some r =>
        if r.pos = adjusted_position then
          some (flushed.1 ++
            [⟨scaffold, adjusted_position, int2bases r.oldallele, int2bases newallele⟩],
            b1log_iterator)
        else some (flushed.1 ++ [own], b1log_iterator)

/-- The body of the loop over the branch 2 log (lines 247-320); `none` when
`translate` or `reconcile` is undefined. -/
def step (indelmap : LogMap Breakpoint) (st : State) (l : LogLine) : Option State :=
  let st := switchScaffold st l.scaffold
  let oldallele := baseToLong l.ref
  let newallele := baseToLong l.call
  match translate (mapAt indelmap l.scaffold) l.pos st.indelmap_iterator st.left_iterator with
  | none => none
  | some t =>
    let st := { st with
      indelmap_iterator := t.indelmap_iterator, left_iterator := t.left_iterator }
    match t.adjusted_position with
    | none => some st
    | some adjusted_position =>
      match reconcile st.branch1_log st.b1log_iterator l.scaffold adjusted_position
          oldallele newallele with
      | none => none
      | some r => some { st with b1log_iterator := r.2, out := st.out ++ r.1 }

/-- The loop over the branch 2 log. -/
def run (indelmap : LogMap Breakpoint) : State → List LogLine → Option State
  | st, [] => some st
  | st, l :: rest =>
    match step indelmap st l with
    | none => none
    | some st => run indelmap st rest

/-- The state before the first branch 2 line (lines 244-246): `firstScaffold`
is the first scaffold of branch 1 and `branch1_log[firstScaffold]` is
evaluated. -/
def initialState (branch1 : List LogLine) : State :=
  { firstScaffold := initialScaffold branch1
    indelmap_iterator := 0
    left_iterator := 0
    b1log_iterator := 0
    branch1_log := mapTouch (readBranch1 branch1) (initialScaffold branch1)
    out := [] }

/-- The lines mergeSNPlogs writes for an indel log, a branch 1 SNP log and a
branch 2 SNP log; `none` when the run meets undefined behaviour.  After the
loop over branch 2 the program closes the file and returns. -/
def main (indel_log : List IndelLine) (branch1 branch2 : List LogLine) :
    Option (List OutLine) :=
  (run (constructIndelMap indel_log) (initialState branch1) branch2).map (fun st => st.out)

/-- The cursor positions at which the condition of the loop at lines 263-266
evaluates `indelmap_iterator->second`, in order.  The left operand of `&&` is
evaluated at every evaluation of the condition, before the cursor is compared
with `end()`.  The list argument is the part of the vector from the cursor on;
`[]` is the cursor at `end()`. -/
def breakpointReads (newref_position : Int) : List Breakpoint → Nat → List Nat
  | [], it => [it]
  | bp :: rest, it =>
    if newref_position > bp.2 then it :: breakpointReads newref_position rest (it + 1)
    else [it]

/-- The cursor positions at which the condition of the loop at lines 303-306
evaluates `(*b1log_iterator)[0]`, in order; `[]` is the cursor at `end()`. -/
def branch1Reads (adjusted_position : Int) : List SnpRecord → Nat → List Nat
  | [], i => [i]
  | r :: rest, i =>
    if r.pos < adjusted_position then i :: branch1Reads adjusted_position rest (i + 1)
    else [i]

/-- The signed size of an indel event, in the words of the specification:
`+size` for kind "ins", `-size` for any other kind. -/
def signedSize (e : IndelLine) : Int := if e.kind = "ins" then e.size else -e.size

/-- The breakpoints the specification's algorithm appends for a run of events
of one scaffold, starting from the running offset `offset`: an event of size 0
is skipped; any other event changes the offset by its signed size and appends
(`reference_position`, `reference_position + offset`) with
`reference_position = event_position + 1`. -/
def breakpointsFrom (offset : Int) : List IndelLine → List Breakpoint
  | [] => []
  | e :: rest =>
    if e.size = 0 then breakpointsFrom offset rest
    else
      (e.pos + 1, e.pos + 1 + (offset + signedSize e))
        :: breakpointsFrom (offset + signedSize e) rest

/-- No deletion is larger than the distance between its own breakpoint source
(`position + 1`) and the source `prev` of the breakpoint before it; events of
size 0 make no breakpoint. -/
def DeletionsFit (prev : Int) : List IndelLine → Prop
  | [] => True
  | e :: rest =>
    if e.size = 0 then DeletionsFit prev rest
    else (e.kind ≠ "ins" → e.size ≤ e.pos + 1 - prev) ∧ DeletionsFit (e.pos + 1) rest

end Merge

/-! ## Theorems -/

/-! ### The map operations -/

theorem mapAt_pushBack {α : Type} (m : LogMap α) (k s : String) (v : α) :
    mapAt (mapPushBack m k v) s = if k = s then mapAt m s ++ [v] else mapAt m s := by
  induction m with
  | nil => by_cases h : k = s <;> simp [mapPushBack, mapAt, h]
  | cons e rest ih =>
    by_cases hk : e.1 = k <;> by_cases hs : e.1 = s <;> by_cases h : k = s <;>
      simp_all [mapPushBack, mapAt]

theorem mapCount_pushBack {α : Type} (m : LogMap α) (k s : String) (v : α) :
    mapCount (mapPushBack m k v) s = if k = s then 1 else mapCount m s := by
  induction m with
  | nil => by_cases h : k = s <;> simp [mapPushBack, mapCount, h]
  | cons e rest ih =>
    by_cases hk : e.1 = k <;> by_cases hs : e.1 = s <;> by_cases h : k = s <;>
      simp_all [mapPushBack, mapCount]

theorem mapAt_of_count_zero {α : Type} (m : LogMap α) (s : String)
    (h : mapCount m s = 0) : mapAt m s = [] := by
  induction m with
  | nil => rfl
  | cons e rest ih =>
    by_cases hs : e.1 = s
    · simp [mapCount, hs] at h
    · simp [mapCount, hs] at h
      simp [mapAt, hs, ih h]

/-- The vector a reading loop leaves under `s`: the values of the lines of
scaffold `s`, in file order. -/
theorem mapAt_foldl_pushBack {α β : Type} (key : β → String) (val : β → α)
    (ls : List β) (m : LogMap α) (s : String) :
    mapAt (ls.foldl (fun m l => mapPushBack m (key l) (val l)) m) s
      = mapAt m s ++ (ls.filter (fun l => key l = s)).map val := by
  induction ls generalizing m with
  | nil => simp
  | cons l rest ih =>
    simp only [List.foldl_cons, ih, mapAt_pushBack]
    by_cases h : key l = s <;> simp [h, List.filter_cons]

theorem mapCount_foldl_pushBack {α β : Type} (key : β → String) (val : β → α)
    (ls : List β) (m : LogMap α) (s : String) :
    mapCount (ls.foldl (fun m l => mapPushBack m (key l) (val l)) m) s = 0
      ↔ mapCount m s = 0 ∧ ls.filter (fun l => key l = s) = [] := by
  induction ls generalizing m with
  | nil => simp
  | cons l rest ih =>
    simp only [List.foldl_cons, ih, mapCount_pushBack]
    by_cases h : key l = s <;> simp [h, List.filter_cons]

/-! ### The allele codes -/

/-- C10. Ambiguity bijection: two distinct nucleotide codes are encoded by
`degenerateBases` as one of M, R, W, S, Y, K; `splitBase` of that code gives
back the two bases (in one order or the other); two unordered pairs with the
same code are the same pair; and `splitBase` of a homozygous code A, C, G, T, N
is that code twice. -/
theorem ambiguity_bijection :
    (∀ a b : Nat, a < 4 → b < 4 → a ≠ b →
      int2bases (Diploidize.degenerateBases a b) ∈ ['M', 'R', 'W', 'S', 'Y', 'K'] ∧
      (Compare.splitBase (Diploidize.degenerateBases a b) = (a, b) ∨
        Compare.splitBase (Diploidize.degenerateBases a b) = (b, a)) ∧
      ∀ c d : Nat, c < 4 → d < 4 → c ≠ d →
        Diploidize.degenerateBases a b = Diploidize.degenerateBases c d →
        (a = c ∧ b = d) ∨ (a = d ∧ b = c)) ∧
    (∀ c : Nat, c ≤ 4 → Compare.splitBase c = (c, c)) := by
  refine ⟨?_, ?_⟩
  · intro a b ha hb hab
    refine ⟨?_, ?_, ?_⟩
    · interval_cases a <;> interval_cases b <;> first | exact absurd rfl hab | decide
    · interval_cases a <;> interval_cases b <;> first | exact absurd rfl hab | decide
    · intro c d hc hd hcd
      interval_cases a <;> interval_cases b <;> interval_cases c <;> interval_cases d <;>
        first | exact absurd rfl hab | exact absurd rfl hcd | decide
  · intro c hc
    interval_cases c <;> rfl

/-- The encoding of A/G is R and decodes to (A, G); N decodes to (N, N). -/
theorem ambiguity_bijection_witness :
    int2bases (Diploidize.degenerateBases 0 2) ∈ ['M', 'R', 'W', 'S', 'Y', 'K'] ∧
    (Compare.splitBase (Diploidize.degenerateBases 0 2) = (0, 2) ∨
      Compare.splitBase (Diploidize.degenerateBases 0 2) = (2, 0)) ∧
    Compare.splitBase 4 = (4, 4) :=
  ⟨(ambiguity_bijection.1 0 2 (by decide) (by decide) (by decide)).1,
   (ambiguity_bijection.1 0 2 (by decide) (by decide) (by decide)).2.1,
   ambiguity_bijection.2 4 (by decide)⟩



/-! ### diploidizeSNPlog -/

theorem flatMap_filter_perm {β : Type} (key : β → String) (scaffolds : List String)
    (log : List β) (hnd : scaffolds.Nodup) (hin : ∀ l ∈ log, key l ∈ scaffolds) :
    (scaffolds.flatMap (fun s => log.filter (fun l => key l = s))).Perm log := by
  induction scaffolds generalizing log with
  | nil =>
    cases log with
    | nil => simp
    | cons l rest => simpa using hin l (List.mem_cons_self _ _)
  | cons s ss ih =>
    have hs : s ∉ ss := (List.nodup_cons.mp hnd).1
    have hrest :
        ss.flatMap (fun s' => log.filter (fun l => key l = s'))
          = ss.flatMap (fun s' =>
              (log.filter (fun l => ¬ key l = s)).filter (fun l => key l = s')) := by
      apply List.flatMap_congr
      intro s' hs'
      rw [List.filter_filter]
      apply List.filter_congr
      intro l _
      have hne : s' ≠ s := fun h2 => hs (h2 ▸ hs')
      by_cases h : key l = s'
      · simp [h, hne]
      · simp [h]
    rw [List.flatMap_cons, hrest]
    have ih2 := ih (log.filter (fun l => ¬ key l = s)) (List.nodup_cons.mp hnd).2 (by
      intro l hl
      have hl2 := List.mem_filter.mp hl
      have hne : key l ≠ s := by simpa using hl2.2
      rcases List.mem_cons.mp (hin l hl2.1) with h | h
      · exact absurd h hne
      · exact h)
    have h3 := List.filter_append_perm (fun l => decide (key l = s)) log
    refine List.Perm.trans (List.Perm.append_left _ ih2) ?_
    convert h3 using 3
    simp

namespace Diploidize

theorem mergeBoth_self (scaffold : String) (rs : List SnpRecord) :
    mergeBoth scaffold rs rs = rs.map (fun r => diploidizeSite scaffold r r) := by
  induction rs with
  | nil => rfl
  | cons r rest ih => simp [mergeBoth, mergeInner, ih]

theorem degenerateBases_self (a : Nat) : degenerateBases a a = a := by
  simp [degenerateBases]

theorem scaffoldPass_self (m : LogMap SnpRecord) (scaffold : String) :
    scaffoldPass m m scaffold
      = (mapAt m scaffold).map (fun r => diploidizeSite scaffold r r) := by
  unfold scaffoldPass
  by_cases h : mapCount m scaffold = 0
  · simp [h, mapAt_of_count_zero m scaffold h]
  · simp [h, mergeBoth_self]

theorem symbol_roundtrip (a : String) (h : a ∈ ["A", "C", "G", "T", "N"]) :
    int2bases (baseToLong a) = firstChar a := by
  simp only [List.mem_cons, List.mem_singleton, List.not_mem_nil, or_false] at h
  rcases h with h | h | h | h | h <;> rw [h] <;> decide

/-- The output line that repeats a haploid line: same scaffold and position,
the line's own reference and called allele symbols. -/
theorem homozygous_line (l : LogLine)
    (href : l.ref ∈ ["A", "C", "G", "T", "N"]) (hcall : l.call ∈ ["A", "C", "G", "T", "N"]) :
    diploidizeSite l.scaffold ⟨l.pos, baseToLong l.ref, baseToLong l.call⟩
        ⟨l.pos, baseToLong l.ref, baseToLong l.call⟩
      = ⟨l.scaffold, l.pos, firstChar l.ref, firstChar l.call⟩ := by
  rw [diploidizeSite, degenerateBases_self, symbol_roundtrip l.ref href,
    symbol_roundtrip l.call hcall]

/-- C9. Degeneracy symmetry: with both haploid inputs equal to one log whose
alleles are A, C, G, T or N, the output is, scaffold by scaffold in index
order, one line per line of the log on that scaffold, in log order, with the
line's own position, reference allele and called allele; when the index lists
every scaffold of the log, each once, the output has exactly the lines of the
log. -/
theorem degeneracy_symmetry (scaffolds : List String) (log : List LogLine)
    (halleles : ∀ l ∈ log,
      l.ref ∈ ["A", "C", "G", "T", "N"] ∧ l.call ∈ ["A", "C", "G", "T", "N"]) :
    main scaffolds log log
        = scaffolds.flatMap (fun s => (log.filter (fun l => l.scaffold = s)).map sameLine) ∧
    (scaffolds.Nodup → (∀ l ∈ log, l.scaffold ∈ scaffolds) →
      (main scaffolds log log).Perm (log.map sameLine)) := by
  have hmain : main scaffolds log log
      = scaffolds.flatMap (fun s => (log.filter (fun l => l.scaffold = s)).map sameLine) := by
    unfold main
    apply List.flatMap_congr
    intro s _
    rw [scaffoldPass_self, readLog,
      mapAt_foldl_pushBack (fun l : LogLine => l.scaffold)
        (fun l : LogLine => (⟨l.pos, baseToLong l.ref, baseToLong l.call⟩ : SnpRecord))]
    simp only [mapAt, List.nil_append, List.map_map]
    apply List.map_congr_left
    intro l hl
    have hl2 := List.mem_filter.mp hl
    have hsc : l.scaffold = s := by simpa using hl2.2
    have h := homozygous_line l (halleles l hl2.1).1 (halleles l hl2.1).2
    simp only [Function.comp, sameLine]
    rw [← hsc]
    exact h
  refine ⟨hmain, ?_⟩
  intro hnd hin
  rw [hmain, ← List.map_flatMap]
  exact (flatMap_filter_perm (fun l : LogLine => l.scaffold) scaffolds log hnd hin).map _

/-- A two-scaffold log diploidized with itself. -/
theorem degeneracy_symmetry_witness :
    main ["chr1", "chr2"]
        [⟨"chr1", 5, "A", "C", none⟩, ⟨"chr2", 7, "G", "N", none⟩, ⟨"chr1", 9, "T", "T", none⟩]
        [⟨"chr1", 5, "A", "C", none⟩, ⟨"chr2", 7, "G", "N", none⟩, ⟨"chr1", 9, "T", "T", none⟩]
      = [⟨"chr1", 5, 'A', 'C'⟩, ⟨"chr1", 9, 'T', 'T'⟩, ⟨"chr2", 7, 'G', 'N'⟩] ∧
    (main ["chr1", "chr2"]
        [⟨"chr1", 5, "A", "C", none⟩, ⟨"chr2", 7, "G", "N", none⟩, ⟨"chr1", 9, "T", "T", none⟩]
        [⟨"chr1", 5, "A", "C", none⟩, ⟨"chr2", 7, "G", "N", none⟩,
          ⟨"chr1", 9, "T", "T", none⟩]).Perm
      [⟨"chr1", 5, 'A', 'C'⟩, ⟨"chr2", 7, 'G', 'N'⟩, ⟨"chr1", 9, 'T', 'T'⟩] :=
  ⟨(degeneracy_symmetry ["chr1", "chr2"]
      [⟨"chr1", 5, "A", "C", none⟩, ⟨"chr2", 7, "G", "N", none⟩, ⟨"chr1", 9, "T", "T", none⟩]
      (by decide)).1.trans (by decide),
   (degeneracy_symmetry ["chr1", "chr2"]
      [⟨"chr1", 5, "A", "C", none⟩, ⟨"chr2", 7, "G", "N", none⟩, ⟨"chr1", 9, "T", "T", none⟩]
      (by decide)).2 (by decide) (by decide)⟩

end Diploidize


/-! ### compareSNPlogs -/

namespace Compare

/-- The expected record read from a line. -/
theorem readExpected_no_depth_filter (lines : List LogLine) (m : LogMap SnpRecord)
    (u : List SiteKey) :
    lines.foldl (readExpectedStep 0) (.ok (m, u))
      = .ok (lines.foldl (fun m l => mapPushBack m l.scaffold
          (⟨l.pos, baseToLong l.ref, baseToLong l.call⟩ : SnpRecord)) m, u) := by
  induction lines generalizing m with
  | nil => rfl
  | cons l rest ih => simp [readExpectedStep, ih]

theorem compareBoth_same_lines (u : List SiteKey) (s : String) (ls : List LogLine)
    (st : State) :
    compareBoth u s
        (ls.map (fun l => (⟨l.pos, baseToLong l.ref, baseToLong l.call⟩ : SnpRecord)))
        (ls.map (fun l => (⟨l.pos, l.ref, l.call⟩ : ObsRecord))) st
      = ls.foldl (fun st l => sharedSite s ⟨l.pos, baseToLong l.ref, baseToLong l.call⟩
          ⟨l.pos, l.ref, l.call⟩ st) st := by
  induction ls generalizing st with
  | nil => rfl
  | cons l rest ih => simp [compareBoth, compareInner, ih]

/-- The fields of the state that the perfect-match property speaks of. -/
theorem sharedSite_same_line (s : String) (l : LogLine) (st : State) :
    let st2 := sharedSite s ⟨l.pos, baseToLong l.ref, baseToLong l.call⟩
      ⟨l.pos, l.ref, l.call⟩ st
    st2.scaffold_tps = st.scaffold_tps + 2 ∧ st2.scaffold_fps = st.scaffold_fps ∧
    st2.scaffold_fns = st.scaffold_fns ∧ st2.scaffold_wrong_calls = st.scaffold_wrong_calls ∧
    st2.tps = st.tps ∧ st2.fps = st.fps ∧ st2.fns = st.fns ∧
    st2.wrong_calls = st.wrong_calls ∧
    st2.HH_match = st.HH_match + (if baseToLong l.call > 4 then 1 else 0) ∧
    st2.AA_match = st.AA_match + (if baseToLong l.call > 4 then 0 else 1) := by
  by_cases h : baseToLong l.call > 4 <;> simp [sharedSite, h]

theorem foldl_sharedSite_same_lines (s : String) (ls : List LogLine) (st : State) :
    let st2 := ls.foldl (fun st l => sharedSite s ⟨l.pos, baseToLong l.ref, baseToLong l.call⟩
          ⟨l.pos, l.ref, l.call⟩ st) st
    st2.scaffold_tps = st.scaffold_tps + 2 * ls.length ∧ st2.scaffold_fps = st.scaffold_fps ∧
    st2.scaffold_fns = st.scaffold_fns ∧ st2.scaffold_wrong_calls = st.scaffold_wrong_calls ∧
    st2.tps = st.tps ∧ st2.fps = st.fps ∧ st2.fns = st.fns ∧
    st2.wrong_calls = st.wrong_calls ∧
    st2.HH_match = st.HH_match + (ls.filter (fun l => baseToLong l.call > 4)).length ∧
    st2.AA_match = st.AA_match + (ls.filter (fun l => ¬ baseToLong l.call > 4)).length := by
  induction ls generalizing st with
  | nil => simp
  | cons l rest ih =>
    have h1 := sharedSite_same_line s l st
    have h2 := ih (sharedSite s ⟨l.pos, baseToLong l.ref, baseToLong l.call⟩
      ⟨l.pos, l.ref, l.call⟩ st)
    simp only [List.foldl_cons] at *
    obtain ⟨a1, a2, a3, a4, a5, a6, a7, a8, a9, a10⟩ := h1
    obtain ⟨b1, b2, b3, b4, b5, b6, b7, b8, b9, b10⟩ := h2
    refine ⟨?_, ?_, ?_, ?_, ?_, ?_, ?_, ?_, ?_, ?_⟩
    · rw [b1, a1, List.length_cons]; ring
    · rw [b2, a2]
    · rw [b3, a3]
    · rw [b4, a4]
    · rw [b5, a5]
    · rw [b6, a6]
    · rw [b7, a7]
    · rw [b8, a8]
    · rw [b9, a9, List.filter_cons]
      by_cases h : baseToLong l.call > 4
      · rw [if_pos h, if_pos (by simpa using h), List.length_cons]; omega
      · rw [if_neg h, if_neg (by simpa using h)]; omega
    · rw [b10, a10, List.filter_cons]
      by_cases h : baseToLong l.call > 4
      · rw [if_pos h, if_neg (by simpa using h)]; omega
      · rw [if_neg h, if_pos (by simpa using h), List.length_cons]; omega

theorem classifyScaffold_same_lines (s s2 : String) (lines : List LogLine) (u : List SiteKey)
    (hl : ∀ l ∈ lines, l.scaffold = s) (st : State) :
    let st2 := classifyScaffold
      (lines.foldl (fun m l => mapPushBack m l.scaffold
          (⟨l.pos, baseToLong l.ref, baseToLong l.call⟩ : SnpRecord)) [])
      (readObserved lines) u s2 st
    let k := if s2 = s then 1 else 0
    st2.scaffold_tps = k * (2 * lines.length) ∧ st2.scaffold_fps = 0 ∧
    st2.scaffold_fns = 0 ∧ st2.scaffold_wrong_calls = 0 ∧
    st2.tps = st.tps ∧ st2.fps = st.fps ∧ st2.fns = st.fns ∧
    st2.wrong_calls = st.wrong_calls ∧
    st2.HH_match = st.HH_match + k * (lines.filter (fun l => baseToLong l.call > 4)).length ∧
    st2.AA_match
      = st.AA_match + k * (lines.filter (fun l => ¬ baseToLong l.call > 4)).length := by
  intro st2 k
  have hE := mapAt_foldl_pushBack (fun l : LogLine => l.scaffold)
    (fun l : LogLine => (⟨l.pos, baseToLong l.ref, baseToLong l.call⟩ : SnpRecord)) lines [] s2
  have hO := mapAt_foldl_pushBack (fun l : LogLine => l.scaffold)
    (fun l : LogLine => (⟨l.pos, l.ref, l.call⟩ : ObsRecord)) lines [] s2
  have hEc := mapCount_foldl_pushBack (fun l : LogLine => l.scaffold)
    (fun l : LogLine => (⟨l.pos, baseToLong l.ref, baseToLong l.call⟩ : SnpRecord)) lines [] s2
  have hOc := mapCount_foldl_pushBack (fun l : LogLine => l.scaffold)
    (fun l : LogLine => (⟨l.pos, l.ref, l.call⟩ : ObsRecord)) lines [] s2
  simp only [mapAt, mapCount, List.nil_append, true_and] at hE hO hEc hOc
  by_cases hs : s2 = s
  · subst hs
    have hf : lines.filter (fun l => decide (l.scaffold = s2)) = lines :=
      List.filter_eq_self.mpr (fun l h => by simpa using hl l h)
    rw [hf] at hE hO hEc hOc
    by_cases hnil : lines = []
    · subst hnil
      simp [st2, k, classifyScaffold, readObserved, mapCount, resetScaffoldTallies]
    · have h1 : ¬ mapCount (lines.foldl (fun m l => mapPushBack m l.scaffold
          (⟨l.pos, baseToLong l.ref, baseToLong l.call⟩ : SnpRecord)) []) s2 = 0 :=
        fun h => hnil (hEc.mp h)
      have h2 : ¬ mapCount (readObserved lines) s2 = 0 := fun h => hnil (hOc.mp h)
      have h3 := foldl_sharedSite_same_lines s2 lines
        (resetScaffoldTallies st)
      have hst2 : st2 = lines.foldl (fun st l => sharedSite s2
          ⟨l.pos, baseToLong l.ref, baseToLong l.call⟩ ⟨l.pos, l.ref, l.call⟩ st)
          (resetScaffoldTallies st) := by
        simp only [st2, classifyScaffold, h1, h2, if_false]
        rw [hE]
        unfold readObserved
        rw [hO, compareBoth_same_lines]
      rw [hst2]
      simpa [k, resetScaffoldTallies] using h3
  · have hf : lines.filter (fun l => decide (l.scaffold = s2)) = [] :=
      List.filter_eq_nil_iff.mpr (fun l h => by
        simpa using fun h2 : l.scaffold = s2 => hs (h2.symm.trans (hl l h)))
    rw [hf] at hEc hOc
    have h1 := hEc.mpr rfl
    have h2 : mapCount (readObserved lines) s2 = 0 := hOc.mpr rfl
    simp [st2, k, classifyScaffold, h1, h2, hs, resetScaffoldTallies]

theorem scaffoldPass_same_lines (s s2 : String) (lines : List LogLine) (u : List SiteKey)
    (lengths : String → Nat) (hl : ∀ l ∈ lines, l.scaffold = s) (st : State) :
    let st2 := scaffoldPass
      (lines.foldl (fun m l => mapPushBack m l.scaffold
          (⟨l.pos, baseToLong l.ref, baseToLong l.call⟩ : SnpRecord)) [])
      (readObserved lines) u lengths st s2
    let k := if s2 = s then 1 else 0
    st2.tps = st.tps + k * (2 * lines.length) ∧ st2.fps = st.fps ∧ st2.fns = st.fns ∧
    st2.wrong_calls = st.wrong_calls ∧
    st2.HH_match = st.HH_match + k * (lines.filter (fun l => baseToLong l.call > 4)).length ∧
    st2.AA_match
      = st.AA_match + k * (lines.filter (fun l => ¬ baseToLong l.call > 4)).length := by
  intro st2 k
  obtain ⟨a1, a2, a3, a4, a5, a6, a7, a8, a9, a10⟩ :=
    classifyScaffold_same_lines s s2 lines u hl st
  simp only [st2, scaffoldPass]
  refine ⟨?_, ?_, ?_, ?_, ?_, ?_⟩
  · rw [a5, a1]
  · rw [a6, a2]; rfl
  · rw [a7, a3]; rfl
  · rw [a8, a4]; rfl
  · exact a9
  · exact a10

theorem foldl_scaffoldPass_same_lines (s : String) (lines : List LogLine) (u : List SiteKey)
    (lengths : String → Nat) (hl : ∀ l ∈ lines, l.scaffold = s) (idx : List String)
    (st : State) :
    let st2 := idx.foldl (scaffoldPass
      (lines.foldl (fun m l => mapPushBack m l.scaffold
          (⟨l.pos, baseToLong l.ref, baseToLong l.call⟩ : SnpRecord)) [])
      (readObserved lines) u lengths) st
    st2.tps = st.tps + idx.count s * (2 * lines.length) ∧ st2.fps = st.fps ∧
    st2.fns = st.fns ∧ st2.wrong_calls = st.wrong_calls ∧
    st2.HH_match
      = st.HH_match + idx.count s * (lines.filter (fun l => baseToLong l.call > 4)).length ∧
    st2.AA_match
      = st.AA_match
        + idx.count s * (lines.filter (fun l => ¬ baseToLong l.call > 4)).length := by
  induction idx generalizing st with
  | nil => simp
  | cons s2 rest ih =>
    obtain ⟨a1, a2, a3, a4, a5, a6⟩ := scaffoldPass_same_lines s s2 lines u lengths hl st
    obtain ⟨b1, b2, b3, b4, b5, b6⟩ := ih (scaffoldPass
      (lines.foldl (fun m l => mapPushBack m l.scaffold
          (⟨l.pos, baseToLong l.ref, baseToLong l.call⟩ : SnpRecord)) [])
      (readObserved lines) u lengths st s2)
    simp only [List.foldl_cons]
    have hc : (s2 :: rest).count s = rest.count s + (if s2 = s then 1 else 0) := by
      rw [List.count_cons]; simp
    refine ⟨?_, ?_, ?_, ?_, ?_, ?_⟩
    · rw [b1, a1, hc]; ring
    · rw [b2, a2]
    · rw [b3, a3]
    · rw [b4, a4]
    · rw [b5, a5, hc]; ring
    · rw [b6, a6, hc]; ring

/-- C5. Diff perfect match: for a scaffold listed (once) in the index and an
expected log on it, with `min_depth = 0` and an observed log holding the same
lines, the run ends normally with false positives = false negatives = wrong
calls = 0 and true positives = 2 × (number of sites); the matches are counted
as heterozygous for the sites whose call is an ambiguity code and as
homozygous-alt for the others. -/
theorem perfect_match (fai : List FaiLine) (s : String) (lines : List LogLine)
    (hs : (readScaffolds fai).count s = 1) (hl : ∀ l ∈ lines, l.scaffold = s) :
    ∃ st, main fai lines lines 0 = .ok st ∧
      st.fps = 0 ∧ st.fns = 0 ∧ st.wrong_calls = 0 ∧ st.tps = 2 * lines.length ∧
      st.HH_match = (lines.filter (fun l => baseToLong l.call > 4)).length ∧
      st.AA_match = (lines.filter (fun l => ¬ baseToLong l.call > 4)).length := by
  have hr := readExpected_no_depth_filter lines [] []
  obtain ⟨a1, a2, a3, a4, a5, a6⟩ := foldl_scaffoldPass_same_lines s lines []
    (scaffold_lengths fai) hl (readScaffolds fai) {}
  rw [hs] at a1 a5 a6
  refine ⟨finish fai [] ((readScaffolds fai).foldl (scaffoldPass
      (lines.foldl (fun m l => mapPushBack m l.scaffold
          (⟨l.pos, baseToLong l.ref, baseToLong l.call⟩ : SnpRecord)) [])
      (readObserved lines) [] (scaffold_lengths fai)) {}), ?_, ?_⟩
  · unfold main readExpected
    rw [hr]
  · simp only [finish]
    refine ⟨a2, a3, a4, ?_, ?_, ?_⟩
    · rw [a1]; simp
    · rw [a5]; simp
    · rw [a6]; simp

/-- Three sites on `chr1`, one of them heterozygous (call `R`). -/
theorem perfect_match_witness :
    ∃ st, main [⟨"chr1", 1000⟩, ⟨"chr2", 500⟩]
        [⟨"chr1", 10, "A", "C", none⟩, ⟨"chr1", 20, "A", "R", none⟩, ⟨"chr1", 30, "G", "T", none⟩]
        [⟨"chr1", 10, "A", "C", none⟩, ⟨"chr1", 20, "A", "R", none⟩, ⟨"chr1", 30, "G", "T", none⟩]
        0 = .ok st ∧
      st.fps = 0 ∧ st.fns = 0 ∧ st.wrong_calls = 0 ∧ st.tps = 6 ∧
      st.HH_match = 1 ∧ st.AA_match = 2 :=
  perfect_match [⟨"chr1", 1000⟩, ⟨"chr2", 500⟩] "chr1"
    [⟨"chr1", 10, "A", "C", none⟩, ⟨"chr1", 20, "A", "R", none⟩, ⟨"chr1", 30, "G", "T", none⟩]
    (by decide) (by decide)

end Compare

namespace Compare

theorem increasingWithin_of_pairwise (hi : Int) (ps : List Int) (lo : Int)
    (hp : ps.Pairwise (· < ·)) (hb : ∀ p ∈ ps, lo < p ∧ p ≤ hi) :
    IncreasingWithin lo hi ps := by
  induction ps generalizing lo with
  | nil => trivial
  | cons p rest ih =>
    have h1 := List.pairwise_cons.mp hp
    have h2 := hb p (List.mem_cons_self _ _)
    exact ⟨h2.1, h2.2, ih p h1.2 (fun q hq =>
      ⟨h1.1 q hq, (hb q (List.mem_cons_of_mem _ hq)).2⟩)⟩

theorem increasingWithin_weaken (hi : Int) (ps : List Int) (lo lo2 : Int) (h : lo2 ≤ lo)
    (hp : IncreasingWithin lo hi ps) : IncreasingWithin lo2 hi ps := by
  cases ps with
  | nil => trivial
  | cons p rest => exact ⟨lt_of_le_of_lt h hp.1, hp.2.1, hp.2.2⟩

theorem units_falseNegativeSite (s : String) (e : SnpRecord) (st : State) :
    scaffoldUnits (falseNegativeSite s e st) = scaffoldUnits st + 2 := by
  unfold falseNegativeSite scaffoldUnits
  by_cases h : e.newallele > 4 <;> simp [h] <;> omega

theorem units_falsePositiveSite (u : List SiteKey) (s : String) (o : ObsRecord) (st : State) :
    scaffoldUnits (falsePositiveSite u s o st) ≤ scaffoldUnits st + 2 := by
  unfold falsePositiveSite scaffoldUnits
  simp only
  split_ifs <;> simp <;> omega

theorem units_observedOnlyScaffoldSite (s : String) (o : ObsRecord) (st : State) :
    scaffoldUnits (observedOnlyScaffoldSite s o st) ≤ scaffoldUnits st + 2 := by
  unfold observedOnlyScaffoldSite scaffoldUnits
  simp only
  split_ifs <;> simp <;> omega

theorem units_attributeError (e : SnpRecord) (o : ObsRecord) (st : State) :
    scaffoldUnits (attributeError e o st) = scaffoldUnits st + 2 := by
  unfold attributeError scaffoldUnits
  simp only
  split_ifs <;> simp <;> omega

theorem units_sharedSite (s : String) (e : SnpRecord) (o : ObsRecord) (st : State) :
    scaffoldUnits (sharedSite s e o st) = scaffoldUnits st + 2 := by
  have h := units_attributeError e o
  unfold sharedSite
  unfold scaffoldUnits at h ⊢
  simp only
  split_ifs <;> simp [h] <;> omega

theorem foldl_units_bound {α : Type} (pos : α → Int) (f : State → α → State)
    (hf : ∀ st x, scaffoldUnits (f st x) ≤ scaffoldUnits st + 2) (hi : Int)
    (xs : List α) (st : State) (lo : Int) (hlo : lo ≤ hi)
    (hx : IncreasingWithin lo hi (xs.map pos)) :
    (scaffoldUnits (xs.foldl f st) : Int) ≤ scaffoldUnits st + 2 * (hi - lo) := by
  induction xs generalizing st lo with
  | nil => simp only [List.foldl_nil]; omega
  | cons x rest ih =>
    have hx2 : lo < pos x ∧ pos x ≤ hi ∧ IncreasingWithin (pos x) hi (rest.map pos) := hx
    obtain ⟨h1, h2, h3⟩ := hx2
    have h4 := ih (f st x) (pos x) h2 h3
    have h5 := hf st x
    simp only [List.foldl_cons]
    omega

theorem units_expectedRemainder (s : String) (hi : Int) (es : List SnpRecord) (st : State)
    (lo : Int) (hlo : lo ≤ hi) (he : IncreasingWithin lo hi (es.map (fun r => r.pos))) :
    (scaffoldUnits (expectedRemainder s es st) : Int) ≤ scaffoldUnits st + 2 * (hi - lo) :=
  foldl_units_bound (fun r : SnpRecord => r.pos) (fun st e => falseNegativeSite s e st)
    (fun st x => le_of_eq (units_falseNegativeSite s x st)) hi es st lo hlo he

theorem units_observedRemainder (u : List SiteKey) (s : String) (hi : Int)
    (os : List ObsRecord) (st : State) (lo : Int) (hlo : lo ≤ hi)
    (ho : IncreasingWithin lo hi (os.map (fun r => r.pos))) :
    (scaffoldUnits (observedRemainder u s os st) : Int) ≤ scaffoldUnits st + 2 * (hi - lo) :=
  foldl_units_bound (fun r : ObsRecord => r.pos) (fun st o => falsePositiveSite u s o st)
    (fun st x => units_falsePositiveSite u s x st) hi os st lo hlo ho

/-- Every step of the two-cursor loop consumes the smallest position left and
adds at most 2 units, so the units stay within twice the number of positions
between the last position consumed and the scaffold length. -/
theorem units_compareBoth (u : List SiteKey) (s : String) (hi : Int) (es : List SnpRecord) :
    ∀ (os : List ObsRecord) (st : State) (lo : Int), lo ≤ hi →
      IncreasingWithin lo hi (es.map (fun r => r.pos)) →
      IncreasingWithin lo hi (os.map (fun r => r.pos)) →
      (scaffoldUnits (compareBoth u s es os st) : Int) ≤ scaffoldUnits st + 2 * (hi - lo) := by
  induction es with
  | nil =>
    intro os st lo hlo _ ho
    exact units_observedRemainder u s hi os st lo hlo ho
  | cons e rest ih =>
    intro os
    induction os with
    | nil =>
      intro st lo hlo he _
      exact units_expectedRemainder s hi (e :: rest) st lo hlo he
    | cons o os2 ih2 =>
      intro st lo hlo he ho
      have he2 : lo < e.pos ∧ e.pos ≤ hi ∧
          IncreasingWithin e.pos hi (rest.map (fun r => r.pos)) := he
      have ho2 : lo < o.pos ∧ o.pos ≤ hi ∧
          IncreasingWithin o.pos hi (os2.map (fun r => r.pos)) := ho
      obtain ⟨e1, e2, e3⟩ := he2
      obtain ⟨o1, o2, o3⟩ := ho2
      simp only [compareBoth, compareInner]
      by_cases hlt : e.pos < o.pos
      · simp only [hlt, if_true]
        have h := ih (o :: os2) (falseNegativeSite s e st) e.pos e2 e3 ⟨hlt, o2, o3⟩
        have h2 := units_falseNegativeSite s e st
        omega
      · by_cases hgt : e.pos > o.pos
        · simp only [hlt, hgt, if_true, if_false]
          have h := ih2 (falsePositiveSite u s o st) o.pos o2 ⟨hgt, e2, e3⟩ o3
          have h2 := units_falsePositiveSite u s o st
          simp only [compareBoth] at h
          omega
        · simp only [hlt, hgt, if_false]
          have heq : e.pos = o.pos := by omega
          have h := ih os2 (sharedSite s e o st) e.pos e2 e3 (heq ▸ o3)
          have h2 := units_sharedSite s e o st
          omega

theorem units_classifyScaffold (expected_log : LogMap SnpRecord)
    (observed_log : LogMap ObsRecord) (u : List SiteKey) (s : String) (st : State) (hi : Nat)
    (he : IncreasingWithin 0 hi ((mapAt expected_log s).map (fun r => r.pos)))
    (ho : IncreasingWithin 0 hi ((mapAt observed_log s).map (fun r => r.pos))) :
    scaffoldUnits (classifyScaffold expected_log observed_log u s st) ≤ 2 * hi := by
  have h0 : scaffoldUnits (resetScaffoldTallies st) = 0 := rfl
  have hhi : (0 : Int) ≤ hi := Int.natCast_nonneg hi
  unfold classifyScaffold
  simp only
  split_ifs
  · have h := foldl_units_bound (fun r : ObsRecord => r.pos)
      (fun st o => observedOnlyScaffoldSite s o st)
      (fun st x => units_observedOnlyScaffoldSite s x st) hi (mapAt observed_log s)
      (resetScaffoldTallies st) 0 hhi ho
    omega
  · omega
  · have h := units_expectedRemainder s hi (mapAt expected_log s)
      (resetScaffoldTallies st) 0 hhi he
    omega
  · have h := units_compareBoth u s hi (mapAt expected_log s) (mapAt observed_log s)
      (resetScaffoldTallies st) 0 hhi he ho
    omega

/-- C7 as stated fails: a scaffold of length `L = 2^63` without any site
satisfies the hypotheses (there is no position at all), but
`2*scaffold_lengths[s]` wraps to 0 in `unsigned long`, so the true-negative
count is 0 and the five buckets sum to 0, not to `2·L`. -/
theorem conservation_fails_at_length_two_pow_63 :
    scaffold_lengths [⟨"chr1", 9223372036854775808⟩] "chr1" = 9223372036854775808 ∧
    ((mapAt ([] : LogMap SnpRecord) "chr1").map (fun r => r.pos)).Pairwise (· < ·) ∧
    ((mapAt ([] : LogMap ObsRecord) "chr1").map (fun r => r.pos)).Pairwise (· < ·) ∧
    (scaffoldPass [] [] [] (scaffold_lengths [⟨"chr1", 9223372036854775808⟩]) {}
      "chr1").scaffold_tns = 0 ∧
    ¬ ((scaffoldPass [] [] [] (scaffold_lengths [⟨"chr1", 9223372036854775808⟩]) {}
          "chr1").scaffold_tps
        + (scaffoldPass [] [] [] (scaffold_lengths [⟨"chr1", 9223372036854775808⟩]) {}
          "chr1").scaffold_fps
        + (scaffoldPass [] [] [] (scaffold_lengths [⟨"chr1", 9223372036854775808⟩]) {}
          "chr1").scaffold_fns
        + (scaffoldPass [] [] [] (scaffold_lengths [⟨"chr1", 9223372036854775808⟩]) {}
          "chr1").scaffold_tns
        + (scaffoldPass [] [] [] (scaffold_lengths [⟨"chr1", 9223372036854775808⟩]) {}
          "chr1").scaffold_wrong_calls
      = 2 * scaffold_lengths [⟨"chr1", 9223372036854775808⟩] "chr1") := by
  decide

/-- C7, amended. Diff total conservation: for a scaffold of length `L` with
`2·L < 2^64` whose expected and observed positions are strictly increasing and
lie in `1..L`, the scaffold's true-positive + false-positive + false-negative +
wrong-call units are at most `2·L`, the per-scaffold true-negative count is
`2·L` minus those units (no wrap-around), and the five buckets sum to `2·L`. -/
theorem total_conservation (expected_log : LogMap SnpRecord) (observed_log : LogMap ObsRecord)
    (uncallable_sites : List SiteKey) (lengths : String → Nat) (st : State) (s : String)
    (hL : 2 * lengths s < 2 ^ 64)
    (hes : ((mapAt expected_log s).map (fun r => r.pos)).Pairwise (· < ·))
    (heb : ∀ r ∈ mapAt expected_log s, 1 ≤ r.pos ∧ r.pos ≤ lengths s)
    (hos : ((mapAt observed_log s).map (fun r => r.pos)).Pairwise (· < ·))
    (hob : ∀ r ∈ mapAt observed_log s, 1 ≤ r.pos ∧ r.pos ≤ lengths s) :
    let st2 := scaffoldPass expected_log observed_log uncallable_sites lengths st s
    st2.scaffold_tps + st2.scaffold_fps + st2.scaffold_fns + st2.scaffold_wrong_calls
        ≤ 2 * lengths s ∧
    st2.scaffold_tns + (st2.scaffold_tps + st2.scaffold_fns + st2.scaffold_fps
        + st2.scaffold_wrong_calls) = 2 * lengths s ∧
    st2.scaffold_tps + st2.scaffold_fps + st2.scaffold_fns + st2.scaffold_tns
        + st2.scaffold_wrong_calls = 2 * lengths s := by
  intro st2
  have he : IncreasingWithin 0 (lengths s) ((mapAt expected_log s).map (fun r => r.pos)) :=
    increasingWithin_of_pairwise _ _ 0 hes (by
      intro p hp
      obtain ⟨r, hr, rfl⟩ := List.mem_map.mp hp
      have := heb r hr
      omega)
  have ho : IncreasingWithin 0 (lengths s) ((mapAt observed_log s).map (fun r => r.pos)) :=
    increasingWithin_of_pairwise _ _ 0 hos (by
      intro p hp
      obtain ⟨r, hr, rfl⟩ := List.mem_map.mp hp
      have := hob r hr
      omega)
  have hu := units_classifyScaffold expected_log observed_log uncallable_sites s st
    (lengths s) he ho
  unfold scaffoldUnits at hu
  have htns : st2.scaffold_tns = 2 * lengths s
      - (classifyScaffold expected_log observed_log uncallable_sites s st).scaffold_tps
      - (classifyScaffold expected_log observed_log uncallable_sites s st).scaffold_fns
      - (classifyScaffold expected_log observed_log uncallable_sites s st).scaffold_wrong_calls
      - (classifyScaffold expected_log observed_log uncallable_sites s st).scaffold_fps := by
    simp only [st2, scaffoldPass, u64]
    have h64 : (2 : Int) ^ 64 = 18446744073709551616 := by norm_num
    have h64n : (2 : Nat) ^ 64 = 18446744073709551616 := by norm_num
    rw [h64]
    rw [h64n] at hL
    omega
  have h1 : st2.scaffold_tps
      = (classifyScaffold expected_log observed_log uncallable_sites s st).scaffold_tps := rfl
  have h2 : st2.scaffold_fps
      = (classifyScaffold expected_log observed_log uncallable_sites s st).scaffold_fps := rfl
  have h3 : st2.scaffold_fns
      = (classifyScaffold expected_log observed_log uncallable_sites s st).scaffold_fns := rfl
  have h4 : st2.scaffold_wrong_calls
      = (classifyScaffold expected_log observed_log uncallable_sites s st).scaffold_wrong_calls :=
    rfl
  rw [htns, h1, h2, h3, h4]
  omega

/-- A scaffold of length 100 with expected sites 10 (C) and 20 (R) and observed
sites 10 (C) and 15 (G): 2 units of true positives, 2 of false positives, 2 of
false negatives and 194 of true negatives. -/
theorem total_conservation_witness :
    (scaffoldPass [("chr1", [⟨10, 0, 1⟩, ⟨20, 0, 6⟩])]
        [("chr1", [⟨10, "A", "C"⟩, ⟨15, "A", "G"⟩])] [] (fun _ => 100) {} "chr1").scaffold_tns
      = 194 ∧
    (scaffoldPass [("chr1", [⟨10, 0, 1⟩, ⟨20, 0, 6⟩])]
        [("chr1", [⟨10, "A", "C"⟩, ⟨15, "A", "G"⟩])] [] (fun _ => 100) {} "chr1").scaffold_tps
      + (scaffoldPass [("chr1", [⟨10, 0, 1⟩, ⟨20, 0, 6⟩])]
        [("chr1", [⟨10, "A", "C"⟩, ⟨15, "A", "G"⟩])] [] (fun _ => 100) {} "chr1").scaffold_fps
      + (scaffoldPass [("chr1", [⟨10, 0, 1⟩, ⟨20, 0, 6⟩])]
        [("chr1", [⟨10, "A", "C"⟩, ⟨15, "A", "G"⟩])] [] (fun _ => 100) {} "chr1").scaffold_fns
      + (scaffoldPass [("chr1", [⟨10, 0, 1⟩, ⟨20, 0, 6⟩])]
        [("chr1", [⟨10, "A", "C"⟩, ⟨15, "A", "G"⟩])] [] (fun _ => 100) {} "chr1").scaffold_tns
      + (scaffoldPass [("chr1", [⟨10, 0, 1⟩, ⟨20, 0, 6⟩])]
        [("chr1", [⟨10, "A", "C"⟩, ⟨15, "A", "G"⟩])] [] (fun _ => 100) {}
          "chr1").scaffold_wrong_calls
      = 200 :=
  ⟨by decide,
   (total_conservation [("chr1", [⟨10, 0, 1⟩, ⟨20, 0, 6⟩])]
      [("chr1", [⟨10, "A", "C"⟩, ⟨15, "A", "G"⟩])] [] (fun _ => 100) {} "chr1"
      (by decide) (by decide) (by decide) (by decide) (by decide)).2.2⟩


/-- C1. At the claim's own witness input (reference A, expected call G,
observed call R = A/G) the code splits the site into 1 true positive and 1
wrong call: the observed base that matched is `y[1]` = G, the one that did not
is `y[0]` = A = reference, but the branch "y1 matched" tests `y[1]` against the
reference again, so no false negative is counted. -/
theorem attribution_tests_matched_base_at_A_G_R :
    splitBase (baseToLong "G") = (2, 2) ∧ splitBase (baseToLong "R") = (0, 2) ∧
    baseToLong "A" = 0 ∧
    (main [⟨"chr1", 1000⟩] [⟨"chr1", 100, "A", "G", none⟩]
        [⟨"chr1", 100, "A", "R", none⟩] 0).toOption.map
      (fun st => (st.tps, st.fns, st.wrong_calls, st.fps)) = some (1, 0, 1, 0) := by
  decide

/-- C6. On a scaffold whose only expected entry is below `min_depth`, the
scaffold has no entry in `expected_log`, and the loop for a scaffold present
only in the observed log does not consult `uncallable_sites`: the single-base
observed call at the uncallable site is counted as 2 units of false
positives. -/
theorem uncallable_site_counted_as_false_positive :
    (readExpected 5 [⟨"chr1", 100, "A", "C", some 3⟩]).toOption
      = some ([], [("chr1", 100)]) ∧
    (main [⟨"chr1", 1000⟩] [⟨"chr1", 100, "A", "C", some 3⟩]
        [⟨"chr1", 100, "A", "C", none⟩] 5).toOption.map
      (fun st => (st.tps, st.fps, st.fns, st.wrong_calls)) = some (0, 2, 0, 0) := by
  decide

end Compare

/-! ### mergeSNPlogs -/

namespace Merge

/-- C2. Branch 1 has a record at position 5, branch 2 a single record at
position 3 (identity coordinate map): the output holds the branch 2 record
only; the branch 1 record beyond the last branch 2 record is never written. -/
theorem trailing_branch1_record_not_written :
    main [⟨"chr1", 0, "ins", 0⟩] [⟨"chr1", 5, "A", "C", none⟩]
      [⟨"chr1", 3, "A", "G", none⟩] = some [⟨"chr1", 3, 'A', 'G'⟩] ∧
    main [⟨"chr1", 0, "ins", 0⟩] [⟨"chr1", 5, "A", "C", none⟩] [] = some [] := by
  decide

/-- C3. Identity merge of a two-record log with itself under an all-zero-size
indel log: the output has three records, the first record of branch 1 twice. -/
theorem identity_merge_repeats_first_record :
    main [⟨"chr1", 0, "ins", 0⟩]
      [⟨"chr1", 5, "A", "C", none⟩, ⟨"chr1", 9, "G", "T", none⟩]
      [⟨"chr1", 5, "A", "C", none⟩, ⟨"chr1", 9, "G", "T", none⟩]
      = some [⟨"chr1", 5, 'A', 'C'⟩, ⟨"chr1", 5, 'A', 'C'⟩, ⟨"chr1", 9, 'G', 'T'⟩] := by
  decide

/-- C8. Sorted, duplicate-free branch logs with overlapping edits at positions
2 and 7 and the identity breakpoint map `(0,0)`: the positions written are
2, 2, 7, which is not strictly ascending. -/
theorem merged_positions_not_strictly_ascending :
    (main [⟨"chr1", 0, "del", 0⟩]
      [⟨"chr1", 2, "A", "C", none⟩, ⟨"chr1", 7, "C", "T", none⟩]
      [⟨"chr1", 2, "C", "G", none⟩, ⟨"chr1", 7, "T", "A", none⟩]).map
        (fun out => out.map (fun l => l.pos)) = some [2, 2, 7] ∧
    constructIndelMap [⟨"chr1", 0, "del", 0⟩] = [("chr1", [(0, 0)])] ∧
    ¬ ([2, 2, 7] : List Int).Pairwise (· < ·) := by
  decide

theorem mapCount_ne_zero_of_mapAt {α : Type} (m : LogMap α) (s : String) (i : Nat) (r : α)
    (h : (mapAt m s).get? i = some r) : mapCount m s ≠ 0 := by
  intro h0
  rw [mapAt_of_count_zero m s h0] at h
  simp at h

/-- The flush loop writes, unchanged, the branch 1 records from the cursor
onward that lie before the adjusted position, and passes exactly those. -/
theorem flushBranch1_eq_takeWhile (scaffold : String) (q : Int) (xs : List SnpRecord) :
    flushBranch1 scaffold q xs
      = ((xs.takeWhile (fun a => a.pos < q)).map (branch1Line scaffold),
         (xs.takeWhile (fun a => a.pos < q)).length) := by
  induction xs with
  | nil => rfl
  | cons x rest ih =>
    by_cases h : x.pos < q
    · simp [flushBranch1, List.takeWhile_cons, h, ih]
    · simp [flushBranch1, List.takeWhile_cons, h]

/-- Lines 300-319 when, after the flush loop, the record under the branch 1
cursor has the adjusted position: one reduced record is written after the
flushed ones. -/
theorem reconcile_at_cursor (branch1_log : LogMap SnpRecord) (i : Nat) (scaffold : String)
    (q : Int) (oldallele newallele : Nat) (r : SnpRecord)
    (hr : (mapAt branch1_log scaffold).get?
        (i + (((mapAt branch1_log scaffold).drop i).takeWhile (fun a => a.pos < q)).length)
      = some r)
    (hq : r.pos = q) :
    reconcile branch1_log i scaffold q oldallele newallele
      = some ((((mapAt branch1_log scaffold).drop i).takeWhile (fun a => a.pos < q)).map
            (branch1Line scaffold)
          ++ [⟨scaffold, q, int2bases r.oldallele, int2bases newallele⟩],
         i + (((mapAt branch1_log scaffold).drop i).takeWhile (fun a => a.pos < q)).length) := by
  have hc := mapCount_ne_zero_of_mapAt branch1_log scaffold _ r hr
  have hlen : ¬ (mapAt branch1_log scaffold).length = 0 := by
    intro h
    rw [List.length_eq_zero.mp h] at hr
    simp at hr
  unfold reconcile
  simp only [hc, hlen, if_false, flushBranch1_eq_takeWhile, hr, hq, if_true]

/-- C4. Transitive composition.  (1) When a branch 2 record is translated to
the position `q` of the branch 1 record under branch 1's cursor (the cursor as
it stands once the branch 1 records before `q` have been written, unchanged),
the step writes exactly one line for the branch 2 record: position `q`,
branch 1's reference allele and branch 2's called allele; nothing is assumed
about branch 1's called allele and branch 2's reference allele, and the cursor
stays on that record.  (2) For single-record logs on one scaffold, with the
branch 2 position translating to the branch 1 position, the whole output is
that single reduced record. -/
theorem transitive_composition :
    (∀ (indelmap : LogMap Breakpoint) (st : State) (l : LogLine) (t : Translation)
        (q : Int) (r : SnpRecord) (before : List SnpRecord),
      translate (mapAt indelmap l.scaffold) l.pos
          (switchScaffold st l.scaffold).indelmap_iterator
          (switchScaffold st l.scaffold).left_iterator = some t →
      t.adjusted_position = some q →
      before = ((mapAt (switchScaffold st l.scaffold).branch1_log l.scaffold).drop
          (switchScaffold st l.scaffold).b1log_iterator).takeWhile (fun a => a.pos < q) →
      (mapAt (switchScaffold st l.scaffold).branch1_log l.scaffold).get?
          ((switchScaffold st l.scaffold).b1log_iterator + before.length) = some r →
      r.pos = q →
      ∃ st2, step indelmap st l = some st2 ∧
        st2.out = st.out ++ before.map (branch1Line l.scaffold) ++
          [⟨l.scaffold, q, int2bases r.oldallele, int2bases (baseToLong l.call)⟩] ∧
        st2.b1log_iterator = (switchScaffold st l.scaffold).b1log_iterator + before.length) ∧
    (∀ (indel_log : List IndelLine) (a b : LogLine) (t : Translation),
      b.scaffold = a.scaffold →
      translate (mapAt (constructIndelMap indel_log) b.scaffold) b.pos 0 0 = some t →
      t.adjusted_position = some a.pos →
      main indel_log [a] [b]
        = some [⟨a.scaffold, a.pos, int2bases (baseToLong a.ref),
            int2bases (baseToLong b.call)⟩]) := by
  have part1 : ∀ (indelmap : LogMap Breakpoint) (st : State) (l : LogLine) (t : Translation)
        (q : Int) (r : SnpRecord) (before : List SnpRecord),
      translate (mapAt indelmap l.scaffold) l.pos
          (switchScaffold st l.scaffold).indelmap_iterator
          (switchScaffold st l.scaffold).left_iterator = some t →
      t.adjusted_position = some q →
      before = ((mapAt (switchScaffold st l.scaffold).branch1_log l.scaffold).drop
          (switchScaffold st l.scaffold).b1log_iterator).takeWhile (fun a => a.pos < q) →
      (mapAt (switchScaffold st l.scaffold).branch1_log l.scaffold).get?
          ((switchScaffold st l.scaffold).b1log_iterator + before.length) = some r →
      r.pos = q →
      step indelmap st l = some
        { switchScaffold st l.scaffold with
          indelmap_iterator := t.indelmap_iterator
          left_iterator := t.left_iterator
          b1log_iterator := (switchScaffold st l.scaffold).b1log_iterator + before.length
          out := st.out ++ (before.map (branch1Line l.scaffold) ++
            [⟨l.scaffold, q, int2bases r.oldallele, int2bases (baseToLong l.call)⟩]) } := by
    intro indelmap st l t q r before ht hq hb hr hpos
    subst hb
    have hrec := reconcile_at_cursor (switchScaffold st l.scaffold).branch1_log
      (switchScaffold st l.scaffold).b1log_iterator l.scaffold q (baseToLong l.ref)
      (baseToLong l.call) r hr hpos
    have hout : (switchScaffold st l.scaffold).out = st.out := by
      unfold switchScaffold; split_ifs <;> rfl
    unfold step
    simp only [ht, hq, hrec, hout]
  refine ⟨?_, ?_⟩
  · intro indelmap st l t q r before ht hq hb hr hpos
    refine ⟨_, part1 indelmap st l t q r before ht hq hb hr hpos, ?_, rfl⟩
    simp only [List.append_assoc]
  · intro indel_log a b t hsc ht hq
    have hsw : switchScaffold (initialState [a]) b.scaffold = initialState [a] := by
      simp [switchScaffold, initialState, initialScaffold, hsc]
    have hlog : mapAt (initialState [a]).branch1_log b.scaffold
        = [⟨a.pos, baseToLong a.ref, baseToLong a.call⟩] := by
      simp [initialState, initialScaffold, readBranch1, mapPushBack, mapTouch, mapAt, hsc]
    have hit : (initialState [a]).b1log_iterator = 0 := rfl
    have h := part1 (constructIndelMap indel_log) (initialState [a]) b t a.pos
      ⟨a.pos, baseToLong a.ref, baseToLong a.call⟩ []
      (by rw [hsw]; exact ht) hq (by rw [hsw, hlog, hit]; simp)
      (by rw [hsw, hlog, hit]; rfl) rfl
    unfold main run
    rw [h]
    simp [run, initialState, hsc]

/-- A step with one branch 1 record (position 3) to flush before the shared
position 5, where the alleles disagree (branch 1 says A→C, branch 2 says G→T),
and the single-record run `A→C` then `C→T` across an insertion of 3 bases
before the site. -/
theorem transitive_composition_witness :
    (∃ st2, step [("chr1", [(0, 0)])]
        ⟨"chr1", 0, 0, 0, [("chr1", [⟨3, 2, 3⟩, ⟨5, 0, 1⟩])], []⟩ ⟨"chr1", 5, "G", "T", none⟩
          = some st2 ∧
      st2.out = [] ++ [(⟨3, 2, 3⟩ : SnpRecord)].map (branch1Line "chr1") ++
        [⟨"chr1", 5, int2bases 0, int2bases (baseToLong "T")⟩] ∧
      st2.b1log_iterator = 0 + [(⟨3, 2, 3⟩ : SnpRecord)].length) ∧
    main [⟨"chr1", 1, "ins", 3⟩] [⟨"chr1", 8, "A", "C", none⟩] [⟨"chr1", 11, "C", "T", none⟩]
      = some [⟨"chr1", 8, int2bases (baseToLong "A"), int2bases (baseToLong "T")⟩] :=
  ⟨transitive_composition.1 [("chr1", [(0, 0)])]
      ⟨"chr1", 0, 0, 0, [("chr1", [⟨3, 2, 3⟩, ⟨5, 0, 1⟩])], []⟩ ⟨"chr1", 5, "G", "T", none⟩
      ⟨0, 0, some 5⟩ 5 ⟨5, 0, 1⟩ [⟨3, 2, 3⟩]
      (by decide) (by decide) (by decide) (by decide) (by decide),
   transitive_composition.2 [⟨"chr1", 1, "ins", 3⟩] ⟨"chr1", 8, "A", "C", none⟩
      ⟨"chr1", 11, "C", "T", none⟩ ⟨1, 1, some 8⟩ (by decide) (by decide) (by decide)⟩


/-! ### constructIndelMap -/

theorem indelStep_other_scaffold (acc : LogMap Breakpoint × Int) (l : IndelLine) (s : String)
    (h : l.scaffold ≠ s) :
    mapAt (indelStep acc l).1 s = mapAt acc.1 s ∧
    mapCount (indelStep acc l).1 s = mapCount acc.1 s := by
  unfold indelStep
  simp only
  split_ifs <;> simp [mapAt_pushBack, mapCount_pushBack, h]

theorem foldl_indelStep_other_scaffold (ls : List IndelLine) (s : String)
    (h : ∀ e ∈ ls, e.scaffold ≠ s) (acc : LogMap Breakpoint × Int) :
    mapAt (ls.foldl indelStep acc).1 s = mapAt acc.1 s ∧
    mapCount (ls.foldl indelStep acc).1 s = mapCount acc.1 s := by
  induction ls generalizing acc with
  | nil => exact ⟨rfl, rfl⟩
  | cons l rest ih =>
    have h1 := indelStep_other_scaffold acc l s (h l (List.mem_cons_self _ _))
    have h2 := ih (fun e he => h e (List.mem_cons_of_mem _ he)) (indelStep acc l)
    simp only [List.foldl_cons]
    exact ⟨h2.1.trans h1.1, h2.2.trans h1.2⟩

/-- The events of a scaffold that already has its entry: the running offset is
carried on and one breakpoint is appended per event of non-zero size. -/
theorem foldl_indelStep_same_scaffold (ls : List IndelLine) (s : String)
    (h : ∀ e ∈ ls, e.scaffold = s) (acc : LogMap Breakpoint × Int)
    (hc : mapCount acc.1 s ≠ 0) :
    mapAt (ls.foldl indelStep acc).1 s = mapAt acc.1 s ++ breakpointsFrom acc.2 ls ∧
    mapCount (ls.foldl indelStep acc).1 s ≠ 0 := by
  induction ls generalizing acc with
  | nil => simp [breakpointsFrom, hc]
  | cons l rest ih =>
    have hl : l.scaffold = s := h l (List.mem_cons_self _ _)
    have hstep : mapAt (indelStep acc l).1 s
          = mapAt acc.1 s ++ (if l.size = 0 then []
              else [(l.pos + 1, l.pos + 1 + (acc.2 + signedSize l))]) ∧
        mapCount (indelStep acc l).1 s ≠ 0 ∧
        (indelStep acc l).2 = if l.size = 0 then acc.2 else acc.2 + signedSize l := by
      unfold indelStep signedSize
      simp only [hl, hc, if_false]
      by_cases hz : l.size = 0
      · simp [hz, hc]
      · simp [hz, mapAt_pushBack, mapCount_pushBack]
    obtain ⟨h1, h2, h3⟩ := hstep
    have h4 := ih (fun e he => h e (List.mem_cons_of_mem _ he)) (indelStep acc l) h2
    simp only [List.foldl_cons]
    refine ⟨?_, h4.2⟩
    rw [h4.1, h1, h3]
    by_cases hz : l.size = 0 <;> simp [hz, breakpointsFrom]

theorem indelStep_first_event (acc : LogMap Breakpoint × Int) (e : IndelLine) (s : String)
    (he : e.scaffold = s) (hc0 : mapCount acc.1 s = 0) :
    mapAt (indelStep acc e).1 s
        = (0, 0) :: (if e.size = 0 then []
            else [(e.pos + 1, e.pos + 1 + (0 + signedSize e))]) ∧
      mapCount (indelStep acc e).1 s ≠ 0 ∧
      (indelStep acc e).2 = if e.size = 0 then 0 else 0 + signedSize e := by
  have ha0 := mapAt_of_count_zero acc.1 s hc0
  unfold indelStep signedSize
  simp only [he, hc0, if_true]
  by_cases hz : e.size = 0
  · simp [hz, mapAt_pushBack, mapCount_pushBack, ha0]
  · simp [hz, mapAt_pushBack, mapCount_pushBack, ha0]

/-- The breakpoint vector of a scaffold whose events are contiguous in the
indel log. -/
theorem mapAt_constructIndelMap_contiguous (pre mid post : List IndelLine) (s : String)
    (hpre : ∀ e ∈ pre, e.scaffold ≠ s) (hmid : ∀ e ∈ mid, e.scaffold = s) (hne : mid ≠ [])
    (hpost : ∀ e ∈ post, e.scaffold ≠ s) :
    mapAt (constructIndelMap (pre ++ mid ++ post)) s = (0, 0) :: breakpointsFrom 0 mid := by
  unfold constructIndelMap
  rw [List.foldl_append, List.foldl_append]
  have h1 := foldl_indelStep_other_scaffold pre s hpre ([], 0)
  have hc0 : mapCount (pre.foldl indelStep ([], 0)).1 s = 0 := by rw [h1.2]; rfl
  rw [(foldl_indelStep_other_scaffold post s hpost _).1]
  cases mid with
  | nil => exact absurd rfl hne
  | cons e rest =>
    have he : e.scaffold = s := hmid e (List.mem_cons_self _ _)
    obtain ⟨h2, h3, h4⟩ := indelStep_first_event (pre.foldl indelStep ([], 0)) e s he hc0
    have h5 := foldl_indelStep_same_scaffold rest s
      (fun x hx => hmid x (List.mem_cons_of_mem _ hx)) _ h3
    simp only [List.foldl_cons]
    rw [h5.1, h2, h4]
    by_cases hz : e.size = 0 <;> simp [hz, breakpointsFrom]

theorem mapAt_constructIndelMap_absent (indel_log : List IndelLine) (s : String)
    (h : ∀ e ∈ indel_log, e.scaffold ≠ s) : mapAt (constructIndelMap indel_log) s = [] :=
  (foldl_indelStep_other_scaffold indel_log s h ([], 0)).1

/-- A branch 2 record on a scaffold without any event in the indel log: the
breakpoint vector of the scaffold is empty and the translation is undefined. -/
theorem step_undefined_without_indel_events (indel_log : List IndelLine) (st : State)
    (l : LogLine) (h : ∀ e ∈ indel_log, e.scaffold ≠ l.scaffold) :
    step (constructIndelMap indel_log) st l = none := by
  unfold step
  simp [mapAt_constructIndelMap_absent indel_log l.scaffold h, translate]

/-- C11. A branch 2 record `chr2 3 A G` on a scaffold with no event in the
indel log (the log only has `chr1`, or is empty): `indelmap["chr2"]` is an empty
vector, the cursors are stepped before `begin()` and read, and the run is
undefined instead of writing the record at its own position 3. -/
theorem scaffold_without_indel_events_is_undefined :
    mapAt (constructIndelMap [⟨"chr1", 9, "ins", 3⟩]) "chr2" = [] ∧
    main [⟨"chr1", 9, "ins", 3⟩] [⟨"chr2", 5, "A", "C", none⟩]
      [⟨"chr2", 3, "A", "G", none⟩] = none ∧
    main [] [⟨"chr2", 5, "A", "C", none⟩] [⟨"chr2", 3, "A", "G", none⟩] = none ∧
    main [⟨"chr2", 0, "ins", 0⟩] [⟨"chr2", 5, "A", "C", none⟩] [⟨"chr2", 3, "A", "G", none⟩]
      = some [⟨"chr2", 3, 'A', 'G'⟩] := by
  decide

/-- C12 as stated fails: a log with the single event `chr1 0 del 5` (position
order and size ≥ 0 hold) gives the breakpoints (0,0), (1,-4), whose target
coordinate decreases. -/
theorem deletion_makes_target_decrease :
    mapAt (constructIndelMap [⟨"chr1", 0, "del", 5⟩]) "chr1" = [(0, 0), (1, -4)] ∧
    ((([⟨"chr1", 0, "del", 5⟩] : List IndelLine).filter (fun e => e.scaffold = "chr1")).map
      (fun e => e.pos)).Pairwise (· ≤ ·) ∧
    (∀ e ∈ ([⟨"chr1", 0, "del", 5⟩] : List IndelLine), 0 ≤ e.size) ∧
    ¬ ((mapAt (constructIndelMap [⟨"chr1", 0, "del", 5⟩]) "chr1").map
      (fun b => b.2)).Pairwise (· ≤ ·) := by
  decide

theorem breakpointsFrom_monotone (mid : List IndelLine) :
    ∀ (prev offset : Int), (∀ e ∈ mid, prev ≤ e.pos + 1) →
      (mid.map (fun e => e.pos)).Pairwise (· ≤ ·) → (∀ e ∈ mid, 0 ≤ e.size) →
      DeletionsFit prev mid →
      (∀ b ∈ breakpointsFrom offset mid, prev ≤ b.1 ∧ prev + offset ≤ b.2) ∧
      (breakpointsFrom offset mid).Pairwise (fun a b => a.1 ≤ b.1 ∧ a.2 ≤ b.2) := by
  induction mid with
  | nil =>
    intro prev offset _ _ _ _
    simp [breakpointsFrom]
  | cons e rest ih =>
    intro prev offset hprev hord hsize hfit
    have hord2 := List.pairwise_cons.mp hord
    have he := hprev e (List.mem_cons_self _ _)
    have hs := hsize e (List.mem_cons_self _ _)
    by_cases hz : e.size = 0
    · have hfit2 : DeletionsFit prev rest := by
        simpa [DeletionsFit, hz] using hfit
      have h := ih prev offset (fun x hx => hprev x (List.mem_cons_of_mem _ hx)) hord2.2
        (fun x hx => hsize x (List.mem_cons_of_mem _ hx)) hfit2
      simpa [breakpointsFrom, hz] using h
    · have hfit2 : (e.kind ≠ "ins" → e.size ≤ e.pos + 1 - prev) ∧
          DeletionsFit (e.pos + 1) rest := by
        simpa [DeletionsFit, hz] using hfit
      have hnext : ∀ x ∈ rest, e.pos + 1 ≤ x.pos + 1 := by
        intro x hx
        have h3 : e.pos ≤ x.pos := hord2.1 x.pos (List.mem_map.mpr ⟨x, hx, rfl⟩)
        omega
      have h := ih (e.pos + 1) (offset + signedSize e) hnext hord2.2
        (fun x hx => hsize x (List.mem_cons_of_mem _ hx)) hfit2.2
      have hsigned : prev ≤ e.pos + 1 + signedSize e := by
        unfold signedSize
        by_cases hk : e.kind = "ins"
        · simp only [hk, if_true]; omega
        · simp only [hk, if_false]
          have := hfit2.1 hk
          omega
      simp only [breakpointsFrom, hz, if_false, List.mem_cons, List.pairwise_cons]
      refine ⟨?_, ?_, h.2⟩
      · intro b hb
        rcases hb with hb | hb
        · subst hb
          constructor
          · exact he
          · show prev + offset ≤ e.pos + 1 + (offset + signedSize e)
            omega
        · have := h.1 b hb
          omega
      · intro b hb
        have := h.1 b hb
        omega

/-- C12, amended. For an indel log in which the events of a scaffold are
contiguous, at positions `≥ 0` in non-decreasing order, with sizes `≥ 0`, and
in which no deletion is larger than the distance between its breakpoint source
and the source of the breakpoint before it, the breakpoint sequence
constructIndelMap builds for the scaffold begins with (0,0) and is
non-decreasing in both the source and the target coordinate. -/
theorem breakpoints_nondecreasing (pre mid post : List IndelLine) (s : String)
    (hpre : ∀ e ∈ pre, e.scaffold ≠ s) (hmid : ∀ e ∈ mid, e.scaffold = s) (hne : mid ≠ [])
    (hpost : ∀ e ∈ post, e.scaffold ≠ s)
    (hpos : ∀ e ∈ mid, 0 ≤ e.pos) (hord : (mid.map (fun e => e.pos)).Pairwise (· ≤ ·))
    (hsize : ∀ e ∈ mid, 0 ≤ e.size) (hfit : DeletionsFit 0 mid) :
    (mapAt (constructIndelMap (pre ++ mid ++ post)) s).head? = some (0, 0) ∧
    ((mapAt (constructIndelMap (pre ++ mid ++ post)) s).map (fun b => b.1)).Pairwise (· ≤ ·) ∧
    ((mapAt (constructIndelMap (pre ++ mid ++ post)) s).map (fun b => b.2)).Pairwise
      (· ≤ ·) := by
  rw [mapAt_constructIndelMap_contiguous pre mid post s hpre hmid hne hpost]
  have h := breakpointsFrom_monotone mid 0 0
    (fun e he => by have := hpos e he; omega) hord hsize hfit
  refine ⟨rfl, ?_, ?_⟩
  · simp only [List.map_cons, List.pairwise_cons, List.mem_map]
    refine ⟨?_, ?_⟩
    · rintro a ⟨b, hb, rfl⟩
      exact (h.1 b hb).1
    · exact List.Pairwise.map _ (fun a b hab => hab.1) h.2
  · simp only [List.map_cons, List.pairwise_cons, List.mem_map]
    refine ⟨?_, ?_⟩
    · rintro a ⟨b, hb, rfl⟩
      have := (h.1 b hb).2
      omega
    · exact List.Pairwise.map _ (fun a b hab => hab.2) h.2

/-- The log `chr2 4 ins 1`, `chr1 9 ins 3`, `chr1 9 ins 0`, `chr1 20 del 2`,
`chr3 0 del 0`: the breakpoints of `chr1` are (0,0), (10,13), (21,22). -/
theorem breakpoints_nondecreasing_witness :
    (mapAt (constructIndelMap ([⟨"chr2", 4, "ins", 1⟩] ++
        [⟨"chr1", 9, "ins", 3⟩, ⟨"chr1", 9, "ins", 0⟩, ⟨"chr1", 20, "del", 2⟩] ++
        [⟨"chr3", 0, "del", 0⟩])) "chr1").head? = some (0, 0) ∧
    ((mapAt (constructIndelMap ([⟨"chr2", 4, "ins", 1⟩] ++
        [⟨"chr1", 9, "ins", 3⟩, ⟨"chr1", 9, "ins", 0⟩, ⟨"chr1", 20, "del", 2⟩] ++
        [⟨"chr3", 0, "del", 0⟩])) "chr1").map (fun b => b.1)).Pairwise (· ≤ ·) ∧
    ((mapAt (constructIndelMap ([⟨"chr2", 4, "ins", 1⟩] ++
        [⟨"chr1", 9, "ins", 3⟩, ⟨"chr1", 9, "ins", 0⟩, ⟨"chr1", 20, "del", 2⟩] ++
        [⟨"chr3", 0, "del", 0⟩])) "chr1").map (fun b => b.2)).Pairwise (· ≤ ·) :=
  breakpoints_nondecreasing [⟨"chr2", 4, "ins", 1⟩]
    [⟨"chr1", 9, "ins", 3⟩, ⟨"chr1", 9, "ins", 0⟩, ⟨"chr1", 20, "del", 2⟩]
    [⟨"chr3", 0, "del", 0⟩] "chr1" (by decide) (by decide) (by decide) (by decide)
    (by decide) (by decide) (by decide) (by simp [DeletionsFit])

theorem breakpointsFrom_sources (mid : List IndelLine) (offset : Int) :
    (breakpointsFrom offset mid).map (fun b => b.1)
      = (mid.filter (fun e => e.size ≠ 0)).map (fun e => e.pos + 1) := by
  induction mid generalizing offset with
  | nil => rfl
  | cons e rest ih =>
    by_cases hz : e.size = 0
    · simp [breakpointsFrom, hz, ih, List.filter_cons]
    · simp [breakpointsFrom, hz, ih, List.filter_cons]

theorem breakpointsFrom_length (mid : List IndelLine) (offset : Int) :
    (breakpointsFrom offset mid).length = (mid.filter (fun e => e.size ≠ 0)).length := by
  have h := congrArg List.length (breakpointsFrom_sources mid offset)
  simpa using h

theorem breakpointsFrom_append (before after : List IndelLine) (offset : Int) :
    breakpointsFrom offset (before ++ after)
      = breakpointsFrom offset before
        ++ breakpointsFrom (offset + (before.map signedSize).sum) after := by
  induction before generalizing offset with
  | nil => simp [breakpointsFrom]
  | cons e rest ih =>
    by_cases hz : e.size = 0
    · have hs : signedSize e = 0 := by simp [signedSize, hz]
      simp [breakpointsFrom, hz, ih, hs]
    · simp [breakpointsFrom, hz, ih, add_assoc]

/-- C13. For a scaffold whose events are contiguous in the indel log,
constructIndelMap yields (0,0) followed by exactly one breakpoint per event of
non-zero size, in log order, with source `q + 1` for an event at position `q`;
the breakpoint of such an event has target − source equal to the sum of the
signed sizes of the scaffold's events up to and including it; an event of size
0 has signed size 0, so it adds no breakpoint and leaves the offset
unchanged. -/
theorem breakpoints_of_contiguous_scaffold (pre mid post : List IndelLine) (s : String)
    (hpre : ∀ e ∈ pre, e.scaffold ≠ s) (hmid : ∀ e ∈ mid, e.scaffold = s) (hne : mid ≠ [])
    (hpost : ∀ e ∈ post, e.scaffold ≠ s) :
    ∃ bps : List Breakpoint,
      mapAt (constructIndelMap (pre ++ mid ++ post)) s = (0, 0) :: bps ∧
      bps.map (fun b => b.1) = (mid.filter (fun e => e.size ≠ 0)).map (fun e => e.pos + 1) ∧
      (∀ (before after : List IndelLine) (e : IndelLine),
        mid = before ++ e :: after → e.size ≠ 0 →
        bps.get? (before.filter (fun x => x.size ≠ 0)).length
          = some (e.pos + 1, e.pos + 1 + ((before ++ [e]).map signedSize).sum)) ∧
      (∀ e ∈ mid, e.size = 0 → signedSize e = 0) := by
  refine ⟨breakpointsFrom 0 mid,
    mapAt_constructIndelMap_contiguous pre mid post s hpre hmid hne hpost,
    breakpointsFrom_sources mid 0, ?_, ?_⟩
  · intro before after e hsplit hz
    rw [hsplit, breakpointsFrom_append, ← breakpointsFrom_length before 0]
    simp only [List.get?_eq_getElem?]
    rw [List.getElem?_append_right (le_refl _)]
    simp [breakpointsFrom, hz]
  · intro e _ hz
    simp [signedSize, hz]

/-- The log `chr2 4 ins 1`, `chr1 9 ins 3`, `chr1 12 del 0`, `chr1 20 del 2`:
the breakpoints of `chr1` are (0,0), (10,13), (21,22), and the one of the
deletion at position 20 is the second, with offset 3 + 0 - 2 = 1. -/
theorem breakpoints_of_contiguous_scaffold_witness :
    ∃ bps : List Breakpoint,
      mapAt (constructIndelMap ([⟨"chr2", 4, "ins", 1⟩] ++
        [⟨"chr1", 9, "ins", 3⟩, ⟨"chr1", 12, "del", 0⟩, ⟨"chr1", 20, "del", 2⟩] ++ [])) "chr1"
        = (0, 0) :: bps ∧
      bps.map (fun b => b.1) = [10, 21] ∧
      bps.get? 1 = some (21, 22) := by
  obtain ⟨bps, h1, h2, h3, _⟩ := breakpoints_of_contiguous_scaffold [⟨"chr2", 4, "ins", 1⟩]
    [⟨"chr1", 9, "ins", 3⟩, ⟨"chr1", 12, "del", 0⟩, ⟨"chr1", 20, "del", 2⟩] [] "chr1"
    (by decide) (by decide) (by decide) (by decide)
  exact ⟨bps, h1, h2,
    h3 [⟨"chr1", 9, "ins", 3⟩, ⟨"chr1", 12, "del", 0⟩] [] ⟨"chr1", 20, "del", 2⟩ rfl
      (by decide)⟩

end Merge

/-! ### compareSNPlogs: the classification of one site -/

namespace Compare

/-- C14. A site present in both logs (the two cursors are at the same
position) whose decoded calls differ, whose observed call is not N, and where
neither observed base equals an expected base or the expected reference base:
the loop classifies it by `sharedSite` and moves both cursors on, and the site
adds exactly 2 to wrong calls and nothing to true positives, false negatives
or false positives. -/
theorem no_overlap_two_wrong_calls (u : List SiteKey) (s : String) (e : SnpRecord)
    (rest : List SnpRecord) (o : ObsRecord) (os : List ObsRecord) (st : State)
    (hpos : e.pos = o.pos) (hdiff : e.newallele ≠ baseToLong o.newallele)
    (hN : baseToLong o.newallele ≠ 4)
    (hy0 : (splitBase (baseToLong o.newallele)).1 ≠ (splitBase e.newallele).1 ∧
      (splitBase (baseToLong o.newallele)).1 ≠ (splitBase e.newallele).2)
    (hy1 : (splitBase (baseToLong o.newallele)).2 ≠ (splitBase e.newallele).1 ∧
      (splitBase (baseToLong o.newallele)).2 ≠ (splitBase e.newallele).2)
    (hr : (splitBase (baseToLong o.newallele)).1 ≠ e.oldallele ∧
      (splitBase (baseToLong o.newallele)).2 ≠ e.oldallele) :
    compareBoth u s (e :: rest) (o :: os) st = compareBoth u s rest os (sharedSite s e o st) ∧
    (sharedSite s e o st).scaffold_wrong_calls = st.scaffold_wrong_calls + 2 ∧
    (sharedSite s e o st).scaffold_tps = st.scaffold_tps ∧
    (sharedSite s e o st).scaffold_fns = st.scaffold_fns ∧
    (sharedSite s e o st).scaffold_fps = st.scaffold_fps := by
  refine ⟨by simp [compareBoth, compareInner, hpos], ?_⟩
  unfold sharedSite attributeError
  simp only [hdiff, hN, hy0.1, hy0.2, hy1.1, hy1.2, hr.1, hr.2, if_false, or_self]
  split_ifs <;> simp

/-- The site of the example: expected `chr1 100 A C`, observed `chr1 100 A G`. -/
theorem no_overlap_two_wrong_calls_witness :
    compareBoth [] "chr1" [⟨100, 0, 1⟩] [⟨100, "A", "G"⟩] {}
      = compareBoth [] "chr1" [] [] (sharedSite "chr1" ⟨100, 0, 1⟩ ⟨100, "A", "G"⟩ {}) ∧
    (sharedSite "chr1" ⟨100, 0, 1⟩ ⟨100, "A", "G"⟩ {}).scaffold_wrong_calls = 0 + 2 ∧
    (sharedSite "chr1" ⟨100, 0, 1⟩ ⟨100, "A", "G"⟩ {}).scaffold_tps = 0 ∧
    (sharedSite "chr1" ⟨100, 0, 1⟩ ⟨100, "A", "G"⟩ {}).scaffold_fns = 0 ∧
    (sharedSite "chr1" ⟨100, 0, 1⟩ ⟨100, "A", "G"⟩ {}).scaffold_fps = 0 :=
  no_overlap_two_wrong_calls [] "chr1" ⟨100, 0, 1⟩ [] ⟨100, "A", "G"⟩ [] {}
    (by decide) (by decide) (by decide) (by decide) (by decide) (by decide)

/-- C15. A site present in both logs whose decoded calls differ, whose
observed call is not N, where neither observed base equals an expected base
but one observed base equals the expected reference base: the loop classifies
it by `sharedSite` and moves both cursors on, and the site adds exactly 1 to
false negatives and 1 to wrong calls, nothing to true positives or false
positives. -/
theorem reference_base_one_false_negative_one_wrong (u : List SiteKey) (s : String)
    (e : SnpRecord) (rest : List SnpRecord) (o : ObsRecord) (os : List ObsRecord) (st : State)
    (hpos : e.pos = o.pos) (hdiff : e.newallele ≠ baseToLong o.newallele)
    (hN : baseToLong o.newallele ≠ 4)
    (hy0 : (splitBase (baseToLong o.newallele)).1 ≠ (splitBase e.newallele).1 ∧
      (splitBase (baseToLong o.newallele)).1 ≠ (splitBase e.newallele).2)
    (hy1 : (splitBase (baseToLong o.newallele)).2 ≠ (splitBase e.newallele).1 ∧
      (splitBase (baseToLong o.newallele)).2 ≠ (splitBase e.newallele).2)
    (hr : (splitBase (baseToLong o.newallele)).1 = e.oldallele ∨
      (splitBase (baseToLong o.newallele)).2 = e.oldallele) :
    compareBoth u s (e :: rest) (o :: os) st = compareBoth u s rest os (sharedSite s e o st) ∧
    (sharedSite s e o st).scaffold_fns = st.scaffold_fns + 1 ∧
    (sharedSite s e o st).scaffold_wrong_calls = st.scaffold_wrong_calls + 1 ∧
    (sharedSite s e o st).scaffold_tps = st.scaffold_tps ∧
    (sharedSite s e o st).scaffold_fps = st.scaffold_fps := by
  refine ⟨by simp [compareBoth, compareInner, hpos], ?_⟩
  unfold sharedSite attributeError
  simp only [hdiff, hN, hy0.1, hy0.2, hy1.1, hy1.2, hr, if_false, if_true, or_self]
  split_ifs <;> simp

/-- Reference A, expected call C, observed call R = A/G: the observed A is the
reference base. -/
theorem reference_base_one_false_negative_one_wrong_witness :
    compareBoth [] "chr1" [⟨100, 0, 1⟩] [⟨100, "A", "R"⟩] {}
      = compareBoth [] "chr1" [] [] (sharedSite "chr1" ⟨100, 0, 1⟩ ⟨100, "A", "R"⟩ {}) ∧
    (sharedSite "chr1" ⟨100, 0, 1⟩ ⟨100, "A", "R"⟩ {}).scaffold_fns = 0 + 1 ∧
    (sharedSite "chr1" ⟨100, 0, 1⟩ ⟨100, "A", "R"⟩ {}).scaffold_wrong_calls = 0 + 1 ∧
    (sharedSite "chr1" ⟨100, 0, 1⟩ ⟨100, "A", "R"⟩ {}).scaffold_tps = 0 ∧
    (sharedSite "chr1" ⟨100, 0, 1⟩ ⟨100, "A", "R"⟩ {}).scaffold_fps = 0 :=
  reference_base_one_false_negative_one_wrong [] "chr1" ⟨100, 0, 1⟩ [] ⟨100, "A", "R"⟩ [] {}
    (by decide) (by decide) (by decide) (by decide) (by decide) (by decide)

/-- C16. An expected record with no observed record at its position adds
exactly 2 to false negatives and 1 to Het->RR (`RH_mismatch`) if the expected
call is an ambiguity code, otherwise 1 to Alt->RR (`RA_mismatch`); apart from
the line appended to the false-negative detail log nothing else changes.  The
three code paths classify the record in this same way: the scaffold missing
from the observed log, the position passed over during the merge, and the
expected records left when the observed ones are exhausted. -/
theorem missed_expected_record :
    (∀ (s : String) (e : SnpRecord) (st : State),
      falseNegativeSite s e st =
        { st with
          scaffold_fns := st.scaffold_fns + 2
          RH_mismatch := st.RH_mismatch + (if e.newallele > 4 then 1 else 0)
          RA_mismatch := st.RA_mismatch + (if e.newallele > 4 then 0 else 1)
          fn_file := st.fn_file ++
            [⟨s, e.pos, String.singleton (int2bases e.oldallele),
              String.singleton (int2bases e.newallele)⟩] }) ∧
    (∀ (expected_log : LogMap SnpRecord) (observed_log : LogMap ObsRecord) (u : List SiteKey)
        (s : String) (st : State),
      mapCount expected_log s ≠ 0 → mapCount observed_log s = 0 →
      classifyScaffold expected_log observed_log u s st
        = (mapAt expected_log s).foldl (fun st e => falseNegativeSite s e st)
            (resetScaffoldTallies st)) ∧
    (∀ (u : List SiteKey) (s : String) (e : SnpRecord) (rest : List SnpRecord) (o : ObsRecord)
        (os : List ObsRecord) (st : State),
      e.pos < o.pos →
      compareBoth u s (e :: rest) (o :: os) st
        = compareBoth u s rest (o :: os) (falseNegativeSite s e st)) ∧
    (∀ (u : List SiteKey) (s : String) (es : List SnpRecord) (st : State),
      compareBoth u s es [] st = es.foldl (fun st e => falseNegativeSite s e st) st) := by
  refine ⟨?_, ?_, ?_, ?_⟩
  · intro s e st
    unfold falseNegativeSite
    by_cases h : e.newallele > 4 <;> simp [h]
  · intro expected_log observed_log u s st h1 h2
    simp [classifyScaffold, h1, h2, expectedRemainder]
  · intro u s e rest o os st h
    simp [compareBoth, compareInner, h]
  · intro u s es st
    cases es with
    | nil => rfl
    | cons e rest => rfl

/-- A heterozygous expected record (call R) missed on each of the three paths. -/
theorem missed_expected_record_witness :
    classifyScaffold [("chr1", [⟨100, 0, 6⟩])] [] [] "chr1" {}
      = ([⟨100, 0, 6⟩] : List SnpRecord).foldl (fun st e => falseNegativeSite "chr1" e st)
          (resetScaffoldTallies {}) ∧
    compareBoth [] "chr1" [⟨100, 0, 6⟩] [⟨200, "A", "C"⟩] {}
      = compareBoth [] "chr1" [] [⟨200, "A", "C"⟩] (falseNegativeSite "chr1" ⟨100, 0, 6⟩ {}) ∧
    (falseNegativeSite "chr1" ⟨100, 0, 6⟩ {}).scaffold_fns = 2 ∧
    (falseNegativeSite "chr1" ⟨100, 0, 6⟩ {}).RH_mismatch = 1 :=
  ⟨missed_expected_record.2.1 [("chr1", [⟨100, 0, 6⟩])] [] [] "chr1" {} (by decide) (by decide),
   missed_expected_record.2.2.1 [] "chr1" ⟨100, 0, 6⟩ [] ⟨200, "A", "C"⟩ [] {} (by decide),
   by decide, by decide⟩

/-- C18. A site present in both logs whose decoded calls differ and whose
observed call decodes to N: the loop classifies it by `sharedSite` and moves
both cursors on; the site adds exactly 2 to false negatives and nothing to
true positives, false positives or wrong calls, and increments exactly one
sub-bucket: with an observed allele string longer than one character,
Het->Indel (`IH_masked`) or Alt->Indel (`IA_masked`) together with
`indel_sites`; otherwise Het->N (`NH_masked`) or Alt->N (`NA_masked`) together
with `masked_bases`; Het when the expected call is an ambiguity code, Alt
otherwise. -/
theorem masked_site_false_negative (u : List SiteKey) (s : String) (e : SnpRecord)
    (rest : List SnpRecord) (o : ObsRecord) (os : List ObsRecord) (st : State)
    (hpos : e.pos = o.pos) (hdiff : e.newallele ≠ baseToLong o.newallele)
    (hN : baseToLong o.newallele = 4) :
    compareBoth u s (e :: rest) (o :: os) st = compareBoth u s rest os (sharedSite s e o st) ∧
    (sharedSite s e o st).scaffold_fns = st.scaffold_fns + 2 ∧
    (sharedSite s e o st).scaffold_tps = st.scaffold_tps ∧
    (sharedSite s e o st).scaffold_fps = st.scaffold_fps ∧
    (sharedSite s e o st).scaffold_wrong_calls = st.scaffold_wrong_calls ∧
    (sharedSite s e o st).IH_masked = st.IH_masked +
      (if (o.oldallele.length > 1 ∨ o.newallele.length > 1) ∧ e.newallele > 4 then 1 else 0) ∧
    (sharedSite s e o st).IA_masked = st.IA_masked +
      (if (o.oldallele.length > 1 ∨ o.newallele.length > 1) ∧ ¬ e.newallele > 4 then 1
        else 0) ∧
    (sharedSite s e o st).NH_masked = st.NH_masked +
      (if ¬ (o.oldallele.length > 1 ∨ o.newallele.length > 1) ∧ e.newallele > 4 then 1
        else 0) ∧
    (sharedSite s e o st).NA_masked = st.NA_masked +
      (if ¬ (o.oldallele.length > 1 ∨ o.newallele.length > 1) ∧ ¬ e.newallele > 4 then 1
        else 0) ∧
    (sharedSite s e o st).indel_sites = st.indel_sites +
      (if o.oldallele.length > 1 ∨ o.newallele.length > 1 then 1 else 0) ∧
    (sharedSite s e o st).masked_bases = st.masked_bases +
      (if o.oldallele.length > 1 ∨ o.newallele.length > 1 then 0 else 1) ∧
    (sharedSite s e o st).NR_masked = st.NR_masked ∧
    (sharedSite s e o st).IR_masked = st.IR_masked := by
  refine ⟨by simp [compareBoth, compareInner, hpos], ?_⟩
  have hdiff4 : ¬ e.newallele = 4 := fun h => hdiff (h.trans hN.symm)
  unfold sharedSite
  simp only [hN, hdiff4, if_false, if_true]
  by_cases hindel : o.oldallele.length > 1 ∨ o.newallele.length > 1 <;>
    by_cases hhet : e.newallele > 4 <;> simp [hindel, hhet]

/-- A heterozygous site (expected call R) masked by a single-character `N`. -/
theorem masked_site_false_negative_witness :
    (sharedSite "chr1" ⟨100, 0, 6⟩ ⟨100, "A", "N"⟩ {}).scaffold_fns = 0 + 2 ∧
    (sharedSite "chr1" ⟨100, 0, 6⟩ ⟨100, "A", "N"⟩ {}).scaffold_tps = 0 ∧
    (sharedSite "chr1" ⟨100, 0, 6⟩ ⟨100, "A", "N"⟩ {}).NH_masked = 1 ∧
    (sharedSite "chr1" ⟨100, 0, 6⟩ ⟨100, "A", "N"⟩ {}).masked_bases = 1 :=
  ⟨(masked_site_false_negative [] "chr1" ⟨100, 0, 6⟩ [] ⟨100, "A", "N"⟩ [] {} (by decide)
      (by decide) (by decide)).2.1,
   (masked_site_false_negative [] "chr1" ⟨100, 0, 6⟩ [] ⟨100, "A", "N"⟩ [] {} (by decide)
      (by decide) (by decide)).2.2.1,
   by decide, by decide⟩

end Compare

/-! ### diploidizeSNPlog: the record written at each position -/

namespace Diploidize

theorem find_none_of_lt (b : List SnpRecord) (p : Int) (h : ∀ r ∈ b, p < r.pos) :
    b.find? (fun r => r.pos = p) = none := by
  apply List.find?_eq_none.mpr
  intro r hr
  have := h r hr
  simp only [decide_eq_true_eq]
  omega

theorem find_of_mem_sorted (b : List SnpRecord)
    (hs : (b.map (fun r => r.pos)).Pairwise (· < ·)) (r : SnpRecord) (hr : r ∈ b) :
    b.find? (fun x => x.pos = r.pos) = some r := by
  induction b with
  | nil => cases hr
  | cons x rest ih =>
    have h2 := List.pairwise_cons.mp hs
    rcases List.mem_cons.mp hr with h | h
    · subst h
      simp [List.find?_cons]
    · have hlt : x.pos < r.pos := h2.1 r.pos (List.mem_map.mpr ⟨r, h, rfl⟩)
      have hne : ¬ x.pos = r.pos := by omega
      simp only [List.find?_cons, hne, decide_False]
      exact ih h2.2 h

theorem scaffoldPass_eq_mergeBoth (m1 m2 : LogMap SnpRecord) (s : String) :
    scaffoldPass m1 m2 s = mergeBoth s (mapAt m1 s) (mapAt m2 s) := by
  unfold scaffoldPass
  by_cases h1 : mapCount m1 s = 0
  · rw [mapAt_of_count_zero m1 s h1]
    by_cases h2 : mapCount m2 s = 0
    · simp [h1, h2, mapAt_of_count_zero m2 s h2, mergeBoth]
    · have h3 : mapCount m2 s > 0 := Nat.pos_of_ne_zero h2
      simp [h1, h3, mergeBoth]
  · by_cases h2 : mapCount m2 s = 0
    · rw [mapAt_of_count_zero m2 s h2]
      simp only [h1, h2, if_false, if_true]
      cases mapAt m1 s with
      | nil => rfl
      | cons r rest => rfl
    · simp [h1, h2]

theorem hetAgainstRef_pos (s : String) (r : SnpRecord) : (hetAgainstRef s r).pos = r.pos :=
  rfl

theorem diploidizeSite_pos (s : String) (r1 r2 : SnpRecord) :
    (diploidizeSite s r1 r2).pos = r1.pos := rfl

theorem filter_map_hetAgainstRef (s : String) (b : List SnpRecord)
    (hs : (b.map (fun r => r.pos)).Pairwise (· < ·)) (p : Int) :
    (b.map (hetAgainstRef s)).filter (fun l => l.pos = p)
      = ((b.find? (fun r => r.pos = p)).toList).map (hetAgainstRef s) := by
  induction b with
  | nil => rfl
  | cons x rest ih =>
    have h2 := List.pairwise_cons.mp hs
    have ih2 := ih h2.2
    by_cases hx : x.pos = p
    · have hnone : rest.find? (fun r => r.pos = p) = none :=
        find_none_of_lt rest p (fun r hr => by
          have h3 : x.pos < r.pos := h2.1 r.pos (List.mem_map.mpr ⟨r, hr, rfl⟩)
          omega)
      rw [hnone] at ih2
      simp [List.filter_cons, List.find?_cons, hetAgainstRef_pos, hx, ih2]
    · simp [List.filter_cons, List.find?_cons, hetAgainstRef_pos, hx, ih2]

/-- What the merge of two position-sorted haploid vectors writes at each
position: one line when a haploid has a record there, none otherwise. -/
theorem mergeBoth_filter_pos (s : String) (b1 : List SnpRecord) :
    ∀ (b2 : List SnpRecord), (b1.map (fun r => r.pos)).Pairwise (· < ·) →
      (b2.map (fun r => r.pos)).Pairwise (· < ·) → ∀ p : Int,
      (mergeBoth s b1 b2).filter (fun l => l.pos = p)
        = siteLines s (b1.find? (fun r => r.pos = p)) (b2.find? (fun r => r.pos = p)) := by
  induction b1 with
  | nil =>
    intro b2 _ hs2 p
    have h := filter_map_hetAgainstRef s b2 hs2 p
    simp only [mergeBoth, List.find?_nil]
    rw [h]
    cases b2.find? (fun r => r.pos = p) <;> rfl
  | cons r1 rest1 ih =>
    intro b2
    induction b2 with
    | nil =>
      intro hs1 _ p
      have h := filter_map_hetAgainstRef s (r1 :: rest1) hs1 p
      simp only [mergeBoth, mergeInner, List.find?_nil]
      rw [h]
      cases (r1 :: rest1).find? (fun r => r.pos = p) <;> rfl
    | cons r2 rest2 ih2 =>
      intro hs1 hs2 p
      have h1 := List.pairwise_cons.mp hs1
      have h2 := List.pairwise_cons.mp hs2
      have hgt1 : ∀ r ∈ rest1, r1.pos < r.pos :=
        fun r hr => h1.1 r.pos (List.mem_map.mpr ⟨r, hr, rfl⟩)
      have hgt2 : ∀ r ∈ rest2, r2.pos < r.pos :=
        fun r hr => h2.1 r.pos (List.mem_map.mpr ⟨r, hr, rfl⟩)
      by_cases hlt : r1.pos < r2.pos
      · have hout : mergeBoth s (r1 :: rest1) (r2 :: rest2)
            = hetAgainstRef s r1 :: mergeBoth s rest1 (r2 :: rest2) := by
          simp [mergeBoth, mergeInner, hlt]
        have hrec := ih (r2 :: rest2) h1.2 hs2 p
        rw [hout, List.filter_cons, hetAgainstRef_pos, hrec]
        by_cases hp : r1.pos = p
        · have n1 : rest1.find? (fun r => r.pos = p) = none :=
            find_none_of_lt rest1 p (fun r hr => by have := hgt1 r hr; omega)
          have n2 : (r2 :: rest2).find? (fun r => r.pos = p) = none :=
            find_none_of_lt (r2 :: rest2) p (fun r hr => by
              rcases List.mem_cons.mp hr with h | h
              · subst h; omega
              · have := hgt2 r h; omega)
          simp [hp, n1, n2, List.find?_cons, siteLines]
        · simp [hp, List.find?_cons]
      · by_cases hgt : r1.pos > r2.pos
        · have hout : mergeBoth s (r1 :: rest1) (r2 :: rest2)
              = hetAgainstRef s r2 :: mergeBoth s (r1 :: rest1) rest2 := by
            simp [mergeBoth, mergeInner, hlt, hgt]
          have hrec := ih2 hs1 h2.2 p
          rw [hout, List.filter_cons, hetAgainstRef_pos, hrec]
          by_cases hp : r2.pos = p
          · have n1 : (r1 :: rest1).find? (fun r => r.pos = p) = none :=
              find_none_of_lt (r1 :: rest1) p (fun r hr => by
                rcases List.mem_cons.mp hr with h | h
                · subst h; omega
                · have := hgt1 r h; omega)
            have n2 : rest2.find? (fun r => r.pos = p) = none :=
              find_none_of_lt rest2 p (fun r hr => by have := hgt2 r hr; omega)
            have hne : ¬ r1.pos = p := by omega
            rw [n1, n2]
            simp [hp, List.find?_cons, siteLines]
          · simp [hp, List.find?_cons]
        · have heq : r1.pos = r2.pos := by omega
          have hout : mergeBoth s (r1 :: rest1) (r2 :: rest2)
              = diploidizeSite s r1 r2 :: mergeBoth s rest1 rest2 := by
            simp [mergeBoth, mergeInner, hlt, hgt]
          have hrec := ih rest2 h1.2 h2.2 p
          rw [hout, List.filter_cons, diploidizeSite_pos, hrec]
          by_cases hp : r1.pos = p
          · have hp2 : r2.pos = p := by omega
            have n1 : rest1.find? (fun r => r.pos = p) = none :=
              find_none_of_lt rest1 p (fun r hr => by have := hgt1 r hr; omega)
            have n2 : rest2.find? (fun r => r.pos = p) = none :=
              find_none_of_lt rest2 p (fun r hr => by have := hgt2 r hr; omega)
            simp [hp, hp2, n1, n2, List.find?_cons, siteLines]
          · have hp2 : ¬ r2.pos = p := by omega
            simp [hp, hp2, List.find?_cons]

/-- C19. A position present in only one haploid log.  On each of the code
paths (the scaffold is only in one haploid; the record is passed over during
the merge; the record is left when the other haploid is exhausted) the record
is written as one line with its own position and reference allele and the
call `degenerateBases(call, reference)` of that same record (`hetAgainstRef`).
For position-sorted haploid vectors, the scaffold pass writes exactly one line
at a position that only one haploid has, and it is that line. -/
theorem single_haploid_position (m1 m2 : LogMap SnpRecord) (s : String) :
    (∀ r : SnpRecord, hetAgainstRef s r
      = ⟨s, r.pos, int2bases r.oldallele,
          int2bases (degenerateBases r.newallele r.oldallele)⟩) ∧
    (mapCount m1 s = 0 → mapCount m2 s > 0 →
      scaffoldPass m1 m2 s = (mapAt m2 s).map (hetAgainstRef s)) ∧
    (mapCount m1 s ≠ 0 → mapCount m2 s = 0 →
      scaffoldPass m1 m2 s = (mapAt m1 s).map (hetAgainstRef s)) ∧
    (∀ (r1 r2 : SnpRecord) (rest1 rest2 : List SnpRecord), r1.pos < r2.pos →
      mergeBoth s (r1 :: rest1) (r2 :: rest2)
        = hetAgainstRef s r1 :: mergeBoth s rest1 (r2 :: rest2)) ∧
    (∀ (r1 r2 : SnpRecord) (rest1 rest2 : List SnpRecord), r1.pos > r2.pos →
      mergeBoth s (r1 :: rest1) (r2 :: rest2)
        = hetAgainstRef s r2 :: mergeBoth s (r1 :: rest1) rest2) ∧
    (∀ b1 : List SnpRecord, mergeBoth s b1 [] = b1.map (hetAgainstRef s)) ∧
    (∀ b2 : List SnpRecord, mergeBoth s [] b2 = b2.map (hetAgainstRef s)) ∧
    (((mapAt m1 s).map (fun r => r.pos)).Pairwise (· < ·) →
      ((mapAt m2 s).map (fun r => r.pos)).Pairwise (· < ·) →
      (∀ r ∈ mapAt m1 s, (∀ r2 ∈ mapAt m2 s, r2.pos ≠ r.pos) →
        (scaffoldPass m1 m2 s).filter (fun l => l.pos = r.pos)
          = [⟨s, r.pos, int2bases r.oldallele,
              int2bases (degenerateBases r.newallele r.oldallele)⟩]) ∧
      (∀ r ∈ mapAt m2 s, (∀ r1 ∈ mapAt m1 s, r1.pos ≠ r.pos) →
        (scaffoldPass m1 m2 s).filter (fun l => l.pos = r.pos)
          = [⟨s, r.pos, int2bases r.oldallele,
              int2bases (degenerateBases r.newallele r.oldallele)⟩])) := by
  refine ⟨fun _ => rfl, ?_, ?_, ?_, ?_, ?_, fun _ => rfl, ?_⟩
  · intro h1 h2
    simp [scaffoldPass, h1, h2]
  · intro h1 h2
    simp [scaffoldPass, h1, h2]
  · intro r1 r2 rest1 rest2 h
    simp [mergeBoth, mergeInner, h]
  · intro r1 r2 rest1 rest2 h
    have h2 : ¬ r1.pos < r2.pos := by omega
    simp [mergeBoth, mergeInner, h, h2]
  · intro b1
    cases b1 with
    | nil => rfl
    | cons r rest => rfl
  · intro hs1 hs2
    refine ⟨?_, ?_⟩
    · intro r hr hno
      rw [scaffoldPass_eq_mergeBoth, mergeBoth_filter_pos s _ _ hs1 hs2,
        find_of_mem_sorted _ hs1 r hr]
      have hnone : (mapAt m2 s).find? (fun x => x.pos = r.pos) = none := by
        apply List.find?_eq_none.mpr
        intro x hx
        simpa using hno x hx
      rw [hnone]
      rfl
    · intro r hr hno
      rw [scaffoldPass_eq_mergeBoth, mergeBoth_filter_pos s _ _ hs1 hs2,
        find_of_mem_sorted _ hs2 r hr]
      have hnone : (mapAt m1 s).find? (fun x => x.pos = r.pos) = none := by
        apply List.find?_eq_none.mpr
        intro x hx
        simpa using hno x hx
      rw [hnone]
      rfl

/-- Haploid 1 has positions 5 and 9, haploid 2 has 5 and 7: position 9 is
written once from haploid 1 (G→T against reference G gives K) and position 7
once from haploid 2. -/
theorem single_haploid_position_witness :
    (scaffoldPass [("chr1", [⟨5, 0, 1⟩, ⟨9, 2, 3⟩])] [("chr1", [⟨5, 0, 2⟩, ⟨7, 1, 1⟩])]
        "chr1").filter (fun l => l.pos = (⟨9, 2, 3⟩ : SnpRecord).pos)
      = [⟨"chr1", 9, 'G', 'K'⟩] ∧
    (scaffoldPass [("chr1", [⟨5, 0, 1⟩, ⟨9, 2, 3⟩])] [("chr1", [⟨5, 0, 2⟩, ⟨7, 1, 1⟩])]
        "chr1").filter (fun l => l.pos = (⟨7, 1, 1⟩ : SnpRecord).pos)
      = [⟨"chr1", 7, 'C', 'C'⟩] ∧
    scaffoldPass [] [("chr1", [⟨7, 1, 3⟩])] "chr1"
      = ([⟨7, 1, 3⟩] : List SnpRecord).map (hetAgainstRef "chr1") :=
  ⟨((single_haploid_position [("chr1", [⟨5, 0, 1⟩, ⟨9, 2, 3⟩])]
      [("chr1", [⟨5, 0, 2⟩, ⟨7, 1, 1⟩])] "chr1").2.2.2.2.2.2.2 (by decide) (by decide)).1
      ⟨9, 2, 3⟩ (by decide) (by decide),
   ((single_haploid_position [("chr1", [⟨5, 0, 1⟩, ⟨9, 2, 3⟩])]
      [("chr1", [⟨5, 0, 2⟩, ⟨7, 1, 1⟩])] "chr1").2.2.2.2.2.2.2 (by decide) (by decide)).2
      ⟨7, 1, 1⟩ (by decide) (by decide),
   (single_haploid_position [] [("chr1", [⟨7, 1, 3⟩])] "chr1").2.1 (by decide) (by decide)⟩

/-- C20. A position present in both haploid logs of a scaffold.  When the two
cursors are at the same position the merge writes one line with the first
haploid's reference allele and the call
`degenerateBases(call of haploid 1, call of haploid 2)` and moves both cursors
on; the reference allele of haploid 2 does not occur in the line.  For
position-sorted haploid vectors, the scaffold pass writes exactly one line at
a position both haploids have, and it is that line, whether or not the two
reference alleles agree. -/
theorem shared_position (m1 m2 : LogMap SnpRecord) (s : String) :
    (∀ (r1 r2 : SnpRecord) (rest1 rest2 : List SnpRecord), r1.pos = r2.pos →
      mergeBoth s (r1 :: rest1) (r2 :: rest2)
        = ⟨s, r1.pos, int2bases r1.oldallele,
            int2bases (degenerateBases r1.newallele r2.newallele)⟩
          :: mergeBoth s rest1 rest2) ∧
    (((mapAt m1 s).map (fun r => r.pos)).Pairwise (· < ·) →
      ((mapAt m2 s).map (fun r => r.pos)).Pairwise (· < ·) →
      ∀ r1 ∈ mapAt m1 s, ∀ r2 ∈ mapAt m2 s, r1.pos = r2.pos →
        (scaffoldPass m1 m2 s).filter (fun l => l.pos = r1.pos)
          = [⟨s, r1.pos, int2bases r1.oldallele,
              int2bases (degenerateBases r1.newallele r2.newallele)⟩]) := by
  refine ⟨?_, ?_⟩
  · intro r1 r2 rest1 rest2 h
    simp [mergeBoth, mergeInner, h, diploidizeSite]
  · intro hs1 hs2 r1 hr1 r2 hr2 hpos
    have hf2 := find_of_mem_sorted _ hs2 r2 hr2
    rw [← hpos] at hf2
    rw [scaffoldPass_eq_mergeBoth, mergeBoth_filter_pos s _ _ hs1 hs2,
      find_of_mem_sorted _ hs1 r1 hr1, hf2]
    rfl

/-- Position 5 is in both haploids with disagreeing reference alleles (A and
T) and calls C and G: one line, reference A, call S. -/
theorem shared_position_witness :
    (scaffoldPass [("chr1", [⟨5, 0, 1⟩, ⟨9, 2, 3⟩])] [("chr1", [⟨5, 3, 2⟩, ⟨7, 1, 1⟩])]
        "chr1").filter (fun l => l.pos = (⟨5, 0, 1⟩ : SnpRecord).pos)
      = [⟨"chr1", 5, 'A', 'S'⟩] :=
  (shared_position [("chr1", [⟨5, 0, 1⟩, ⟨9, 2, 3⟩])] [("chr1", [⟨5, 3, 2⟩, ⟨7, 1, 1⟩])]
    "chr1").2 (by decide) (by decide) ⟨5, 0, 1⟩ (by decide) ⟨5, 3, 2⟩ (by decide) (by decide)

end Diploidize

/-! ### The allele conversions of the three programs -/

theorem merge_compare_baseToLong (base : String) :
    Merge.baseToLong base = Compare.baseToLong base := rfl

theorem compare_baseToLong_le (base : String) : Compare.baseToLong base ≤ 10 := by
  unfold Compare.baseToLong
  split <;> decide

theorem diploidize_baseToLong_eq (base : String) :
    Diploidize.baseToLong base
      = if Compare.baseToLong base > 4 then 4 else Compare.baseToLong base := by
  unfold Diploidize.baseToLong Compare.baseToLong
  generalize firstChar base = c
  split <;> first | rfl | (split <;> first | rfl | (split <;> simp_all))

/-- C23 as stated fails: for the allele string `R` the conversions of
mergeSNPlogs and compareSNPlogs return 6 (R), that of diploidizeSNPlog, which
has no case for the ambiguity letters, returns 4 (N). -/
theorem diploidize_reads_ambiguity_letter_as_N :
    Merge.baseToLong "R" = 6 ∧ Compare.baseToLong "R" = 6 ∧ Diploidize.baseToLong "R" = 4 ∧
    int2bases 6 = 'R' ∧ int2bases 4 = 'N' := by
  decide

/-- C23, amended. The conversions of mergeSNPlogs and compareSNPlogs are the
same function and return one of the 11 allele codes; the conversion of
diploidizeSNPlog returns the same code whenever that code is a nucleotide or N
(codes 0 to 4), and N (4) where the other two return an ambiguity code. -/
theorem baseToLong_across_programs (base : String) :
    Merge.baseToLong base = Compare.baseToLong base ∧
    Compare.baseToLong base ≤ 10 ∧
    Diploidize.baseToLong base
      = (if Compare.baseToLong base > 4 then 4 else Compare.baseToLong base) :=
  ⟨merge_compare_baseToLong base, compare_baseToLong_le base, diploidize_baseToLong_eq base⟩

/-- C24. A pair of haploid codes of which one is N (4) is encoded as N by
`degenerateBases`, and `splitBase` decodes N to (N, N). -/
theorem no_call_pair (a b : Nat) (h : a = 4 ∨ b = 4) :
    Diploidize.degenerateBases a b = 4 ∧ int2bases (Diploidize.degenerateBases a b) = 'N' ∧
    Compare.splitBase 4 = (4, 4) := by
  have h1 : Diploidize.degenerateBases a b = 4 := by
    unfold Diploidize.degenerateBases
    by_cases hab : a = b
    · subst hab
      rcases h with h | h <;> simp [h]
    · have h2 : a > 3 ∨ b > 3 := by omega
      simp [hab, h2]
  exact ⟨h1, by rw [h1]; rfl, rfl⟩

/-- The pair G/N. -/
theorem no_call_pair_witness :
    Diploidize.degenerateBases 2 4 = 4 ∧ int2bases (Diploidize.degenerateBases 2 4) = 'N' ∧
    Compare.splitBase 4 = (4, 4) :=
  no_call_pair 2 4 (Or.inr rfl)

namespace Merge

/-- C28. The log `chr1 9 ins 3`, `chr2 4 ins 1`, `chr1 19 ins 2`: built from
the events of `chr1` alone the breakpoints are (0,0), (10,13), (20,25); in the
interleaved log the offset is reset by the first event of `chr2` and the last
breakpoint of `chr1` is (20,23), with the offset 1 + 2 instead of 3 + 2. -/
theorem interleaved_scaffolds_share_offset :
    mapAt (constructIndelMap
      [⟨"chr1", 9, "ins", 3⟩, ⟨"chr2", 4, "ins", 1⟩, ⟨"chr1", 19, "ins", 2⟩]) "chr1"
      = [(0, 0), (10, 13), (20, 23)] ∧
    mapAt (constructIndelMap
      (([⟨"chr1", 9, "ins", 3⟩, ⟨"chr2", 4, "ins", 1⟩, ⟨"chr1", 19, "ins", 2⟩] :
        List IndelLine).filter (fun e => e.scaffold = "chr1"))) "chr1"
      = [(0, 0), (10, 13), (20, 25)] := by
  decide

end Merge

namespace Compare

theorem attributeError_fps (e : SnpRecord) (o : ObsRecord) (st : State) :
    (attributeError e o st).scaffold_fps = st.scaffold_fps := by
  unfold attributeError
  simp only
  split_ifs <;> rfl

theorem sharedSite_fps (s : String) (e : SnpRecord) (o : ObsRecord) (st : State) :
    (sharedSite s e o st).scaffold_fps = st.scaffold_fps := by
  unfold sharedSite
  simp only
  split_ifs <;> simp [attributeError_fps]

/-- The four ways in which the split-allele attribution spends its 2 units. -/
theorem attributeError_split (e : SnpRecord) (o : ObsRecord) (st st0 : State)
    (h1 : st.scaffold_tps = st0.scaffold_tps) (h2 : st.scaffold_fns = st0.scaffold_fns)
    (h3 : st.scaffold_wrong_calls = st0.scaffold_wrong_calls) :
    (((attributeError e o st).scaffold_tps = st0.scaffold_tps + 1 ∧
        (attributeError e o st).scaffold_fns = st0.scaffold_fns + 1 ∧
        (attributeError e o st).scaffold_wrong_calls = st0.scaffold_wrong_calls) ∨
      ((attributeError e o st).scaffold_tps = st0.scaffold_tps + 1 ∧
        (attributeError e o st).scaffold_fns = st0.scaffold_fns ∧
        (attributeError e o st).scaffold_wrong_calls = st0.scaffold_wrong_calls + 1) ∨
      ((attributeError e o st).scaffold_tps = st0.scaffold_tps ∧
        (attributeError e o st).scaffold_fns = st0.scaffold_fns + 1 ∧
        (attributeError e o st).scaffold_wrong_calls = st0.scaffold_wrong_calls + 1) ∨
      ((attributeError e o st).scaffold_tps = st0.scaffold_tps ∧
        (attributeError e o st).scaffold_fns = st0.scaffold_fns ∧
        (attributeError e o st).scaffold_wrong_calls = st0.scaffold_wrong_calls + 2)) ∧
    (attributeError e o st).scaffold_tps ≤ st0.scaffold_tps + 1 := by
  unfold attributeError
  simp only
  split_ifs <;> simp [h1, h2, h3]

/-- C29. Diploid accounting.  A site present in both logs (the two cursors are
at the same position) is classified by `sharedSite`; it adds exactly 2 units
to true positives + false negatives + wrong calls and none to false
positives.  When the decoded calls differ and the observed call is not N, the
2 units are 1 TP + 1 FN, 1 TP + 1 wrong, 1 FN + 1 wrong, or 2 wrong, so at
most 1 unit goes to true positives. -/
theorem diploid_accounting (u : List SiteKey) (s : String) (e : SnpRecord)
    (rest : List SnpRecord) (o : ObsRecord) (os : List ObsRecord) (st : State)
    (hpos : e.pos = o.pos) :
    compareBoth u s (e :: rest) (o :: os) st = compareBoth u s rest os (sharedSite s e o st) ∧
    (sharedSite s e o st).scaffold_tps + (sharedSite s e o st).scaffold_fns
        + (sharedSite s e o st).scaffold_wrong_calls
      = st.scaffold_tps + st.scaffold_fns + st.scaffold_wrong_calls + 2 ∧
    (sharedSite s e o st).scaffold_fps = st.scaffold_fps ∧
    (e.newallele ≠ baseToLong o.newallele → baseToLong o.newallele ≠ 4 →
      (((sharedSite s e o st).scaffold_tps = st.scaffold_tps + 1 ∧
          (sharedSite s e o st).scaffold_fns = st.scaffold_fns + 1 ∧
          (sharedSite s e o st).scaffold_wrong_calls = st.scaffold_wrong_calls) ∨
        ((sharedSite s e o st).scaffold_tps = st.scaffold_tps + 1 ∧
          (sharedSite s e o st).scaffold_fns = st.scaffold_fns ∧
          (sharedSite s e o st).scaffold_wrong_calls = st.scaffold_wrong_calls + 1) ∨
        ((sharedSite s e o st).scaffold_tps = st.scaffold_tps ∧
          (sharedSite s e o st).scaffold_fns = st.scaffold_fns + 1 ∧
          (sharedSite s e o st).scaffold_wrong_calls = st.scaffold_wrong_calls + 1) ∨
        ((sharedSite s e o st).scaffold_tps = st.scaffold_tps ∧
          (sharedSite s e o st).scaffold_fns = st.scaffold_fns ∧
          (sharedSite s e o st).scaffold_wrong_calls = st.scaffold_wrong_calls + 2)) ∧
      (sharedSite s e o st).scaffold_tps ≤ st.scaffold_tps + 1) := by
  refine ⟨by simp [compareBoth, compareInner, hpos], ?_, sharedSite_fps s e o st, ?_⟩
  · have h1 := units_sharedSite s e o st
    have h2 := sharedSite_fps s e o st
    unfold scaffoldUnits at h1
    omega
  · intro hdiff hN
    unfold sharedSite
    simp only [hdiff, hN, if_false]
    split_ifs <;> exact attributeError_split e o _ st rfl rfl rfl

/-- Expected call R (A/G) with reference A, observed call G: the observed G
matches, so 1 true positive, and the other unit is a wrong call. -/
theorem diploid_accounting_witness :
    (sharedSite "chr1" ⟨100, 0, 6⟩ ⟨100, "A", "G"⟩ {}).scaffold_tps
        + (sharedSite "chr1" ⟨100, 0, 6⟩ ⟨100, "A", "G"⟩ {}).scaffold_fns
        + (sharedSite "chr1" ⟨100, 0, 6⟩ ⟨100, "A", "G"⟩ {}).scaffold_wrong_calls
      = 0 + 0 + 0 + 2 ∧
    (sharedSite "chr1" ⟨100, 0, 6⟩ ⟨100, "A", "G"⟩ {}).scaffold_fps = 0 ∧
    (sharedSite "chr1" ⟨100, 0, 6⟩ ⟨100, "A", "G"⟩ {}).scaffold_tps ≤ 0 + 1 :=
  ⟨(diploid_accounting [] "chr1" ⟨100, 0, 6⟩ [] ⟨100, "A", "G"⟩ [] {} (by decide)).2.1,
   (diploid_accounting [] "chr1" ⟨100, 0, 6⟩ [] ⟨100, "A", "G"⟩ [] {} (by decide)).2.2.1,
   ((diploid_accounting [] "chr1" ⟨100, 0, 6⟩ [] ⟨100, "A", "G"⟩ [] {} (by decide)).2.2.2
      (by decide) (by decide)).2⟩

end Compare

namespace Diploidize

theorem shared_nil_right (b1 : List SnpRecord) :
    (b1.filter (fun r => r.pos ∈ ([] : List SnpRecord).map (fun x => x.pos))).length = 0 := by
  simp

end Diploidize

namespace Compare

theorem foldl_readExpectedStep_error (min_depth c : Nat) (ls : List LogLine) :
    ls.foldl (readExpectedStep min_depth) (.error c) = .error c := by
  induction ls with
  | nil => rfl
  | cons l rest ih => simpa [readExpectedStep] using ih

theorem foldl_readExpectedStep_missing (min_depth : Nat) (hmd : min_depth > 0)
    (ls : List LogLine) (h : ∃ l ∈ ls, l.depth = none)
    (acc : LogMap SnpRecord × List SiteKey) :
    ls.foldl (readExpectedStep min_depth) (.ok acc) = .error 7 := by
  induction ls generalizing acc with
  | nil => obtain ⟨l, hl, _⟩ := h; cases hl
  | cons l rest ih =>
    simp only [List.foldl_cons]
    cases hd : l.depth with
    | none =>
      have : readExpectedStep min_depth (.ok acc) l = .error 7 := by
        simp [readExpectedStep, hmd, hd]
      rw [this, foldl_readExpectedStep_error]
    | some d =>
      have hrest : ∃ x ∈ rest, x.depth = none := by
        obtain ⟨x, hx, hxd⟩ := h
        rcases List.mem_cons.mp hx with h1 | h1
        · subst h1; rw [hd] at hxd; cases hxd
        · exact ⟨x, h1, hxd⟩
      have : ∃ acc2, readExpectedStep min_depth (.ok acc) l = .ok acc2 := by
        obtain ⟨m, u⟩ := acc
        by_cases hlt : d < min_depth
        · exact ⟨(m, setInsert u (l.scaffold, l.pos)), by
            simp [readExpectedStep, hmd, hd, hlt]⟩
        · exact ⟨(mapPushBack m l.scaffold ⟨l.pos, baseToLong l.ref, baseToLong l.call⟩, u), by
            simp [readExpectedStep, hmd, hd, hlt]⟩
      obtain ⟨acc2, hacc⟩ := this
      rw [hacc]
      exact ih hrest acc2

theorem foldl_readExpectedStep_complete (min_depth : Nat) (hmd : min_depth > 0)
    (ls : List LogLine) (h : ∀ l ∈ ls, l.depth ≠ none)
    (acc : LogMap SnpRecord × List SiteKey) :
    ∃ acc2, ls.foldl (readExpectedStep min_depth) (.ok acc) = .ok acc2 := by
  induction ls generalizing acc with
  | nil => exact ⟨acc, rfl⟩
  | cons l rest ih =>
    simp only [List.foldl_cons]
    cases hd : l.depth with
    | none => exact absurd hd (h l (List.mem_cons_self _ _))
    | some d =>
      have : ∃ acc2, readExpectedStep min_depth (.ok acc) l = .ok acc2 := by
        obtain ⟨m, u⟩ := acc
        by_cases hlt : d < min_depth
        · exact ⟨(m, setInsert u (l.scaffold, l.pos)), by
            simp [readExpectedStep, hmd, hd, hlt]⟩
        · exact ⟨(mapPushBack m l.scaffold ⟨l.pos, baseToLong l.ref, baseToLong l.call⟩, u), by
            simp [readExpectedStep, hmd, hd, hlt]⟩
      obtain ⟨acc2, hacc⟩ := this
      rw [hacc]
      exact ih (fun x hx => h x (List.mem_cons_of_mem _ hx)) acc2

theorem main_of_readExpected_error (fai : List FaiLine) (expected observed : List LogLine)
    (min_depth c : Nat) (h : readExpected min_depth expected = .error c) :
    main fai expected observed min_depth = .error c := by
  unfold main
  rw [h]

theorem main_of_readExpected_ok (fai : List FaiLine) (expected observed : List LogLine)
    (min_depth : Nat) (acc : LogMap SnpRecord × List SiteKey)
    (h : readExpected min_depth expected = .ok acc) :
    ∃ st, main fai expected observed min_depth = .ok st := by
  unfold main
  rw [h]
  exact ⟨_, rfl⟩

/-- C22. With `min_depth > 0`, the run fails if and only if some line of the
expected log has no fifth field, and then with exit code 7, which none of the
exits for a missing path or an unopenable file uses; the run then returns
during the loading of the expected log, so it yields no tallies and no detail
record.  With `min_depth = 0` the run does not fail, the depth column has no
influence on what is loaded, and the uncallable set is empty. -/
theorem depth_column_failure (fai : List FaiLine) (expected observed : List LogLine) :
    (∀ min_depth : Nat, min_depth > 0 →
      ((∃ l ∈ expected, l.depth = none) → main fai expected observed min_depth = .error 7) ∧
      ((∀ l ∈ expected, l.depth ≠ none) →
        ∃ st, main fai expected observed min_depth = .ok st)) ∧
    (∀ (expected_path observed_path fai_path : String)
        (fai_opens expected_opens observed_opens : Bool),
      openInputs expected_path observed_path fai_path fai_opens expected_opens observed_opens
        ≠ .error 7) ∧
    (∃ st, main fai expected observed 0 = .ok st) ∧
    (∃ expected_log, readExpected 0 expected = .ok (expected_log, []) ∧
      readExpected 0 (expected.map (fun l => { l with depth := none }))
        = .ok (expected_log, [])) := by
  refine ⟨?_, ?_, ?_, ?_⟩
  · intro min_depth hmd
    refine ⟨?_, ?_⟩
    · intro h
      exact main_of_readExpected_error fai expected observed min_depth 7
        (foldl_readExpectedStep_missing min_depth hmd expected h ([], []))
    · intro h
      obtain ⟨acc, hacc⟩ := foldl_readExpectedStep_complete min_depth hmd expected h ([], [])
      exact main_of_readExpected_ok fai expected observed min_depth acc hacc
  · intro expected_path observed_path fai_path fai_opens expected_opens observed_opens
    unfold openInputs
    split_ifs <;> simp
  · exact main_of_readExpected_ok fai expected observed 0 _
      (readExpected_no_depth_filter expected [] [])
  · refine ⟨_, readExpected_no_depth_filter expected [] [], ?_⟩
    have h := readExpected_no_depth_filter
      (expected.map (fun l => { l with depth := none })) [] []
    unfold readExpected
    rw [h, List.foldl_map]

/-- A log whose second line has four fields fails with code 7 under
`min_depth = 5`; with a depth on every line the run ends normally. -/
theorem depth_column_failure_witness :
    main [⟨"chr1", 1000⟩] [⟨"chr1", 10, "A", "C", some 9⟩, ⟨"chr1", 20, "A", "G", none⟩]
      [] 5 = .error 7 ∧
    (∃ st, main [⟨"chr1", 1000⟩]
      [⟨"chr1", 10, "A", "C", some 9⟩, ⟨"chr1", 20, "A", "G", some 2⟩] [] 5 = .ok st) :=
  ⟨((depth_column_failure [⟨"chr1", 1000⟩]
      [⟨"chr1", 10, "A", "C", some 9⟩, ⟨"chr1", 20, "A", "G", none⟩] []).1 5
      (by decide)).1 ⟨⟨"chr1", 20, "A", "G", none⟩, by decide, rfl⟩,
   ((depth_column_failure [⟨"chr1", 1000⟩]
      [⟨"chr1", 10, "A", "C", some 9⟩, ⟨"chr1", 20, "A", "G", some 2⟩] []).1 5
      (by decide)).2 (by decide)⟩

end Compare

namespace Compare

theorem attributeError_files (e : SnpRecord) (o : ObsRecord) (st : State) :
    (attributeError e o st).fn_file = st.fn_file ∧
    (attributeError e o st).fp_file = st.fp_file ∧
    (attributeError e o st).tp_file = st.tp_file ∧
    (attributeError e o st).error_file = st.error_file := by
  unfold attributeError
  simp only
  split_ifs <;> exact ⟨rfl, rfl, rfl, rfl⟩

/-- C27, the claim as written fails: at a fully matching site with reference
allele A and called allele C in both logs, the true-positive record is
`chr1 100 C C`; its third column is the expected called allele, not the
reference allele A.  The erroneous-call record of the same site with observed
call G is `chr1 100 C G`. -/
theorem true_positive_record_has_no_reference_allele :
    (main [⟨"chr1", 1000⟩] [⟨"chr1", 100, "A", "C", none⟩]
        [⟨"chr1", 100, "A", "C", none⟩] 0).toOption.map (fun st => st.tp_file)
      = some [⟨"chr1", 100, "C", "C"⟩] ∧
    (main [⟨"chr1", 1000⟩] [⟨"chr1", 100, "A", "C", none⟩]
        [⟨"chr1", 100, "A", "G", none⟩] 0).toOption.map (fun st => st.error_file)
      = some [⟨"chr1", 100, "C", "G"⟩] := by
  decide

/-- C27, amended.  Each site handler appends at most one record to one detail
log and leaves the other three as they were.  A false-negative record is
scaffold, position, the expected record's reference allele, its called allele;
a false-positive record is scaffold, position and the observed record's two
allele fields; a true-positive and an erroneous-call record are scaffold,
position, the expected called allele, the observed called allele. -/
theorem detail_record_columns (u : List SiteKey) (s : String) (e : SnpRecord) (o : ObsRecord)
    (st : State) :
    ((falseNegativeSite s e st).fn_file = st.fn_file ++
        [⟨s, e.pos, String.singleton (int2bases e.oldallele),
          String.singleton (int2bases e.newallele)⟩] ∧
      (falseNegativeSite s e st).fp_file = st.fp_file ∧
      (falseNegativeSite s e st).tp_file = st.tp_file ∧
      (falseNegativeSite s e st).error_file = st.error_file) ∧
    ((observedOnlyScaffoldSite s o st).fp_file =
        (if ¬ (o.oldallele.length > 1 ∨ o.newallele.length > 1) ∧ o.newallele ≠ "N" then
          st.fp_file ++ [⟨s, o.pos, o.oldallele, o.newallele⟩]
        else st.fp_file) ∧
      (observedOnlyScaffoldSite s o st).fn_file = st.fn_file ∧
      (observedOnlyScaffoldSite s o st).tp_file = st.tp_file ∧
      (observedOnlyScaffoldSite s o st).error_file = st.error_file) ∧
    ((falsePositiveSite u s o st).fp_file =
        (if (s, o.pos) ∉ u ∧ o.oldallele.length = 1 ∧ o.newallele.length = 1 ∧
            o.newallele ≠ "N" then
          st.fp_file ++ [⟨s, o.pos, o.oldallele, o.newallele⟩]
        else st.fp_file) ∧
      (falsePositiveSite u s o st).fn_file = st.fn_file ∧
      (falsePositiveSite u s o st).tp_file = st.tp_file ∧
      (falsePositiveSite u s o st).error_file = st.error_file) ∧
    ((sharedSite s e o st).tp_file =
        (if e.newallele = baseToLong o.newallele then
          st.tp_file ++ [⟨s, e.pos, String.singleton (int2bases e.newallele), o.newallele⟩]
        else st.tp_file) ∧
      (sharedSite s e o st).fn_file =
        (if e.newallele ≠ baseToLong o.newallele ∧ baseToLong o.newallele = 4 then
          st.fn_file ++ [⟨s, e.pos, String.singleton (int2bases e.oldallele),
            String.singleton (int2bases e.newallele)⟩]
        else st.fn_file) ∧
      (sharedSite s e o st).error_file =
        (if e.newallele ≠ baseToLong o.newallele ∧ baseToLong o.newallele ≠ 4 then
          st.error_file ++
            [⟨s, e.pos, String.singleton (int2bases e.newallele), o.newallele⟩]
        else st.error_file) ∧
      (sharedSite s e o st).fp_file = st.fp_file) := by
  refine ⟨?_, ?_, ?_, ?_⟩
  · unfold falseNegativeSite
    simp only
    split_ifs <;> exact ⟨rfl, rfl, rfl, rfl⟩
  · unfold observedOnlyScaffoldSite
    simp only
    split_ifs <;> simp_all
  · unfold falsePositiveSite
    simp only
    split_ifs <;> simp_all
  · unfold sharedSite
    simp only
    split_ifs <;> simp_all [attributeError_files]
    omega

end Compare

namespace Merge

/-- A scaffold of branch 2 on which branch 1 has no record: `operator[]` has
created an empty vector for it, the guard `count == 0` at line 300 does not
hold, and the condition of the loop at line 303 reads through the null
`begin()`; the run is undefined. -/
theorem run_undefined_without_branch1_records :
    main [⟨"chr1", 0, "del", 0⟩] [⟨"chr2", 5, "A", "C", none⟩] [⟨"chr1", 3, "A", "G", none⟩]
      = none := by
  decide

theorem switchScaffold_out (st : State) (s : String) : (switchScaffold st s).out = st.out := by
  unfold switchScaffold; split_ifs <;> rfl

end Merge

namespace Merge

theorem bpAt_eq_getElem (v : List Breakpoint) (i : Nat) (h : i < v.length) :
    bpAt v i = v[i] := by
  simp [bpAt, List.getD_eq_getElem?_getD, List.getElem?_eq_getElem h]

theorem drop_eq_bpAt_cons (v : List Breakpoint) (it : Nat) (h : it < v.length) :
    v.drop it = bpAt v it :: v.drop (it + 1) := by
  rw [List.drop_eq_getElem_cons h, bpAt_eq_getElem v it h]

theorem advance_pass (p : Int) (v : List Breakpoint) (it left : Nat) (h : it < v.length)
    (hp : (bpAt v it).2 < p) :
    advanceBreakpoint p (v.drop it) it left
      = advanceBreakpoint p (v.drop (it + 1)) (it + 1) it := by
  conv_lhs => rw [drop_eq_bpAt_cons v it h]
  simp [advanceBreakpoint, hp]

theorem advance_stop (p : Int) (v : List Breakpoint) (it left : Nat) (h : it < v.length)
    (hp : ¬ (bpAt v it).2 < p) :
    advanceBreakpoint p (v.drop it) it left = (it, left) := by
  rw [drop_eq_bpAt_cons v it h]
  simp [advanceBreakpoint, hp]

theorem advance_end (p : Int) (v : List Breakpoint) (it left : Nat) (h : v.length ≤ it) :
    advanceBreakpoint p (v.drop it) it left = (it, left) := by
  rw [List.drop_eq_nil_of_le h]
  rfl

/-- Where the loop `while ((*indelmap_iterator)[1] < newref_position && ...)`
stops: every breakpoint passed has its target below the position, the
breakpoint under the cursor (if any) has not, and `left_iterator` is the
breakpoint before the cursor as soon as the cursor has moved. -/
theorem advance_spec (p : Int) (v : List Breakpoint) :
    ∀ (d it left : Nat), it + d = v.length →
      it ≤ (advanceBreakpoint p (v.drop it) it left).1 ∧
      (advanceBreakpoint p (v.drop it) it left).1 ≤ v.length ∧
      (∀ i, it ≤ i → i < (advanceBreakpoint p (v.drop it) it left).1 → (bpAt v i).2 < p) ∧
      ((advanceBreakpoint p (v.drop it) it left).1 < v.length →
        p ≤ (bpAt v (advanceBreakpoint p (v.drop it) it left).1).2) ∧
      ((advanceBreakpoint p (v.drop it) it left).1 = it →
        (advanceBreakpoint p (v.drop it) it left).2 = left) ∧
      (it < (advanceBreakpoint p (v.drop it) it left).1 →
        (advanceBreakpoint p (v.drop it) it left).2 + 1
          = (advanceBreakpoint p (v.drop it) it left).1) := by
  intro d
  induction d with
  | zero =>
    intro it left h
    rw [advance_end p v it left (by omega)]
    refine ⟨le_refl _, by simp only; omega, ?_, ?_, ?_, ?_⟩
    · intro i h1 h2; simp only at h2; omega
    · intro h1; simp only at h1; omega
    · intro _; rfl
    · intro h1; simp only at h1; omega
  | succ d ih =>
    intro it left h
    have hit : it < v.length := by omega
    by_cases hp : (bpAt v it).2 < p
    · rw [advance_pass p v it left hit hp]
      obtain ⟨h1, h2, h3, h4, h5, h6⟩ := ih (it + 1) it (by omega)
      refine ⟨by omega, h2, ?_, h4, ?_, ?_⟩
      · intro i hi1 hi2
        by_cases hi : i = it
        · rw [hi]; exact hp
        · exact h3 i (by omega) hi2
      · intro h7; omega
      · intro _
        by_cases h8 : (advanceBreakpoint p (v.drop (it + 1)) (it + 1) it).1 = it + 1
        · rw [h5 h8, h8]
        · exact h6 (by omega)
    · rw [advance_stop p v it left hit hp]
      refine ⟨le_refl _, by simp only; omega, ?_, ?_, ?_, ?_⟩
      · intro i h1 h2; simp only at h2; omega
      · intro _; simp only; omega
      · intro _; rfl
      · intro h1; simp only at h1; omega

/-- Starting the loop anywhere in a stretch of breakpoints that lie below the
position leads to the same cursors as starting it at the end of the stretch. -/
theorem advance_merge (p : Int) (v : List Breakpoint) :
    ∀ (d it0 left0 : Nat), it0 + d + 1 ≤ v.length →
      (∀ i, it0 ≤ i → i < it0 + d + 1 → (bpAt v i).2 < p) →
      advanceBreakpoint p (v.drop it0) it0 left0
        = advanceBreakpoint p (v.drop (it0 + d + 1)) (it0 + d + 1) (it0 + d) := by
  intro d
  induction d with
  | zero =>
    intro it0 left0 hn h
    exact advance_pass p v it0 left0 (by omega) (h it0 (le_refl _) (by omega))
  | succ d ih =>
    intro it0 left0 hn h
    rw [advance_pass p v it0 left0 (by omega) (h it0 (le_refl _) (by omega))]
    have := ih (it0 + 1) it0 (by omega) (fun i h1 h2 => h i (by omega) (by omega))
    rw [this]
    have e1 : it0 + 1 + d + 1 = it0 + (d + 1) + 1 := by omega
    have e2 : it0 + 1 + d = it0 + (d + 1) := by omega
    rw [e1, e2]

theorem translate_congr (v : List Breakpoint) (p : Int) (a b c d : Nat)
    (h : advanceBreakpoint p (v.drop a) a b = advanceBreakpoint p (v.drop c) c d) :
    translate v p a b = translate v p c d := by
  unfold translate
  rw [h]

theorem translate_eq (v : List Breakpoint) (p : Int) (it left : Nat) (hv : v.length ≠ 0)
    (j L : Nat) (hadv : advanceBreakpoint p (v.drop it) it left = (j, L)) :
    translate v p it left =
      (if p > (bpAt v L).2 + (bpAt v (if j = v.length then j - 1 else j)).1 - (bpAt v L).1 ∧
          p < (bpAt v (if j = v.length then j - 1 else j)).2 then
        some ⟨if j = v.length ∨ (p < (bpAt v j).2 ∧ j ≠ 0) then j - 1 else j, L, none⟩
      else
        some ⟨if j = v.length ∨ (p < (bpAt v j).2 ∧ j ≠ 0) then j - 1 else j, L,
          some (p + (bpAt v (if j = v.length ∨ (p < (bpAt v j).2 ∧ j ≠ 0) then j - 1
              else j)).1
            - (bpAt v (if j = v.length ∨ (p < (bpAt v j).2 ∧ j ≠ 0) then j - 1 else j)).2)⟩) := by
  unfold translate
  simp only [hv, if_false, hadv]

end Merge

namespace Merge

theorem translate_some (v : List Breakpoint) (p : Int) (it left : Nat) (hv : v.length ≠ 0)
    (j L : Nat) (hadv : advanceBreakpoint p (v.drop it) it left = (j, L))
    (t : Translation) (ht : translate v p it left = some t) :
    t.indelmap_iterator = (if j = v.length ∨ (p < (bpAt v j).2 ∧ j ≠ 0) then j - 1 else j) ∧
    t.left_iterator = L ∧
    (t.adjusted_position = none ↔
      (p > (bpAt v L).2 + (bpAt v (if j = v.length then j - 1 else j)).1 - (bpAt v L).1 ∧
        p < (bpAt v (if j = v.length then j - 1 else j)).2)) ∧
    (t.adjusted_position ≠ none →
      t.adjusted_position
        = some (p + (bpAt v t.indelmap_iterator).1 - (bpAt v t.indelmap_iterator).2)) := by
  rw [translate_eq v p it left hv j L hadv] at ht
  by_cases hcond : p > (bpAt v L).2 + (bpAt v (if j = v.length then j - 1 else j)).1
      - (bpAt v L).1 ∧ p < (bpAt v (if j = v.length then j - 1 else j)).2
  · rw [if_pos hcond] at ht
    cases ht
    exact ⟨rfl, rfl, ⟨fun _ => hcond, fun _ => rfl⟩, fun h => absurd rfl h⟩
  · rw [if_neg hcond] at ht
    cases ht
    exact ⟨rfl, rfl, ⟨fun h => (by cases h), fun h => absurd h hcond⟩, fun _ => rfl⟩

theorem translate_total (v : List Breakpoint) (p : Int) (it left : Nat) (hv : v.length ≠ 0) :
    ∃ t, translate v p it left = some t := by
  rw [translate_eq v p it left hv _ _ rfl]
  split_ifs <;> exact ⟨_, rfl⟩

theorem translate_length_ne_zero (v : List Breakpoint) (p : Int) (it left : Nat)
    (t : Translation) (ht : translate v p it left = some t) : v.length ≠ 0 := by
  intro hv
  simp [translate, hv] at ht

/-- The cursor left by a translation is inside the vector and, unless it is at
the first breakpoint, on a breakpoint whose target is at most the position. -/
theorem translate_cursor_inv (v : List Breakpoint) (p : Int) (it left : Nat)
    (t : Translation)
    (hinv : 1 ≤ it → it < v.length ∧ (bpAt v it).2 ≤ p)
    (ht : translate v p it left = some t) :
    t.indelmap_iterator < v.length ∧
      (1 ≤ t.indelmap_iterator → (bpAt v t.indelmap_iterator).2 ≤ p) := by
  have hv := translate_length_ne_zero v p it left t ht
  have hit : it < v.length := by
    by_cases h : 1 ≤ it
    · exact (hinv h).1
    · omega
  rcases hr : advanceBreakpoint p (v.drop it) it left with ⟨j, L⟩
  have hs := advance_spec p v (v.length - it) it left (by omega)
  rw [hr] at hs
  simp only at hs
  obtain ⟨h1, h2, h3, h4, h5, h6⟩ := hs
  obtain ⟨hc, -, -, -⟩ := translate_some v p it left hv j L hr t ht
  by_cases hj : j = v.length
  · rw [if_pos (Or.inl hj)] at hc
    have := h3 (j - 1) (by omega) (by omega)
    rw [hc]
    exact ⟨by omega, fun _ => le_of_lt this⟩
  · have hjn : j < v.length := by omega
    by_cases hlt : p < (bpAt v j).2
    · by_cases hj0 : j = 0
      · rw [if_neg (by rintro (h | ⟨_, h⟩); exact hj h; exact h hj0)] at hc
        rw [hc]
        exact ⟨hjn, fun h => by omega⟩
      · rw [if_pos (Or.inr ⟨hlt, hj0⟩)] at hc
        by_cases hij : it < j
        · have := h3 (j - 1) (by omega) (by omega)
          rw [hc]
          exact ⟨by omega, fun _ => le_of_lt this⟩
        · have hji : j = it := by omega
          rw [hji] at hlt
          have := (hinv (by omega)).2
          omega
    · rw [if_neg (by rintro (h | ⟨h, _⟩); exact hj h; exact hlt h)] at hc
      rw [hc]
      exact ⟨hjn, fun _ => by omega⟩

/-- After a position has been skipped as lying within an insertion, a position
not below it is translated from the new cursors exactly as from the old ones. -/
theorem translate_after_skip (v : List Breakpoint) (pd p : Int) (it0 left0 : Nat)
    (td : Translation)
    (hinv : 1 ≤ it0 → it0 < v.length ∧ (bpAt v it0).2 ≤ pd)
    (ht : translate v pd it0 left0 = some td)
    (hdrop : td.adjusted_position = none) (hp : pd ≤ p) :
    translate v p td.indelmap_iterator td.left_iterator = translate v p it0 left0 := by
  have hv := translate_length_ne_zero v pd it0 left0 td ht
  have hit : it0 < v.length := by
    by_cases h : 1 ≤ it0
    · exact (hinv h).1
    · omega
  rcases hr : advanceBreakpoint pd (v.drop it0) it0 left0 with ⟨j, L⟩
  have hs := advance_spec pd v (v.length - it0) it0 left0 (by omega)
  rw [hr] at hs
  simp only at hs
  obtain ⟨h1, h2, h3, h4, h5, h6⟩ := hs
  obtain ⟨hc, hL, hnone, -⟩ := translate_some v pd it0 left0 hv j L hr td ht
  have hcond := hnone.mp hdrop
  by_cases hj : j = v.length
  · exfalso
    have hL1 := h6 (by omega)
    have hLj : L = j - 1 := by omega
    rw [if_pos hj, hLj] at hcond
    omega
  · have hjn : j < v.length := by omega
    rw [if_neg hj] at hcond
    by_cases hij : it0 < j
    · have hL1 := h6 hij
      have hj0 : j ≠ 0 := by omega
      rw [if_pos (Or.inr ⟨hcond.2, hj0⟩)] at hc
      have hLj : L = j - 1 := by omega
      rw [hc, hL, hLj]
      apply translate_congr
      obtain ⟨d1, hd1⟩ : ∃ d1, j = it0 + d1 + 1 := ⟨j - it0 - 1, by omega⟩
      obtain ⟨j1, hj1⟩ : ∃ j1, j = j1 + 1 := ⟨j - 1, by omega⟩
      have m1 := advance_merge p v d1 it0 left0 (by omega)
        (fun i hi1 hi2 => lt_of_lt_of_le (h3 i hi1 (by omega)) hp)
      have m2 := advance_merge p v 0 j1 j1 (by omega)
        (fun i hi1 hi2 => lt_of_lt_of_le (h3 i (by omega) (by omega)) hp)
      have e1 : j - 1 = j1 := by omega
      have e2 : it0 + d1 + 1 = j1 + 0 + 1 := by omega
      have e3 : it0 + d1 = j1 + 0 := by omega
      rw [e1, m1, m2, e2, e3]
    · have hji : j = it0 := by omega
      by_cases h0 : it0 = 0
      · have hL0 := h5 hji
        rw [if_neg (by rintro (h | ⟨_, h⟩); exact hj h; exact h (by omega))] at hc
        rw [hc, hL, hji, hL0]
      · exfalso
        have := (hinv (by omega)).2
        rw [hji] at hcond
        omega

end Merge

namespace Merge

theorem switchScaffold_first (st : State) (s : String) :
    (switchScaffold st s).firstScaffold = s := by
  unfold switchScaffold
  split_ifs with h
  · rfl
  · exact (not_not.mp h).symm

theorem switchScaffold_same (st : State) (s : String) (h : st.firstScaffold = s) :
    switchScaffold st s = st := by
  unfold switchScaffold
  simp [h]

theorem switchScaffold_cursor (st : State) (s : String) :
    (switchScaffold st s).indelmap_iterator = 0 ∨
      (st.firstScaffold = s ∧ switchScaffold st s = st) := by
  by_cases h : st.firstScaffold = s
  · exact Or.inr ⟨h, switchScaffold_same st s h⟩
  · left
    unfold switchScaffold
    rw [if_pos (fun e => h e.symm)]

theorem step_of_skip (indelmap : LogMap Breakpoint) (st : State) (l : LogLine)
    (t : Translation)
    (ht : translate (mapAt indelmap l.scaffold) l.pos
        (switchScaffold st l.scaffold).indelmap_iterator
        (switchScaffold st l.scaffold).left_iterator = some t)
    (hdrop : t.adjusted_position = none) :
    step indelmap st l = some { switchScaffold st l.scaffold with
      indelmap_iterator := t.indelmap_iterator, left_iterator := t.left_iterator } := by
  unfold step
  simp only [ht, hdrop]

theorem step_cursor (indelmap : LogMap Breakpoint) (st st2 : State) (l : LogLine)
    (h : step indelmap st l = some st2) :
    ∃ t, translate (mapAt indelmap l.scaffold) l.pos
        (switchScaffold st l.scaffold).indelmap_iterator
        (switchScaffold st l.scaffold).left_iterator = some t ∧
      st2.indelmap_iterator = t.indelmap_iterator ∧
      st2.left_iterator = t.left_iterator ∧ st2.firstScaffold = l.scaffold := by
  unfold step at h
  rcases ht : translate (mapAt indelmap l.scaffold) l.pos
      (switchScaffold st l.scaffold).indelmap_iterator
      (switchScaffold st l.scaffold).left_iterator with _ | t
  · simp only [ht] at h
    cases h
  · simp only [ht] at h
    rcases hq : t.adjusted_position with _ | q
    · simp only [hq] at h
      cases h
      exact ⟨t, rfl, rfl, rfl, switchScaffold_first _ _⟩
    · simp only [hq] at h
      rcases hrec : reconcile (switchScaffold st l.scaffold).branch1_log
          (switchScaffold st l.scaffold).b1log_iterator l.scaffold q
          (baseToLong l.ref) (baseToLong l.call) with _ | r
      · simp only [hrec] at h
        cases h
      · simp only [hrec] at h
        cases h
        exact ⟨t, rfl, rfl, rfl, switchScaffold_first _ _⟩

theorem step_after_skip (indelmap : LogMap Breakpoint) (st : State) (d l : LogLine)
    (t : Translation) (hsc : l.scaffold = d.scaffold)
    (hinv : 1 ≤ (switchScaffold st d.scaffold).indelmap_iterator →
      (switchScaffold st d.scaffold).indelmap_iterator < (mapAt indelmap d.scaffold).length ∧
      (bpAt (mapAt indelmap d.scaffold) (switchScaffold st d.scaffold).indelmap_iterator).2
        ≤ d.pos)
    (ht : translate (mapAt indelmap d.scaffold) d.pos
        (switchScaffold st d.scaffold).indelmap_iterator
        (switchScaffold st d.scaffold).left_iterator = some t)
    (hdrop : t.adjusted_position = none) (hp : d.pos ≤ l.pos) :
    step indelmap { switchScaffold st d.scaffold with
        indelmap_iterator := t.indelmap_iterator, left_iterator := t.left_iterator } l
      = step indelmap st l := by
  have K := translate_after_skip (mapAt indelmap d.scaffold) d.pos l.pos _ _ t hinv ht hdrop hp
  have e1 : switchScaffold { switchScaffold st d.scaffold with
        indelmap_iterator := t.indelmap_iterator, left_iterator := t.left_iterator } d.scaffold
      = { switchScaffold st d.scaffold with
        indelmap_iterator := t.indelmap_iterator, left_iterator := t.left_iterator } :=
    switchScaffold_same _ _ (switchScaffold_first st d.scaffold)
  unfold step
  rw [hsc, e1]
  simp only
  rw [K]

theorem run_append (indelmap : LogMap Breakpoint) :
    ∀ (a b : List LogLine) (st : State),
      run indelmap st (a ++ b) = (run indelmap st a).bind (fun st2 => run indelmap st2 b) := by
  intro a
  induction a with
  | nil => intro b st; rfl
  | cons l rest ih =>
    intro b st
    simp only [List.cons_append, run]
    cases step indelmap st l with
    | none => rfl
    | some st1 => exact ih b st1

/-- Along a run over position-sorted records of one scaffold, the breakpoint
cursor stays inside the vector and, once it has left the first breakpoint, on
a breakpoint whose target is at most every position still to come. -/
theorem run_cursor_inv (indelmap : LogMap Breakpoint) (s : String) :
    ∀ (pre fut : List LogLine) (st st2 : State),
      (∀ l ∈ pre, l.scaffold = s) →
      ((pre ++ fut).map (fun l => l.pos)).Pairwise (· ≤ ·) →
      (st.firstScaffold = s → 1 ≤ st.indelmap_iterator →
        st.indelmap_iterator < (mapAt indelmap s).length ∧
        ∀ l ∈ pre ++ fut, (bpAt (mapAt indelmap s) st.indelmap_iterator).2 ≤ l.pos) →
      run indelmap st pre = some st2 →
      (st2.firstScaffold = s → 1 ≤ st2.indelmap_iterator →
        st2.indelmap_iterator < (mapAt indelmap s).length ∧
        ∀ l ∈ fut, (bpAt (mapAt indelmap s) st2.indelmap_iterator).2 ≤ l.pos) := by
  intro pre
  induction pre with
  | nil =>
    intro fut st st2 _ _ hinv hrun
    cases hrun
    simpa using hinv
  | cons l rest ih =>
    intro fut st st2 hs hsorted hinv hrun
    have hl : l.scaffold = s := hs l (List.mem_cons_self _ _)
    rcases hstep : step indelmap st l with _ | st1
    · simp [run, hstep] at hrun
    · simp only [run, hstep] at hrun
      obtain ⟨t, ht, hit, -, -⟩ := step_cursor indelmap st st1 l hstep
      rw [hl] at ht
      simp only [List.cons_append, List.map_cons, List.pairwise_cons] at hsorted
      have hsw : 1 ≤ (switchScaffold st s).indelmap_iterator →
          (switchScaffold st s).indelmap_iterator < (mapAt indelmap s).length ∧
          (bpAt (mapAt indelmap s) (switchScaffold st s).indelmap_iterator).2 ≤ l.pos := by
        intro h1
        rcases switchScaffold_cursor st s with h0 | ⟨hf, he⟩
        · omega
        · rw [he] at h1 ⊢
          obtain ⟨ha, hb⟩ := hinv hf h1
          exact ⟨ha, hb l (List.mem_cons_self _ _)⟩
      obtain ⟨hc1, hc2⟩ := translate_cursor_inv (mapAt indelmap s) l.pos _ _ t hsw ht
      refine ih fut st1 st2 (fun x hx => hs x (List.mem_cons_of_mem _ hx)) hsorted.2 ?_ hrun
      intro _ h1
      rw [hit] at h1 ⊢
      refine ⟨hc1, ?_⟩
      intro x hx
      have := hsorted.1 x.pos (List.mem_map_of_mem _ hx)
      have := hc2 h1
      omega

/-- C25. In a position-sorted branch 2 log on one scaffold, a record that the
translation skips as lying between the insertion flanks writes nothing and
leaves branch 1's cursor where it was, every later record is processed from it
as it would be without it, and the merged output is the output for the log
without that record. -/
theorem skipped_record_leaves_no_trace (indel_log : List IndelLine)
    (branch1 pre post : List LogLine) (d : LogLine) (st_pre : State) (t : Translation)
    (hs : ∀ l ∈ pre ++ d :: post, l.scaffold = d.scaffold)
    (hsorted : ((pre ++ d :: post).map (fun l => l.pos)).Pairwise (· ≤ ·))
    (hpre : run (constructIndelMap indel_log) (initialState branch1) pre = some st_pre)
    (ht : translate (mapAt (constructIndelMap indel_log) d.scaffold) d.pos
        (switchScaffold st_pre d.scaffold).indelmap_iterator
        (switchScaffold st_pre d.scaffold).left_iterator = some t)
    (hdrop : t.adjusted_position = none) :
    main indel_log branch1 (pre ++ d :: post) = main indel_log branch1 (pre ++ post) ∧
    ∃ st_d, step (constructIndelMap indel_log) st_pre d = some st_d ∧
      st_d.out = st_pre.out ∧
      st_d.b1log_iterator = (switchScaffold st_pre d.scaffold).b1log_iterator ∧
      st_d.branch1_log = (switchScaffold st_pre d.scaffold).branch1_log ∧
      ∀ l rest, post = l :: rest →
        run (constructIndelMap indel_log) st_d post
          = run (constructIndelMap indel_log) st_pre post := by
  have hstep := step_of_skip (constructIndelMap indel_log) st_pre d t ht hdrop
  have hinv := run_cursor_inv (constructIndelMap indel_log) d.scaffold pre (d :: post)
    (initialState branch1) st_pre
    (fun l hl => hs l (List.mem_append_left _ hl)) hsorted
    (fun _ h1 => absurd h1 (by simp [initialState])) hpre
  have hsw : 1 ≤ (switchScaffold st_pre d.scaffold).indelmap_iterator →
      (switchScaffold st_pre d.scaffold).indelmap_iterator
        < (mapAt (constructIndelMap indel_log) d.scaffold).length ∧
      (bpAt (mapAt (constructIndelMap indel_log) d.scaffold)
        (switchScaffold st_pre d.scaffold).indelmap_iterator).2 ≤ d.pos := by
    intro h1
    rcases switchScaffold_cursor st_pre d.scaffold with h0 | ⟨hf, he⟩
    · omega
    · rw [he] at h1 ⊢
      obtain ⟨ha, hb⟩ := hinv hf h1
      exact ⟨ha, hb d (List.mem_cons_self _ _)⟩
  have hlater : ∀ l rest, post = l :: rest →
      run (constructIndelMap indel_log)
          { switchScaffold st_pre d.scaffold with
            indelmap_iterator := t.indelmap_iterator, left_iterator := t.left_iterator } post
        = run (constructIndelMap indel_log) st_pre post := by
    intro l rest hpost
    subst hpost
    have hl : l.scaffold = d.scaffold :=
      hs l (List.mem_append_right _ (List.mem_cons_of_mem _ (List.mem_cons_self _ _)))
    have hle : d.pos ≤ l.pos := by
      rw [List.map_append, List.pairwise_append] at hsorted
      have h2 := hsorted.2.1
      simp only [List.map_cons, List.pairwise_cons] at h2
      exact h2.1 l.pos (List.mem_cons_self _ _)
    simp only [run]
    rw [step_after_skip (constructIndelMap indel_log) st_pre d l t hl hsw ht hdrop hle]
  refine ⟨?_, _, hstep, switchScaffold_out _ _, rfl, rfl, hlater⟩
  unfold main
  rw [run_append, run_append, hpre]
  show Option.map (fun st => st.out) (run (constructIndelMap indel_log) st_pre (d :: post))
    = Option.map (fun st => st.out) (run (constructIndelMap indel_log) st_pre post)
  have hrun : run (constructIndelMap indel_log) st_pre (d :: post)
      = run (constructIndelMap indel_log)
          { switchScaffold st_pre d.scaffold with
            indelmap_iterator := t.indelmap_iterator, left_iterator := t.left_iterator }
          post := by
    simp only [run, hstep]
  rw [hrun]
  cases post with
  | nil => simp [run, switchScaffold_out]
  | cons l rest => rw [hlater l rest rfl]

/-- Insertions of 3 after position 9 and of 2 after position 29: the branch 2
record at 12 lies within the first insertion and is skipped; the log with it
and the log without it give the same merged output. -/
theorem skipped_record_leaves_no_trace_witness :
    main [⟨"chr1", 9, "ins", 3⟩, ⟨"chr1", 29, "ins", 2⟩]
        [⟨"chr1", 4, "A", "C", none⟩, ⟨"chr1", 20, "G", "T", none⟩]
        ([⟨"chr1", 6, "C", "G", none⟩] ++ ⟨"chr1", 12, "A", "T", none⟩ ::
          [⟨"chr1", 30, "T", "A", none⟩])
      = main [⟨"chr1", 9, "ins", 3⟩, ⟨"chr1", 29, "ins", 2⟩]
        [⟨"chr1", 4, "A", "C", none⟩, ⟨"chr1", 20, "G", "T", none⟩]
        ([⟨"chr1", 6, "C", "G", none⟩] ++ [⟨"chr1", 30, "T", "A", none⟩]) :=
  (skipped_record_leaves_no_trace [⟨"chr1", 9, "ins", 3⟩, ⟨"chr1", 29, "ins", 2⟩]
    [⟨"chr1", 4, "A", "C", none⟩, ⟨"chr1", 20, "G", "T", none⟩]
    [⟨"chr1", 6, "C", "G", none⟩] [⟨"chr1", 30, "T", "A", none⟩]
    ⟨"chr1", 12, "A", "T", none⟩
    ⟨"chr1", 0, 0, 1, [("chr1", [⟨4, 0, 1⟩, ⟨20, 2, 3⟩])],
      [⟨"chr1", 4, 'A', 'C'⟩, ⟨"chr1", 6, 'C', 'G'⟩]⟩
    ⟨0, 0, none⟩ (by decide) (by decide) (by decide) (by decide) rfl).1

end Merge

namespace Merge

theorem targets_increasing (v : List Breakpoint)
    (hinc : (v.map (fun bp => bp.2)).Pairwise (· < ·)) (i j : Nat) (hij : i < j)
    (hj : j < v.length) : (bpAt v i).2 < (bpAt v j).2 := by
  rw [List.pairwise_iff_getElem] at hinc
  have h := hinc i j (by simp; omega) (by simp; omega) hij
  simp only [List.getElem_map] at h
  rw [bpAt_eq_getElem v i (by omega), bpAt_eq_getElem v j hj]
  exact h

theorem targets_nondecreasing (v : List Breakpoint)
    (hinc : (v.map (fun bp => bp.2)).Pairwise (· < ·)) (i j : Nat) (hij : i ≤ j)
    (hj : j < v.length) : (bpAt v i).2 ≤ (bpAt v j).2 := by
  by_cases h : i = j
  · rw [h]
  · exact le_of_lt (targets_increasing v hinc i j (by omega) hj)

/-- What a translation from a valid cursor yields on a breakpoint vector with
strictly increasing targets: the new cursor, the left cursor, the skip
condition and the adjusted position. -/
theorem translate_bracket (v : List Breakpoint) (p : Int) (it left : Nat)
    (hit : it < v.length) (hinc : (v.map (fun bp => bp.2)).Pairwise (· < ·))
    (hcur : (bpAt v it).2 ≤ p) :
    ∃ t, translate v p it left = some t ∧
      t.indelmap_iterator < v.length ∧
      (bpAt v t.indelmap_iterator).2 ≤ p ∧
      (∀ i, t.indelmap_iterator < i → i < v.length → p < (bpAt v i).2) ∧
      ((bpAt v it).2 < p →
        (bpAt v t.left_iterator).2 < p ∧
        ∀ i, t.left_iterator < i → i < v.length → p ≤ (bpAt v i).2) ∧
      (t.adjusted_position = none ↔
        ∃ l, l + 1 < v.length ∧ (bpAt v l).2 < p ∧ p < (bpAt v (l + 1)).2 ∧
          (bpAt v l).2 + ((bpAt v (l + 1)).1 - (bpAt v l).1) < p) ∧
      (t.adjusted_position ≠ none →
        t.adjusted_position
          = some (p + (bpAt v t.indelmap_iterator).1 - (bpAt v t.indelmap_iterator).2)) := by
  have hv : v.length ≠ 0 := by omega
  obtain ⟨t, ht⟩ := translate_total v p it left hv
  rcases hr : advanceBreakpoint p (v.drop it) it left with ⟨j, L⟩
  have hs := advance_spec p v (v.length - it) it left (by omega)
  rw [hr] at hs
  simp only at hs
  obtain ⟨h1, h2, h3, h4, h5, h6⟩ := hs
  obtain ⟨hc, hL, hnone, hsome⟩ := translate_some v p it left hv j L hr t ht
  have hleft : (bpAt v it).2 < p →
      (bpAt v t.left_iterator).2 < p ∧
      ∀ i, t.left_iterator < i → i < v.length → p ≤ (bpAt v i).2 := by
    intro hlt
    have hij : it < j := by
      by_contra hcon
      have hji : j = it := by omega
      have := h4 (by omega)
      rw [hji] at this
      omega
    have hL1 := h6 hij
    rw [hL]
    refine ⟨h3 L (by omega) (by omega), ?_⟩
    intro i hi1 hi2
    have hjn : j < v.length := by omega
    have := h4 hjn
    have := targets_nondecreasing v hinc j i (by omega) hi2
    omega
  have hskip : t.adjusted_position = none ↔
      ∃ l, l + 1 < v.length ∧ (bpAt v l).2 < p ∧ p < (bpAt v (l + 1)).2 ∧
        (bpAt v l).2 + ((bpAt v (l + 1)).1 - (bpAt v l).1) < p := by
    rw [hnone]
    constructor
    · intro hcond
      by_cases hj : j = v.length
      · exfalso
        have hL1 := h6 (by omega)
        have hLj : L = j - 1 := by omega
        rw [if_pos hj, hLj] at hcond
        omega
      · rw [if_neg hj] at hcond
        have hij : it < j := by
          by_contra hcon
          have hji : j = it := by omega
          rw [hji] at hcond
          omega
        have hL1 := h6 hij
        have hLlt := h3 L (by omega) (by omega)
        rw [← hL1] at hcond hj
        exact ⟨L, by omega, hLlt, hcond.2, by omega⟩
    · rintro ⟨l, hl1, hl2, hl3, hl4⟩
      have hitl : it ≤ l := by
        by_contra hcon
        have := targets_nondecreasing v hinc (l + 1) it (by omega) hit
        omega
      have hjl : l < j := by
        by_contra hcon
        have hjn : j < v.length := by omega
        have := h4 hjn
        have := targets_nondecreasing v hinc j l (by omega) (by omega)
        omega
      have hjl1 : j = l + 1 := by
        by_contra hcon
        have := h3 (l + 1) (by omega) (by omega)
        omega
      have hL1 := h6 (by omega)
      have hLl : L = l := by omega
      rw [if_neg (by omega), hLl, hjl1]
      exact ⟨by omega, hl3⟩
  refine ⟨t, ht, ?_, ?_, ?_, hleft, hskip, hsome⟩
  · exact (translate_cursor_inv v p it left t (fun _ => ⟨hit, hcur⟩) ht).1
  · by_cases hj : j = v.length
    · rw [if_pos (Or.inl hj)] at hc
      rw [hc]
      exact le_of_lt (h3 (j - 1) (by omega) (by omega))
    · by_cases hlt : p < (bpAt v j).2
      · have hij : it < j := by
          by_contra hcon
          have hji : j = it := by omega
          rw [hji] at hlt
          omega
        rw [if_pos (Or.inr ⟨hlt, by omega⟩)] at hc
        rw [hc]
        exact le_of_lt (h3 (j - 1) (by omega) (by omega))
      · rw [if_neg (by rintro (h | ⟨h, _⟩); exact hj h; exact hlt h)] at hc
        rw [hc]
        omega
  · intro i hi1 hi2
    by_cases hj : j = v.length
    · rw [if_pos (Or.inl hj)] at hc
      omega
    · have hjn : j < v.length := by omega
      by_cases hlt : p < (bpAt v j).2
      · have := targets_nondecreasing v hinc j i (by
          by_cases hj0 : j = 0
          · omega
          · rw [if_pos (Or.inr ⟨hlt, hj0⟩)] at hc
            omega) hi2
        omega
      · rw [if_neg (by rintro (h | ⟨h, _⟩); exact hj h; exact hlt h)] at hc
        have := h4 hjn
        have := targets_increasing v hinc j i (by omega) hi2
        omega

/-- C26. On a breakpoint vector with strictly increasing targets, for a
position `p` not below the target under the cursor (as at the start of a
scaffold for `p ≥ 1`, and again after every translation of an earlier
position): the translation is defined; its cursor ends on the last breakpoint
`(s, t)` with `t ≤ p`; when the cursor had to move, `left_iterator` ends on the
last breakpoint with target `< p`; the record is skipped if and only if `p`
lies strictly between `left.target + (right.source - left.source)` and
`right.target` for the two consecutive breakpoints `left`, `right` with
`left.target < p < right.target`; otherwise the adjusted position is
`p + s - t`. -/
theorem flank_translation (v : List Breakpoint) (p : Int) (it left : Nat)
    (hit : it < v.length) (hinc : (v.map (fun bp => bp.2)).Pairwise (· < ·))
    (hcur : (bpAt v it).2 ≤ p) :
    ∃ t, translate v p it left = some t ∧
      t.indelmap_iterator < v.length ∧
      (bpAt v t.indelmap_iterator).2 ≤ p ∧
      (∀ i, t.indelmap_iterator < i → i < v.length → p < (bpAt v i).2) ∧
      ((bpAt v it).2 < p →
        (bpAt v t.left_iterator).2 < p ∧
        ∀ i, t.left_iterator < i → i < v.length → p ≤ (bpAt v i).2) ∧
      (t.adjusted_position = none ↔
        ∃ l, l + 1 < v.length ∧ (bpAt v l).2 < p ∧ p < (bpAt v (l + 1)).2 ∧
          (bpAt v l).2 + ((bpAt v (l + 1)).1 - (bpAt v l).1) < p) ∧
      (t.adjusted_position ≠ none →
        t.adjusted_position
          = some (p + (bpAt v t.indelmap_iterator).1 - (bpAt v t.indelmap_iterator).2)) :=
  translate_bracket v p it left hit hinc hcur

/-- Breakpoints `(0,0)`, `(10,13)`, `(30,35)` and the cursor at the start: the
position 12 is skipped, since `0 + (10 - 0) < 12 < 13`. -/
theorem flank_translation_witness :
    ∃ t, translate [(0, 0), (10, 13), (30, 35)] 12 0 0 = some t ∧
      t.indelmap_iterator < [((0 : Int), (0 : Int)), (10, 13), (30, 35)].length ∧
      (bpAt [(0, 0), (10, 13), (30, 35)] t.indelmap_iterator).2 ≤ 12 ∧
      (∀ i, t.indelmap_iterator < i → i < [((0 : Int), (0 : Int)), (10, 13), (30, 35)].length →
        12 < (bpAt [(0, 0), (10, 13), (30, 35)] i).2) ∧
      ((bpAt [(0, 0), (10, 13), (30, 35)] 0).2 < 12 →
        (bpAt [(0, 0), (10, 13), (30, 35)] t.left_iterator).2 < 12 ∧
        ∀ i, t.left_iterator < i → i < [((0 : Int), (0 : Int)), (10, 13), (30, 35)].length →
          12 ≤ (bpAt [(0, 0), (10, 13), (30, 35)] i).2) ∧
      (t.adjusted_position = none ↔
        ∃ l, l + 1 < [((0 : Int), (0 : Int)), (10, 13), (30, 35)].length ∧
          (bpAt [(0, 0), (10, 13), (30, 35)] l).2 < 12 ∧
          12 < (bpAt [(0, 0), (10, 13), (30, 35)] (l + 1)).2 ∧
          (bpAt [(0, 0), (10, 13), (30, 35)] l).2 +
            ((bpAt [(0, 0), (10, 13), (30, 35)] (l + 1)).1 -
              (bpAt [(0, 0), (10, 13), (30, 35)] l).1) < 12) ∧
      (t.adjusted_position ≠ none →
        t.adjusted_position
          = some (12 + (bpAt [(0, 0), (10, 13), (30, 35)] t.indelmap_iterator).1
            - (bpAt [(0, 0), (10, 13), (30, 35)] t.indelmap_iterator).2)) :=
  flank_translation [(0, 0), (10, 13), (30, 35)] 12 0 0 (by decide) (by decide) (by decide)

end Merge

namespace Diploidize

theorem degenerateBases_comm (a b : Nat) : degenerateBases a b = degenerateBases b a := by
  by_cases h : a > 3 ∨ b > 3
  · have h2 : b > 3 ∨ a > 3 := h.symm
    unfold degenerateBases
    by_cases hab : a = b
    · subst hab
      rfl
    · have hba : ¬ b = a := fun e => hab e.symm
      simp only [hab, hba, h, h2, if_false, if_true]
  · have ha : a ≤ 3 := by omega
    have hb : b ≤ 3 := by omega
    interval_cases a <;> interval_cases b <;> rfl

theorem mergeBoth_nil_right (s : String) (b : List SnpRecord) :
    mergeBoth s b [] = b.map (hetAgainstRef s) := by
  cases b with
  | nil => rfl
  | cons r rest => rfl

theorem mergeBoth_cons_cons (s : String) (r1 r2 : SnpRecord) (rest1 rest2 : List SnpRecord) :
    mergeBoth s (r1 :: rest1) (r2 :: rest2)
      = if r1.pos < r2.pos then hetAgainstRef s r1 :: mergeBoth s rest1 (r2 :: rest2)
        else if r1.pos > r2.pos then hetAgainstRef s r2 :: mergeBoth s (r1 :: rest1) rest2
        else diploidizeSite s r1 r2 :: mergeBoth s rest1 rest2 := by
  rfl

theorem forall₂_self_of_refl {α : Type} (R : α → α → Prop) (h : ∀ x, R x x) (l : List α) :
    List.Forall₂ R l l :=
  List.forall₂_same.mpr (fun x _ => h x)

theorem swapRelated_refl (hap1 hap2 : List LogLine) (x : OutLine) :
    SwapRelated hap1 hap2 x x :=
  ⟨rfl, rfl, rfl, fun h => absurd rfl h⟩

theorem mem_mapAt_readLog (hap : List LogLine) (s : String) (r : SnpRecord)
    (h : r ∈ mapAt (readLog hap) s) :
    ∃ l ∈ hap, l.scaffold = s ∧ l.pos = r.pos ∧ baseToLong l.ref = r.oldallele := by
  unfold readLog at h
  rw [mapAt_foldl_pushBack (fun l : LogLine => l.scaffold)
    (fun l : LogLine => (⟨l.pos, baseToLong l.ref, baseToLong l.call⟩ : SnpRecord))] at h
  simp only [mapAt, List.nil_append, List.mem_map, List.mem_filter, decide_eq_true_eq] at h
  obtain ⟨l, ⟨hl, hs⟩, rfl⟩ := h
  exact ⟨l, hl, hs, rfl, rfl⟩

/-- The two-cursor loop with the haploids in the other order writes the same
lines, up to the reference allele at a position both haploids have. -/
theorem mergeBoth_swap (hap1 hap2 : List LogLine) (s : String) :
    ∀ (n : Nat) (b1 b2 : List SnpRecord), b1.length + b2.length ≤ n →
      (∀ r ∈ b1, r ∈ mapAt (readLog hap1) s) → (∀ r ∈ b2, r ∈ mapAt (readLog hap2) s) →
      List.Forall₂ (SwapRelated hap1 hap2) (mergeBoth s b1 b2) (mergeBoth s b2 b1) := by
  intro n
  induction n with
  | zero =>
    intro b1 b2 hn _ _
    have h1 : b1 = [] := List.length_eq_zero.mp (by omega)
    have h2 : b2 = [] := List.length_eq_zero.mp (by omega)
    subst h1 h2
    exact List.Forall₂.nil
  | succ n ih =>
    intro b1 b2 hn hm1 hm2
    cases b1 with
    | nil =>
      rw [mergeBoth_nil_right]
      exact forall₂_self_of_refl _ (swapRelated_refl hap1 hap2) _
    | cons r1 rest1 =>
      cases b2 with
      | nil =>
        rw [mergeBoth_nil_right]
        exact forall₂_self_of_refl _ (swapRelated_refl hap1 hap2) _
      | cons r2 rest2 =>
        simp only [List.length_cons] at hn
        have hm1r : ∀ r ∈ rest1, r ∈ mapAt (readLog hap1) s :=
          fun r hr => hm1 r (List.mem_cons_of_mem _ hr)
        have hm2r : ∀ r ∈ rest2, r ∈ mapAt (readLog hap2) s :=
          fun r hr => hm2 r (List.mem_cons_of_mem _ hr)
        rw [mergeBoth_cons_cons s r1 r2, mergeBoth_cons_cons s r2 r1]
        by_cases hlt : r1.pos < r2.pos
        · have h1 : ¬ r2.pos < r1.pos := by omega
          have h2 : r2.pos > r1.pos := hlt
          simp only [hlt, h1, h2, if_true, if_false]
          exact List.Forall₂.cons (swapRelated_refl hap1 hap2 _)
            (ih rest1 (r2 :: rest2) (by simp only [List.length_cons]; omega) hm1r hm2)
        · by_cases hgt : r1.pos > r2.pos
          · have h1 : r2.pos < r1.pos := hgt
            simp only [hlt, hgt, h1, if_true, if_false]
            exact List.Forall₂.cons (swapRelated_refl hap1 hap2 _)
              (ih (r1 :: rest1) rest2 (by simp only [List.length_cons]; omega) hm1 hm2r)
          · have h1 : ¬ r2.pos < r1.pos := hgt
            have h2 : ¬ r2.pos > r1.pos := hlt
            have heq : r1.pos = r2.pos := by omega
            simp only [hlt, hgt, h1, h2, if_false]
            refine List.Forall₂.cons ⟨rfl, heq, ?_, ?_⟩
              (ih rest1 rest2 (by omega) hm1r hm2r)
            · simp only [diploidizeSite]
              rw [degenerateBases_comm]
            · intro href
              obtain ⟨l1, hl1, hs1, hp1, ho1⟩ :=
                mem_mapAt_readLog hap1 s r1 (hm1 r1 (List.mem_cons_self _ _))
              obtain ⟨l2, hl2, hs2, hp2, ho2⟩ :=
                mem_mapAt_readLog hap2 s r2 (hm2 r2 (List.mem_cons_self _ _))
              refine ⟨l1, hl1, l2, hl2, hs1, hs2, hp1, by rw [hp2]; exact heq.symm, ?_⟩
              rw [ho1, ho2]
              intro hold
              apply href
              simp only [diploidizeSite, hold]

/-- C36. `degenerateBases` does not depend on the order of its arguments, and
diploidizeSNPlog run with its two haploid inputs swapped writes as many lines,
line by line at the same scaffold and position and with the same called
allele; the reference alleles of two corresponding lines differ only where
both haploids have a record at that scaffold and position and their reference
alleles disagree. -/
theorem haploid_swap (scaffolds : List String) (hap1 hap2 : List LogLine) :
    (∀ a b : Nat, degenerateBases a b = degenerateBases b a) ∧
    List.Forall₂ (SwapRelated hap1 hap2) (main scaffolds hap1 hap2)
      (main scaffolds hap2 hap1) ∧
    (main scaffolds hap1 hap2).map (fun x => (x.scaffold, x.pos, x.call))
      = (main scaffolds hap2 hap1).map (fun x => (x.scaffold, x.pos, x.call)) := by
  have hrel : List.Forall₂ (SwapRelated hap1 hap2) (main scaffolds hap1 hap2)
      (main scaffolds hap2 hap1) := by
    unfold main
    induction scaffolds with
    | nil => exact List.Forall₂.nil
    | cons s rest ih =>
      simp only [List.flatMap_cons]
      refine List.rel_append ?_ ih
      rw [scaffoldPass_eq_mergeBoth, scaffoldPass_eq_mergeBoth]
      exact mergeBoth_swap hap1 hap2 s _ _ _ (le_refl _) (fun _ h => h) (fun _ h => h)
  refine ⟨degenerateBases_comm, hrel, ?_⟩
  generalize main scaffolds hap1 hap2 = xs at hrel
  generalize main scaffolds hap2 hap1 = ys at hrel
  induction hrel with
  | nil => rfl
  | cons h _ ih =>
    simp only [List.map_cons, ih]
    obtain ⟨h1, h2, h3, -⟩ := h
    rw [h1, h2, h3]

end Diploidize

namespace Merge

theorem breakpointReads_ne_nil (p : Int) (w : List Breakpoint) (it : Nat) :
    breakpointReads p w it ≠ [] := by
  cases w with
  | nil => simp [breakpointReads]
  | cons bp rest =>
    simp only [breakpointReads]
    split_ifs <;> simp

theorem breakpointReads_last (p : Int) (w : List Breakpoint) :
    ∀ (it left : Nat),
      (breakpointReads p w it).getLast? = some (advanceBreakpoint p w it left).1 := by
  induction w with
  | nil => intro it left; rfl
  | cons bp rest ih =>
    intro it left
    by_cases h : p > bp.2
    · simp only [breakpointReads, advanceBreakpoint, h, if_true]
      rw [← ih (it + 1) it]
      cases hr : breakpointReads p rest (it + 1) with
      | nil => exact absurd hr (breakpointReads_ne_nil p rest (it + 1))
      | cons a as => simp [List.getLast?_cons_cons]
    · simp [breakpointReads, advanceBreakpoint, h]

/-- C32. The indel log `chr1 0 del 0` (breakpoints `(0,0)`), the branch 1 log
`chr1 3 A C` and the branch 2 log `chr1 5 C G`: the condition of the
breakpoint loop reads the cursor at positions 0 and 1, and 1 is `end()` of the
one-element vector; the condition of the branch 1 loop, for the adjusted
position 5, reads branch 1's cursor at positions 0 and 1, and 1 is `end()` of
branch 1's one record.  The value read at `end()` does not reach the output:
whatever it is, the comparison with `end()` ends the loop. -/
theorem loop_conditions_read_at_end :
    mapAt (constructIndelMap [⟨"chr1", 0, "del", 0⟩]) "chr1" = [(0, 0)] ∧
    breakpointReads 5 ((mapAt (constructIndelMap [⟨"chr1", 0, "del", 0⟩]) "chr1").drop 0) 0
      = [0, (mapAt (constructIndelMap [⟨"chr1", 0, "del", 0⟩]) "chr1").length] ∧
    translate (mapAt (constructIndelMap [⟨"chr1", 0, "del", 0⟩]) "chr1") 5 0 0
      = some ⟨0, 0, some 5⟩ ∧
    branch1Reads 5 ((mapAt (readBranch1 [⟨"chr1", 3, "A", "C", none⟩]) "chr1").drop 0) 0
      = [0, (mapAt (readBranch1 [⟨"chr1", 3, "A", "C", none⟩]) "chr1").length] ∧
    main [⟨"chr1", 0, "del", 0⟩] [⟨"chr1", 3, "A", "C", none⟩] [⟨"chr1", 5, "C", "G", none⟩]
      = some [⟨"chr1", 3, 'A', 'C'⟩, ⟨"chr1", 5, 'C', 'G'⟩] := by
  decide

end Merge

namespace Merge

theorem constructIndelMap_single_insertion (scaffold : String) (q s : Int) (hs : 1 ≤ s) :
    mapAt (constructIndelMap [⟨scaffold, q, "ins", s⟩]) scaffold
      = [(0, 0), (q + 1, q + 1 + s)] := by
  have hs0 : ¬ s = 0 := by omega
  simp [constructIndelMap, indelStep, mapCount, mapPushBack, mapAt, hs0]

/-- C33. A single insertion of size `s ≥ 1` at the 0-based position `q ≥ 0`
gives the breakpoints `(0,0)`, `(q+1, q+1+s)`.  From every valid cursor, a
branch 2 position `p ≥ 1` is skipped if and only if `q+2 ≤ p ≤ q+s` (`s - 1`
positions); the positions `q+1` and `q+1+s` are both translated to `q+1`;
positions up to `q` keep their value and positions above `q+1+s` are lowered
by `s`. -/
theorem single_insertion (scaffold : String) (q s p : Int) (it left : Nat)
    (hq : 0 ≤ q) (hs : 1 ≤ s) (hp : 1 ≤ p)
    (hit : it < (mapAt (constructIndelMap [⟨scaffold, q, "ins", s⟩]) scaffold).length)
    (hcur : (bpAt (mapAt (constructIndelMap [⟨scaffold, q, "ins", s⟩]) scaffold) it).2 ≤ p) :
    mapAt (constructIndelMap [⟨scaffold, q, "ins", s⟩]) scaffold
      = [(0, 0), (q + 1, q + 1 + s)] ∧
    ∃ t, translate (mapAt (constructIndelMap [⟨scaffold, q, "ins", s⟩]) scaffold) p it left
        = some t ∧
      (t.adjusted_position = none ↔ q + 2 ≤ p ∧ p ≤ q + s) ∧
      (p = q + 1 ∨ p = q + 1 + s → t.adjusted_position = some (q + 1)) ∧
      (p ≤ q → t.adjusted_position = some p) ∧
      (q + 1 + s < p → t.adjusted_position = some (p - s)) := by
  have hv := constructIndelMap_single_insertion scaffold q s hs
  refine ⟨hv, ?_⟩
  rw [hv] at hit hcur ⊢
  have hinc : (([(0, 0), (q + 1, q + 1 + s)] : List Breakpoint).map
      (fun bp => bp.2)).Pairwise (· < ·) := by
    refine List.Pairwise.cons ?_ (List.pairwise_singleton _ _)
    intro a ha
    simp only [List.map_cons, List.map_nil, List.mem_singleton] at ha
    rw [ha]
    show (0 : Int) < q + 1 + s
    omega
  obtain ⟨t, ht, hc1, hc2, hc3, -, hskip, hsome⟩ :=
    translate_bracket [(0, 0), (q + 1, q + 1 + s)] p it left hit hinc hcur
  have b0 : bpAt [(0, 0), (q + 1, q + 1 + s)] 0 = (0, 0) := rfl
  have b1 : bpAt [(0, 0), (q + 1, q + 1 + s)] 1 = (q + 1, q + 1 + s) := rfl
  have hlen : ([(0, 0), (q + 1, q + 1 + s)] : List Breakpoint).length = 2 := rfl
  rw [hlen] at hc1 hc3 hskip
  have hdrop : t.adjusted_position = none ↔ q + 2 ≤ p ∧ p ≤ q + s := by
    rw [hskip]
    constructor
    · rintro ⟨l, hl, h1, h2, h3⟩
      have hl0 : l = 0 := by omega
      subst hl0
      simp only [zero_add, b0, b1] at h1 h2 h3
      omega
    · intro h
      refine ⟨0, by omega, ?_, ?_, ?_⟩
      · rw [b0]; simp only; omega
      · simp only [zero_add, b1]; omega
      · simp only [zero_add, b0, b1]; omega
  have hadj : ¬ (q + 2 ≤ p ∧ p ≤ q + s) → t.adjusted_position
      = some (p + (bpAt [(0, 0), (q + 1, q + 1 + s)] t.indelmap_iterator).1
        - (bpAt [(0, 0), (q + 1, q + 1 + s)] t.indelmap_iterator).2) :=
    fun h => hsome (fun hn => h (hdrop.mp hn))
  have hc : t.indelmap_iterator = 0 ∨ t.indelmap_iterator = 1 := by omega
  refine ⟨t, ht, hdrop, ?_, ?_, ?_⟩
  · intro hpq
    rw [hadj (by omega)]
    rcases hc with h0 | h1
    · rw [h0] at hc3 ⊢
      have := hc3 1 (by omega) (by omega)
      rw [b1] at this
      simp only [b0] at this ⊢
      have hp1 : p = q + 1 := by omega
      rw [hp1]
      simp
    · rw [h1] at hc2 ⊢
      rw [b1] at hc2 ⊢
      simp only at hc2 ⊢
      have hp1 : p = q + 1 + s := by omega
      rw [hp1]
      congr 1
      omega
  · intro hpq
    rw [hadj (by omega)]
    rcases hc with h0 | h1
    · rw [h0, b0]
      simp
    · rw [h1] at hc2
      rw [b1] at hc2
      simp only at hc2
      omega
  · intro hpq
    rw [hadj (by omega)]
    rcases hc with h0 | h1
    · rw [h0] at hc3
      have := hc3 1 (by omega) (by omega)
      rw [b1] at this
      simp only at this
      omega
    · rw [h1, b1]
      simp only
      congr 1
      omega

/-- An insertion of 3 after the 0-based position 9: from the start of the
scaffold the position 12 is skipped. -/
theorem single_insertion_witness :
    mapAt (constructIndelMap [⟨"chr1", 9, "ins", 3⟩]) "chr1" = [(0, 0), (9 + 1, 9 + 1 + 3)] ∧
    ∃ t, translate (mapAt (constructIndelMap [⟨"chr1", 9, "ins", 3⟩]) "chr1") 12 0 0 = some t ∧
      (t.adjusted_position = none ↔ (9 : Int) + 2 ≤ 12 ∧ (12 : Int) ≤ 9 + 3) ∧
      ((12 : Int) = 9 + 1 ∨ (12 : Int) = 9 + 1 + 3 → t.adjusted_position = some (9 + 1)) ∧
      ((12 : Int) ≤ 9 → t.adjusted_position = some 12) ∧
      ((9 : Int) + 1 + 3 < 12 → t.adjusted_position = some (12 - 3)) :=
  single_insertion "chr1" 9 3 12 0 0 (by decide) (by decide) (by decide) (by decide)
    (by decide)

end Merge

namespace Merge

end Merge

namespace Merge

end Merge

namespace Compare

theorem advances_refl (st : State) : Advances 0 st st := ⟨rfl, rfl, rfl⟩

theorem advances_trans (n m : Nat) (a b c : State) (h1 : Advances n a b)
    (h2 : Advances m b c) : Advances (n + m) a c := by
  obtain ⟨a1, a2, a3⟩ := h1
  obtain ⟨b1, b2, b3⟩ := h2
  exact ⟨by omega, by omega, by omega⟩

theorem advances_falseNegativeSite (s : String) (e : SnpRecord) (st : State) :
    Advances 1 st (falseNegativeSite s e st) := by
  unfold Advances falseNegativeSite siteCounters
  simp only
  split_ifs <;> simp <;> omega

theorem advances_observedOnlyScaffoldSite (s : String) (o : ObsRecord) (st : State) :
    Advances 1 st (observedOnlyScaffoldSite s o st) := by
  unfold Advances observedOnlyScaffoldSite siteCounters
  simp only
  split_ifs <;> simp <;> omega

theorem advances_falsePositiveSite (u : List SiteKey) (s : String) (o : ObsRecord)
    (st : State) : Advances 1 st (falsePositiveSite u s o st) := by
  unfold Advances falsePositiveSite siteCounters
  simp only
  split_ifs <;> simp <;> omega

theorem attributeError_counters (e : SnpRecord) (o : ObsRecord) (st : State) :
    siteCounters (attributeError e o st) = siteCounters st ∧
    (attributeError e o st).indel_sites = st.indel_sites ∧
    (attributeError e o st).masked_bases = st.masked_bases ∧
    (attributeError e o st).IR_masked = st.IR_masked ∧
    (attributeError e o st).IH_masked = st.IH_masked ∧
    (attributeError e o st).IA_masked = st.IA_masked ∧
    (attributeError e o st).NR_masked = st.NR_masked ∧
    (attributeError e o st).NH_masked = st.NH_masked ∧
    (attributeError e o st).NA_masked = st.NA_masked := by
  unfold attributeError
  simp only
  split_ifs <;> exact ⟨rfl, rfl, rfl, rfl, rfl, rfl, rfl, rfl, rfl⟩

theorem advances_attributeError (e : SnpRecord) (o : ObsRecord) (st : State) :
    Advances 0 st (attributeError e o st) := by
  obtain ⟨h1, h2, h3, h4, h5, h6, h7, h8, h9⟩ := attributeError_counters e o st
  unfold Advances
  rw [h1, h2, h3, h4, h5, h6, h7, h8, h9]
  exact ⟨rfl, rfl, rfl⟩

theorem advances_sharedSite (s : String) (e : SnpRecord) (o : ObsRecord) (st : State) :
    Advances 1 st (sharedSite s e o st) := by
  by_cases h1 : e.newallele = baseToLong o.newallele
  · unfold Advances sharedSite siteCounters
    simp only [h1, if_true]
    split_ifs <;> simp <;> omega
  · by_cases h2 : baseToLong o.newallele = 4
    · unfold Advances sharedSite siteCounters
      simp only [h1, h2, if_true, if_false]
      split_ifs <;> simp <;> omega
    · have hstep : ∀ st1 : State, Advances 1 st st1 →
          Advances 1 st { attributeError e o st1 with
            error_file := (attributeError e o st1).error_file ++
              [⟨s, e.pos, String.singleton (int2bases e.newallele), o.newallele⟩] } := by
        intro st1 h
        have := advances_trans 1 0 st st1 _ h (advances_attributeError e o st1)
        exact this
      unfold sharedSite
      simp only [h1, h2, if_false]
      split_ifs
      all_goals
        apply hstep
        unfold Advances siteCounters
        simp
        omega

theorem advances_foldl {α : Type} (f : State → α → State)
    (hf : ∀ st x, Advances 1 st (f st x)) (xs : List α) (st : State) :
    Advances xs.length st (xs.foldl f st) := by
  induction xs generalizing st with
  | nil => exact advances_refl st
  | cons x rest ih =>
    have h := advances_trans 1 rest.length st (f st x) _ (hf st x) (ih (f st x))
    simp only [List.foldl_cons, List.length_cons]
    have e : rest.length + 1 = 1 + rest.length := by omega
    rw [e]
    exact h

theorem dedup_length_cons (a : Int) (xs ys : List Int) (h1 : a ∉ xs) (h2 : a ∉ ys) :
    ((a :: xs) ++ ys).dedup.length = (xs ++ ys).dedup.length + 1 := by
  rw [List.cons_append, List.dedup_cons_of_not_mem (by simp [h1, h2])]
  rfl

theorem dedup_length_middle (b : Int) (xs ys : List Int) (h1 : b ∉ xs) (h2 : b ∉ ys) :
    (xs ++ b :: ys).dedup.length = (xs ++ ys).dedup.length + 1 := by
  rw [(List.Perm.dedup (@List.perm_middle _ b xs ys)).length_eq,
    List.dedup_cons_of_not_mem (by simp [h1, h2])]
  rfl

theorem dedup_length_both (a : Int) (xs ys : List Int) (h1 : a ∉ xs) (h2 : a ∉ ys) :
    ((a :: xs) ++ a :: ys).dedup.length = (xs ++ ys).dedup.length + 1 := by
  rw [List.cons_append, List.dedup_cons_of_mem (by simp), dedup_length_middle a xs ys h1 h2]

theorem not_mem_of_all_gt (a : Int) (xs : List Int) (h : ∀ x ∈ xs, a < x) : a ∉ xs := by
  intro hm
  have := h a hm
  omega

theorem distinctSites_nil_right (es : List SnpRecord)
    (h : (es.map (fun r => r.pos)).Pairwise (· < ·)) : distinctSites es [] = es.length := by
  unfold distinctSites
  simp only [List.map_nil, List.append_nil]
  rw [List.Nodup.dedup (h.imp (fun hlt => ne_of_lt hlt)), List.length_map]

theorem distinctSites_nil_left (os : List ObsRecord)
    (h : (os.map (fun r => r.pos)).Pairwise (· < ·)) : distinctSites [] os = os.length := by
  unfold distinctSites
  simp only [List.map_nil, List.nil_append]
  rw [List.Nodup.dedup (h.imp (fun hlt => ne_of_lt hlt)), List.length_map]

/-- The two-cursor loop over position-sorted records makes one step for every
distinct position. -/
theorem advances_compareBoth (u : List SiteKey) (s : String) (es : List SnpRecord) :
    ∀ (os : List ObsRecord) (st : State),
      (es.map (fun r => r.pos)).Pairwise (· < ·) →
      (os.map (fun r => r.pos)).Pairwise (· < ·) →
      Advances (distinctSites es os) st (compareBoth u s es os st) := by
  induction es with
  | nil =>
    intro os st _ ho
    rw [distinctSites_nil_left os ho]
    exact advances_foldl _ (fun st o => advances_falsePositiveSite u s o st) os st
  | cons e rest ih =>
    intro os
    induction os with
    | nil =>
      intro st he _
      rw [distinctSites_nil_right (e :: rest) he]
      exact advances_foldl _ (fun st x => advances_falseNegativeSite s x st) (e :: rest) st
    | cons o os2 ih2 =>
      intro st he ho
      have he2 := he
      have ho2 := ho
      rw [List.map_cons, List.pairwise_cons] at he2 ho2
      obtain ⟨e1, e2⟩ := he2
      obtain ⟨o1, o2⟩ := ho2
      simp only [compareBoth, compareInner]
      by_cases hlt : e.pos < o.pos
      · simp only [hlt, if_true]
        have hd : distinctSites (e :: rest) (o :: os2) = 1 + distinctSites rest (o :: os2) := by
          unfold distinctSites
          rw [List.map_cons, dedup_length_cons e.pos _ _ (not_mem_of_all_gt _ _ e1)
            (not_mem_of_all_gt _ _ (by
              intro x hx
              rw [List.map_cons, List.mem_cons] at hx
              rcases hx with hx | hx
              · omega
              · have := o1 x hx
                omega))]
          omega
        rw [hd]
        exact advances_trans 1 _ st _ _ (advances_falseNegativeSite s e st)
          (ih (o :: os2) _ e2 ho)
      · by_cases hgt : e.pos > o.pos
        · simp only [hlt, hgt, if_true, if_false]
          have hd : distinctSites (e :: rest) (o :: os2)
              = 1 + distinctSites (e :: rest) os2 := by
            unfold distinctSites
            show (List.map (fun r => r.pos) (e :: rest)
                ++ o.pos :: List.map (fun r => r.pos) os2).dedup.length = _
            rw [dedup_length_middle o.pos _ _
              (not_mem_of_all_gt _ _ (by
                intro x hx
                rw [List.map_cons, List.mem_cons] at hx
                rcases hx with hx | hx
                · omega
                · have := e1 x hx
                  omega))
              (not_mem_of_all_gt _ _ o1)]
            omega
          rw [hd]
          have h := ih2 (falsePositiveSite u s o st) he o2
          simp only [compareBoth] at h
          exact advances_trans 1 _ st _ _ (advances_falsePositiveSite u s o st) h
        · simp only [hlt, hgt, if_false]
          have heq : o.pos = e.pos := by omega
          have hd : distinctSites (e :: rest) (o :: os2) = 1 + distinctSites rest os2 := by
            unfold distinctSites
            rw [List.map_cons, List.map_cons, heq, dedup_length_both e.pos _ _
              (not_mem_of_all_gt _ _ e1) (not_mem_of_all_gt _ _ (heq ▸ o1))]
            omega
          rw [hd]
          exact advances_trans 1 _ st _ _ (advances_sharedSite s e o st) (ih os2 _ e2 o2)

theorem advances_classifyScaffold (expected_log : LogMap SnpRecord)
    (observed_log : LogMap ObsRecord) (u : List SiteKey) (s : String) (st : State)
    (he : ((mapAt expected_log s).map (fun r => r.pos)).Pairwise (· < ·))
    (ho : ((mapAt observed_log s).map (fun r => r.pos)).Pairwise (· < ·)) :
    Advances (distinctSites (mapAt expected_log s) (mapAt observed_log s)) st
      (classifyScaffold expected_log observed_log u s st) := by
  have hreset : Advances 0 st (resetScaffoldTallies st) := ⟨rfl, rfl, rfl⟩
  have key : ∀ n st2, Advances n (resetScaffoldTallies st) st2 → Advances n st st2 := by
    intro n st2 h
    have := advances_trans 0 n st _ _ hreset h
    rw [Nat.zero_add] at this
    exact this
  unfold classifyScaffold
  simp only
  by_cases h1 : mapCount expected_log s = 0
  · rw [mapAt_of_count_zero expected_log s h1] at he ⊢
    rw [distinctSites_nil_left _ ho]
    by_cases h2 : mapCount observed_log s > 0
    · simp only [h1, h2, if_true]
      exact key _ _ (advances_foldl _
        (fun st o => advances_observedOnlyScaffoldSite s o st) _ _)
    · have h3 : mapCount observed_log s = 0 := by omega
      simp only [h1, h2, if_true, if_false, mapAt_of_count_zero observed_log s h3,
        List.length_nil]
      exact hreset
  · by_cases h2 : mapCount observed_log s = 0
    · rw [mapAt_of_count_zero observed_log s h2] at ho ⊢
      rw [distinctSites_nil_right _ he]
      simp only [h1, h2, if_true, if_false]
      exact key _ _ (advances_foldl _ (fun st x => advances_falseNegativeSite s x st) _ _)
    · simp only [h1, h2, if_false]
      exact key _ _ (advances_compareBoth u s _ _ _ he ho)

theorem advances_scaffoldPass (expected_log : LogMap SnpRecord)
    (observed_log : LogMap ObsRecord) (u : List SiteKey) (lengths : String → Nat)
    (s : String) (st : State)
    (he : ((mapAt expected_log s).map (fun r => r.pos)).Pairwise (· < ·))
    (ho : ((mapAt observed_log s).map (fun r => r.pos)).Pairwise (· < ·)) :
    Advances (distinctSites (mapAt expected_log s) (mapAt observed_log s)) st
      (scaffoldPass expected_log observed_log u lengths st s) := by
  have h := advances_classifyScaffold expected_log observed_log u s st he ho
  exact h

theorem advances_scaffolds (expected_log : LogMap SnpRecord)
    (observed_log : LogMap ObsRecord) (u : List SiteKey) (lengths : String → Nat)
    (scs : List String) :
    ∀ (st : State),
      (∀ s ∈ scs, ((mapAt expected_log s).map (fun r => r.pos)).Pairwise (· < ·)) →
      (∀ s ∈ scs, ((mapAt observed_log s).map (fun r => r.pos)).Pairwise (· < ·)) →
      Advances
        ((scs.map (fun s => distinctSites (mapAt expected_log s) (mapAt observed_log s))).sum)
        st (scs.foldl (scaffoldPass expected_log observed_log u lengths) st) := by
  induction scs with
  | nil => intro st _ _; exact advances_refl st
  | cons s rest ih =>
    intro st he ho
    simp only [List.foldl_cons, List.map_cons, List.sum_cons]
    exact advances_trans _ _ st _ _
      (advances_scaffoldPass expected_log observed_log u lengths s st
        (he s (List.mem_cons_self _ _)) (ho s (List.mem_cons_self _ _)))
      (ih _ (fun x hx => he x (List.mem_cons_of_mem _ hx))
        (fun x hx => ho x (List.mem_cons_of_mem _ hx)))

theorem genome_size_lt (fai : List FaiLine) : genome_size fai < 2 ^ 64 := by
  have h : ∀ (ls : List FaiLine) (g : Nat), g < 2 ^ 64 →
      ls.foldl (fun g f => (g + f.length) % 2 ^ 64) g < 2 ^ 64 := by
    intro ls
    induction ls with
    | nil => intro g hg; exact hg
    | cons f rest ih =>
      intro g _
      exact ih _ (Nat.mod_lt _ (by norm_num))
  exact h fai 0 (by norm_num)

end Compare

namespace Compare

theorem one_counter_falseNegativeSite (s : String) (e : SnpRecord) (st : State) :
    ∃ i, i < 12 ∧
      siteCounters (falseNegativeSite s e st) = (siteCounters st).modify (· + 1) i := by
  unfold falseNegativeSite
  simp only
  split_ifs
  · exact ⟨2, by decide, rfl⟩
  · exact ⟨3, by decide, rfl⟩

theorem one_counter_observedOnlyScaffoldSite (s : String) (o : ObsRecord) (st : State) :
    ∃ i, i < 12 ∧
      siteCounters (observedOnlyScaffoldSite s o st) = (siteCounters st).modify (· + 1) i := by
  unfold observedOnlyScaffoldSite
  simp only
  split_ifs
  · exact ⟨0, by decide, rfl⟩
  · exact ⟨1, by decide, rfl⟩
  · exact ⟨4, by decide, rfl⟩
  · exact ⟨7, by decide, rfl⟩

theorem one_counter_falsePositiveSite (u : List SiteKey) (s : String) (o : ObsRecord)
    (st : State) :
    ∃ i, i < 12 ∧
      siteCounters (falsePositiveSite u s o st) = (siteCounters st).modify (· + 1) i := by
  unfold falsePositiveSite
  simp only
  split_ifs <;>
    first
    | exact ⟨0, by decide, rfl⟩
    | exact ⟨1, by decide, rfl⟩
    | exact ⟨4, by decide, rfl⟩
    | exact ⟨7, by decide, rfl⟩

theorem one_counter_sharedSite (s : String) (e : SnpRecord) (o : ObsRecord) (st : State) :
    ∃ i, i < 12 ∧
      siteCounters (sharedSite s e o st) = (siteCounters st).modify (· + 1) i := by
  by_cases h1 : e.newallele = baseToLong o.newallele
  · unfold sharedSite
    simp only [h1, if_true]
    split_ifs
    · exact ⟨10, by decide, rfl⟩
    · exact ⟨11, by decide, rfl⟩
  · by_cases h2 : baseToLong o.newallele = 4
    · have h3 : ¬ e.newallele = 4 := by
        rw [← h2]
        exact h1
      unfold sharedSite
      simp only [h2, h3, if_true, if_false]
      split_ifs <;>
        first
        | exact ⟨0, by decide, rfl⟩
        | exact ⟨1, by decide, rfl⟩
    · have hstep : ∀ (st1 : State) (i : Nat), i < 12 →
          siteCounters st1 = (siteCounters st).modify (· + 1) i →
          ∃ i, i < 12 ∧
            siteCounters { attributeError e o st1 with
              error_file := (attributeError e o st1).error_file ++
                [⟨s, e.pos, String.singleton (int2bases e.newallele), o.newallele⟩] }
              = (siteCounters st).modify (· + 1) i := by
        intro st1 i hi h
        exact ⟨i, hi, (attributeError_counters e o st1).1.trans h⟩
      unfold sharedSite
      simp only [h1, h2, if_false]
      split_ifs
      · exact hstep _ 5 (by decide) rfl
      · exact hstep _ 8 (by decide) rfl
      · exact hstep _ 6 (by decide) rfl
      · exact hstep _ 9 (by decide) rfl

/-- C35. Each of the four site handlers of compareSNPlogs increments exactly
one of the twelve counters `indel_sites`, `masked_bases`, the eight mismatch
counters, `HH_match`, `AA_match`, by 1.  When the expected log loads and, for
every scaffold of the index, the expected and the observed positions increase
strictly, the run ends with `indel_sites = IR_masked + IH_masked + IA_masked`,
`masked_bases = NR_masked + NH_masked + NA_masked`, the twelve counters sum to
the number of distinct positions of the records on the indexed scaffolds, and
`RR_match` is `genome_size` minus that number in `unsigned long` arithmetic
(the difference itself when the number is at most `genome_size`). -/
theorem sub_bucket_accounting (fai : List FaiLine) (expected observed : List LogLine)
    (min_depth : Nat) (expected_log : LogMap SnpRecord) (uncallable_sites : List SiteKey)
    (hload : readExpected min_depth expected = .ok (expected_log, uncallable_sites))
    (hes : ∀ s ∈ readScaffolds fai,
      ((mapAt expected_log s).map (fun r => r.pos)).Pairwise (· < ·))
    (hos : ∀ s ∈ readScaffolds fai,
      ((mapAt (readObserved observed) s).map (fun r => r.pos)).Pairwise (· < ·)) :
    (∀ (u : List SiteKey) (s : String) (e : SnpRecord) (o : ObsRecord) (st : State),
      (∃ i, i < 12 ∧
        siteCounters (falseNegativeSite s e st) = (siteCounters st).modify (· + 1) i) ∧
      (∃ i, i < 12 ∧
        siteCounters (observedOnlyScaffoldSite s o st)
          = (siteCounters st).modify (· + 1) i) ∧
      (∃ i, i < 12 ∧
        siteCounters (falsePositiveSite u s o st) = (siteCounters st).modify (· + 1) i) ∧
      (∃ i, i < 12 ∧
        siteCounters (sharedSite s e o st) = (siteCounters st).modify (· + 1) i)) ∧
    ∃ st, main fai expected observed min_depth = .ok st ∧
      st.indel_sites = st.IR_masked + st.IH_masked + st.IA_masked ∧
      st.masked_bases = st.NR_masked + st.NH_masked + st.NA_masked ∧
      (siteCounters st).sum
        = ((readScaffolds fai).map (fun s =>
            distinctSites (mapAt expected_log s) (mapAt (readObserved observed) s))).sum ∧
      st.RR_match = u64 ((genome_size fai : Int)
        - (((readScaffolds fai).map (fun s =>
            distinctSites (mapAt expected_log s) (mapAt (readObserved observed) s))).sum
          : Nat)) ∧
      (((readScaffolds fai).map (fun s =>
            distinctSites (mapAt expected_log s) (mapAt (readObserved observed) s))).sum
          ≤ genome_size fai →
        st.RR_match + ((readScaffolds fai).map (fun s =>
            distinctSites (mapAt expected_log s) (mapAt (readObserved observed) s))).sum
          = genome_size fai) := by
  refine ⟨fun u s e o st => ⟨one_counter_falseNegativeSite s e st,
    one_counter_observedOnlyScaffoldSite s o st, one_counter_falsePositiveSite u s o st,
    one_counter_sharedSite s e o st⟩, ?_⟩
  obtain ⟨h1, h2, h3⟩ := advances_scaffolds expected_log (readObserved observed)
    uncallable_sites (scaffold_lengths fai) (readScaffolds fai) {} hes hos
  generalize hN : ((readScaffolds fai).map (fun s =>
    distinctSites (mapAt expected_log s) (mapAt (readObserved observed) s))).sum = N
    at h1 ⊢
  generalize hst : (readScaffolds fai).foldl
    (scaffoldPass expected_log (readObserved observed) uncallable_sites
      (scaffold_lengths fai)) {} = stl at h1 h2 h3
  have hmain : main fai expected observed min_depth
      = .ok (finish fai uncallable_sites stl) := by
    unfold main
    rw [hload]
    simp only [hst]
  have hg := genome_size_lt fai
  have h64n : (2 : Nat) ^ 64 = 18446744073709551616 := by norm_num
  have h64 : (2 : Int) ^ 64 = 18446744073709551616 := by norm_num
  rw [h64n] at hg
  simp only [siteCounters, List.sum_cons, List.sum_nil] at h1
  have hrr : (finish fai uncallable_sites stl).RR_match
      = u64 ((genome_size fai : Int) - (N : Nat)) := by
    simp only [finish]
    congr 1
    push_cast
    omega
  refine ⟨finish fai uncallable_sites stl, hmain, ?_, ?_, ?_, hrr, ?_⟩
  · show stl.indel_sites = stl.IR_masked + stl.IH_masked + stl.IA_masked
    simpa using h2
  · show stl.masked_bases = stl.NR_masked + stl.NH_masked + stl.NA_masked
    simpa using h3
  · show (siteCounters stl).sum = N
    simp only [siteCounters, List.sum_cons, List.sum_nil]
    omega
  · intro hle
    rw [hrr]
    unfold u64
    rw [h64]
    omega

/-- A one-scaffold run: expected records at 100 and 200, observed records at
100 and 300, three distinct positions. -/
theorem sub_bucket_accounting_witness :
    ∃ st, main [⟨"chr1", 1000⟩]
        [⟨"chr1", 100, "A", "C", none⟩, ⟨"chr1", 200, "A", "G", none⟩]
        [⟨"chr1", 100, "A", "C", none⟩, ⟨"chr1", 300, "A", "T", none⟩] 0 = .ok st ∧
      st.indel_sites = st.IR_masked + st.IH_masked + st.IA_masked ∧
      st.masked_bases = st.NR_masked + st.NH_masked + st.NA_masked ∧
      (siteCounters st).sum = 3 ∧
      st.RR_match = 997 :=
  match (sub_bucket_accounting [⟨"chr1", 1000⟩]
      [⟨"chr1", 100, "A", "C", none⟩, ⟨"chr1", 200, "A", "G", none⟩]
      [⟨"chr1", 100, "A", "C", none⟩, ⟨"chr1", 300, "A", "T", none⟩] 0
      [("chr1", [⟨100, 0, 1⟩, ⟨200, 0, 2⟩])] [] rfl (by decide) (by decide)).2 with
  | ⟨st, h1, h2, h3, h4, h5, _⟩ => ⟨st, h1, h2, h3, h4.trans (by decide), h5.trans (by decide)⟩

end Compare
end VCS
